import Mathlib

/-!
# Primitive-type classification and splitting (SortByPTypeProcess.cpp)

A shallow embedding of the two post-processing steps implemented in
`code/SortByPTypeProcess.cpp`:

* `DeterminePTypeHelperProcess::Execute` collapses degenerate faces and computes
  the primitive-type mask of every mesh whose mask is still zero;
* `SortByPTypeProcess::Execute` splits every mesh that mixes primitive types
  into one mesh per type.

C arrays are lists, a null pointer is `none`, `unsigned int` counts are natural
numbers (no array reaches `2 ^ 32` entries; the one subtraction that wraps
around, `mNumIndices-1`, is modelled modulo `2 ^ 32`).  Pointer-indexed scratch
tables (`aiNumPerPType`, `tempBones`, the vertex weight table) are functions of
the index.  Reads outside an array yield the default value of the element type;
the theorems carry the range conditions under which the C code is defined.
-/

namespace Assimp

/-! ## Data model -/

/-- Modelled from the spec: the `float` scalar of the public headers, as far as
this file observes it.  The file only copies values, compares them with `==`
and stores the quiet NaN, so a value is either an ordinary number (coded by an
integer) or the quiet NaN. -/
inductive FloatVal where
  | num (v : Int)
  | qnan
  deriving DecidableEq, Repr

instance : Inhabited FloatVal := ⟨FloatVal.num 0⟩

/-- Modelled from the spec: `==` on `float`; the NaN compares unequal to everything,
itself included. -/
def FloatVal.eq : FloatVal → FloatVal → Bool
  | .num a, .num b => a == b
  | _, _ => false

/-- Modelled from the spec: `aiVector3D` of the public headers (three floats,
zero-initialised by its default constructor). -/
structure aiVector3D where
  x : FloatVal
  y : FloatVal
  z : FloatVal
  deriving DecidableEq, Repr

instance : Inhabited aiVector3D := ⟨⟨.num 0, .num 0, .num 0⟩⟩

/-- Modelled from the spec: `aiVector3D::operator==`, exact component-wise
position equality. -/
def aiVector3D.eq (a b : aiVector3D) : Bool :=
  a.x.eq b.x && a.y.eq b.y && a.z.eq b.z

/-- Modelled from the spec: `aiColor4D` of the public headers. -/
structure aiColor4D where
  r : FloatVal
  g : FloatVal
  b : FloatVal
  a : FloatVal
  deriving DecidableEq, Repr

instance : Inhabited aiColor4D := ⟨⟨.num 0, .num 0, .num 0, .num 0⟩⟩

/-- Modelled from the spec: `aiFace` of the public headers, an ordered sequence of
vertex indices: `mIndices` with `mNumIndices` entries. -/
structure aiFace where
  mIndices : List Nat
  deriving DecidableEq, Repr

instance : Inhabited aiFace := ⟨⟨[]⟩⟩

/-- The `mNumIndices` member. -/
def aiFace.mNumIndices (f : aiFace) : Nat := f.mIndices.length

/-- The entry `mIndices[q]`. -/
def aiFace.idx (f : aiFace) (q : Nat) : Nat := f.mIndices.getD q 0

/-- Modelled from the spec: `aiVertexWeight` of the public headers, a
(vertex index, weight) pair: `mVertexId`, `mWeight`. -/
structure aiVertexWeight where
  mVertexId : Nat
  mWeight : FloatVal
  deriving DecidableEq, Repr

/-- Modelled from the spec: `aiBone` of the public headers: name, offset matrix
(its sixteen floats) and `mWeights` with `mNumWeights` entries. -/
structure aiBone where
  mName : String
  mOffsetMatrix : List FloatVal
  mWeights : List aiVertexWeight
  deriving DecidableEq, Repr

/-- Modelled from the spec: `aiMesh` of the public headers, with the members this
file uses.  The per-channel arrays `mTextureCoords`, `mNumUVComponents` and
`mColors` have `AI_MAX_NUMBER_OF_TEXTURECOORDS` respectively
`AI_MAX_NUMBER_OF_COLOR_SETS` entries; the two constants are declared outside
this file and are the lengths of the lists here. -/
structure aiMesh where
  mPrimitiveTypes : Nat
  mNumVertices : Nat
  mFaces : List aiFace
  mVertices : Option (List aiVector3D)
  mNormals : Option (List aiVector3D)
  mTangents : Option (List aiVector3D)
  mBitangents : Option (List aiVector3D)
  mTextureCoords : List (Option (List aiVector3D))
  mNumUVComponents : List Nat
  mColors : List (Option (List aiColor4D))
  mMaterialIndex : Nat
  mBones : List aiBone
  deriving DecidableEq, Repr

/-- Modelled from the spec: `aiNode` of the public headers: the mesh references
of the node and its children. -/
inductive aiNode where
  | mk (mMeshes : List Nat) (mChildren : List aiNode)

/-- Modelled from the spec: `aiScene` of the public headers: the flat mesh list
and the root node. -/
structure aiScene where
  mMeshes : List aiMesh
  mRootNode : aiNode

/-- Modelled from the spec: the bit `aiPrimitiveType_POINT` of the public headers
(the output mesh of kind `real` gets the mask `1u << real`). -/
def aiPrimitiveType_POINT : Nat := 1
/-- Modelled from the spec: the bit `aiPrimitiveType_LINE` of the public headers
(the output mesh of kind `real` gets the mask `1u << real`). -/
def aiPrimitiveType_LINE : Nat := 2
/-- Modelled from the spec: the bit `aiPrimitiveType_TRIANGLE` of the public headers
(the output mesh of kind `real` gets the mask `1u << real`). -/
def aiPrimitiveType_TRIANGLE : Nat := 4
/-- Modelled from the spec: the bit `aiPrimitiveType_POLYGON` of the public headers
(the output mesh of kind `real` gets the mask `1u << real`). -/
def aiPrimitiveType_POLYGON : Nat := 8

/-- The read `verts[i]` of a vertex stream. -/
def streamAt {α : Type} [Inhabited α] (verts : Option (List α)) (i : Nat) : α :=
  (verts.getD []).getD i default

/-! ## DeterminePTypeHelperProcess -/

/-- What the `switch` leaves of one face: the face as it stands, the bit or-ed
into the mask and whether the face was collapsed. -/
structure Classified where
  face : aiFace
  ptype : Nat
  deg : Bool
  deriving DecidableEq, Repr

/-- The label `case 1u`. -/
def classifyPoint (f : aiFace) (deg : Bool) : Classified :=
  ⟨f, aiPrimitiveType_POINT, deg⟩

/-- The label `case 2u`, entered directly or by falling through from `case 3u`. -/
def classifyLine (verts : Option (List aiVector3D)) (f : aiFace) (deg : Bool) : Classified :=
  if (streamAt verts (f.idx 0)).eq (streamAt verts (f.idx 1)) then
    classifyPoint ⟨[f.idx 0]⟩ true
  else
    ⟨f, aiPrimitiveType_LINE, deg⟩

/-- The label `case 3u`. -/
def classifyTriangle (verts : Option (List aiVector3D)) (f : aiFace) : Classified :=
  if (streamAt verts (f.idx 0)).eq (streamAt verts (f.idx 1)) ||
      (streamAt verts (f.idx 1)).eq (streamAt verts (f.idx 2)) then
    classifyLine verts ⟨[f.idx 0, f.idx 2]⟩ true
  else if (streamAt verts (f.idx 2)).eq (streamAt verts (f.idx 0)) then
    classifyLine verts ⟨[f.idx 0, f.idx 1]⟩ true
  else
    ⟨f, aiPrimitiveType_TRIANGLE, false⟩

/-- The `switch (face.mNumIndices)` of the classifier. -/
def classifyFace (verts : Option (List aiVector3D)) (f : aiFace) : Classified :=
  match f.mNumIndices with
  | 3 => classifyTriangle verts f
  | 2 => classifyLine verts f false
  | 1 => classifyPoint f false
  | _ => ⟨f, aiPrimitiveType_POLYGON, false⟩

/-- The loop over the faces of one mesh: the faces as they stand afterwards, the
mask and `bDeg`. -/
def classifyFaces (verts : Option (List aiVector3D)) :
    List aiFace → Nat → Bool → List aiFace × Nat × Bool
  | [], mask, deg => ([], mask, deg)
  | f :: fs, mask, deg =>
    let c := classifyFace verts f
    let r := classifyFaces verts fs (mask ||| c.ptype) (deg || c.deg)
    (c.face :: r.1, r.2.1, r.2.2)

/-- The body of the mesh loop of `DeterminePTypeHelperProcess::Execute`: the mesh
afterwards and whether the warning is logged for it. -/
def DeterminePTypeHelperProcess.ExecuteMesh (mesh : aiMesh) : aiMesh × Bool :=
  if mesh.mPrimitiveTypes = 0 then
    let r := classifyFaces mesh.mVertices mesh.mFaces 0 false
    ({ mesh with mFaces := r.1, mPrimitiveTypes := r.2.1 }, r.2.2)
  else
    (mesh, false)

/-- The step `DeterminePTypeHelperProcess::Execute`: the scene afterwards and the
warnings handed to the logger, one per mesh with collapsed faces. -/
def DeterminePTypeHelperProcess.Execute (pScene : aiScene) : aiScene × List String :=
  let rs := pScene.mMeshes.map DeterminePTypeHelperProcess.ExecuteMesh
  ({ pScene with mMeshes := rs.map Prod.fst },
   (rs.filter Prod.snd).map (fun _ => "Found degenerated primitives"))

/-! ## SortByPTypeProcess: splitting one mesh -/

/-- An output array allocated with `new T[n]` together with the pointer that
walks over it (`vert`, `nor`, `uv[i]`, `outFaces`, ...). -/
structure Cursor (α : Type) where
  buf : List α
  pos : Nat
  deriving DecidableEq, Repr

/-- The allocation `new T[n]`: `n` default-constructed entries, pointer at the
first. -/
def Cursor.alloc (α : Type) [Inhabited α] (n : Nat) : Cursor α :=
  ⟨List.replicate n default, 0⟩

/-- The write `*p++ = v`. -/
def Cursor.put {α : Type} (c : Cursor α) (v : α) : Cursor α :=
  ⟨c.buf.set c.pos v, c.pos + 1⟩

/-- The per-vertex table handed over by `ComputeVertexBoneWeightTable`: for a
vertex index the pairs (bone id, weight). -/
abbrev VertexWeightTable := List (Nat × FloatVal)

/-- The (bone id, weight) pairs that the bones `bs`, numbered from `i`, hold for
the vertex `v`: bones in order, the weights of a bone in their order. -/
def weightsOfVertex : List aiBone → Nat → Nat → VertexWeightTable
  | [], _, _ => []
  | b :: bs, i, v =>
    ((b.mWeights.filter fun w => w.mVertexId == v).map fun w => (i, w.mWeight)) ++
      weightsOfVertex bs (i + 1) v

/-- Modelled from the spec: `ComputeVertexBoneWeightTable` of `ProcessHelper.h`,
which is not part of this file: the mapping from a vertex index to the
(bone id, weight) pairs that reference it, i.e. the per-vertex inversion of the
weight lists of the bones of the mesh. -/
def ComputeVertexBoneWeightTable (mesh : aiMesh) : Option (Nat → VertexWeightTable) :=
  some fun v => weightsOfVertex mesh.mBones 0 v

/-- The index `pFirstFace->mNumIndices-1` of the counting loop for a face of at
most three indices, in `unsigned int` arithmetic, and `3` for a larger face. -/
def counterIndex (n : Nat) : Nat :=
  if n ≤ 3 then (n + 4294967295) % 4294967296 else 3

/-- The increment `++aiNumPerPType[i]`.  The four counters are the values at
`0..3`.  For an index outside of them, which only a face without indices
produces, the C code writes outside the array (undefined behaviour); here the
four counters are then left as they are. -/
def bump (c : Nat → Nat) (i : Nat) : Nat → Nat :=
  fun j => if j = i then c j + 1 else c j

/-- The counting loop: `aiNumPerPType` and `numPolyVerts`. -/
def countFaces : List aiFace → (Nat → Nat) × Nat → (Nat → Nat) × Nat
  | [], acc => acc
  | f :: fs, (c, numPolyVerts) =>
    if f.mNumIndices ≤ 3 then
      countFaces fs (bump c (counterIndex f.mNumIndices), numPolyVerts)
    else
      countFaces fs (bump c 3, numPolyVerts + f.mNumIndices)

/-- The negation of the `continue` test of the copy loop: the face with `n`
indices goes into the output mesh of kind `real`. -/
def faceMatches (real n : Nat) : Bool :=
  !((real == 3 && decide (n ≤ 3)) || (real != 3 && n != real + 1))

/-- The state of the copy loop for one output mesh: the source positions
`mesh->mVertices` (whose consumed entries are overwritten), the output pointers,
the accumulators `tempBones`, and `outIdx`. -/
structure SplitState where
  srcVerts : Option (List aiVector3D)
  vert : Option (Cursor aiVector3D)
  nor : Option (Cursor aiVector3D)
  tan : Option (Cursor aiVector3D)
  bit : Option (Cursor aiVector3D)
  uv : List (Option (Cursor aiVector3D))
  cols : List (Option (Cursor aiColor4D))
  tempBones : Nat → List aiVertexWeight
  outFaces : Cursor aiFace
  outIdx : Nat

/-- The store `mesh->mVertices[idx].x = quiet_NaN()`. -/
def poisonX (verts : Option (List aiVector3D)) (idx : Nat) : Option (List aiVector3D) :=
  verts.map fun l =>
    match l[idx]? with
    | some v => l.set idx { v with x := FloatVal.qnan }
    | none => l

/-- The statement `tempBones[b].push_back(w)`. -/
def pushWeight (tb : Nat → List aiVertexWeight) (b : Nat) (w : aiVertexWeight) :
    Nat → List aiVertexWeight :=
  fun q => if q = b then tb q ++ [w] else tb q

/-- The loop over `avw[idx]`: every (bone id, weight) pair of the vertex is
appended to the accumulator of its bone, with `idx` as vertex id. -/
def accumulate (tb : Nat → List aiVertexWeight) (idx : Nat) (tbl : VertexWeightTable) :
    Nat → List aiVertexWeight :=
  tbl.foldl (fun t e => pushWeight t e.1 ⟨idx, e.2⟩) tb

/-- The two channel loops of the copy loop: channel after channel `*p[pp]++ =
src[pp][idx]`, left at the first channel whose pointer is null. -/
def copyChannels {α : Type} [Inhabited α] :
    List (Option (Cursor α)) → List (Option (List α)) → Nat → List (Option (Cursor α))
  | some c :: cs, src :: srcs, idx => some (c.put (streamAt src idx)) :: copyChannels cs srcs idx
  | cs, _, _ => cs

/-- The body of the loop over the indices of a face, for the index `idx`
read from `in.mIndices[q]`. -/
def copyCorner (mesh : aiMesh) (avw : Option (Nat → VertexWeightTable)) (st : SplitState)
    (idx : Nat) : SplitState :=
  { srcVerts := if st.vert.isSome then poisonX st.srcVerts idx else st.srcVerts
    vert := st.vert.map fun c => c.put (streamAt st.srcVerts idx)
    nor := st.nor.map fun c => c.put (streamAt mesh.mNormals idx)
    tan := st.tan.map fun c => c.put (streamAt mesh.mTangents idx)
    bit := if st.tan.isSome then st.bit.map fun c => c.put (streamAt mesh.mBitangents idx)
           else st.bit
    uv := copyChannels st.uv mesh.mTextureCoords idx
    cols := copyChannels st.cols mesh.mColors idx
    tempBones := match avw with
      | some tbl => accumulate st.tempBones idx (tbl idx)
      | none => st.tempBones
    outFaces := st.outFaces
    outIdx := st.outIdx + 1 }

/-- The loop over the indices of one face: the state afterwards and the index
list as rewritten in place by `in.mIndices[q] = outIdx++`. -/
def copyIndices (mesh : aiMesh) (avw : Option (Nat → VertexWeightTable)) :
    List Nat → SplitState → SplitState × List Nat
  | [], st => (st, [])
  | idx :: rest, st =>
    let r := copyIndices mesh avw rest (copyCorner mesh avw st idx)
    (r.1, st.outIdx :: r.2)

/-- The loop over the source faces for the output mesh of kind `real`.  The
output face takes over the index storage of the source face, which is
rewritten in place. -/
def copyFaces (mesh : aiMesh) (avw : Option (Nat → VertexWeightTable)) (real : Nat) :
    List aiFace → SplitState → SplitState
  | [], st => st
  | f :: fs, st =>
    if faceMatches real f.mNumIndices then
      let r := copyIndices mesh avw f.mIndices st
      copyFaces mesh avw real fs { r.1 with outFaces := r.1.outFaces.put ⟨r.2⟩ }
    else
      copyFaces mesh avw real fs st

/-- The generation of the output bones: one bone for every source bone `q` with a
non-empty accumulator, with the name and offset matrix of the source bone.  The
weights are the accumulator; the `memcpy` is taken to transfer whole entries
(an `aiVertexWeight` has the size of a pointer on the 64-bit targets). -/
def makeBones (tb : Nat → List aiVertexWeight) : List aiBone → Nat → List aiBone
  | [], _ => []
  | b :: bs, q =>
    if (tb q).isEmpty then makeBones tb bs (q + 1)
    else { mName := b.mName, mOffsetMatrix := b.mOffsetMatrix, mWeights := tb q } ::
      makeBones tb bs (q + 1)

/-- What one round of the loop over `real` leaves: the output mesh, the final
`outIdx`, the accumulators `tempBones` and the source positions as they stand
afterwards. -/
structure KindResult where
  out : aiMesh
  outIdx : Nat
  tempBones : Nat → List aiVertexWeight
  srcVerts : Option (List aiVector3D)

/-- The state at the start of the copy loop, after the allocations. -/
def initState (mesh : aiMesh) (srcVerts : Option (List aiVector3D)) (numFaces numVertices : Nat) :
    SplitState :=
  { srcVerts := srcVerts
    vert := if mesh.mVertices.isSome then some (Cursor.alloc aiVector3D numVertices) else none
    nor := if mesh.mNormals.isSome then some (Cursor.alloc aiVector3D numVertices) else none
    tan := if mesh.mTangents.isSome then some (Cursor.alloc aiVector3D numVertices) else none
    bit := if mesh.mTangents.isSome then some (Cursor.alloc aiVector3D numVertices) else none
    uv := mesh.mTextureCoords.map fun ch =>
      if ch.isSome then some (Cursor.alloc aiVector3D numVertices) else none
    cols := mesh.mColors.map fun ch =>
      if ch.isSome then some (Cursor.alloc aiColor4D numVertices) else none
    tempBones := fun _ => []
    outFaces := Cursor.alloc aiFace numFaces
    outIdx := 0 }

/-- The body of the loop over `real` for a kind with `aiNumPerPType[real] != 0`. -/
def splitKind (mesh : aiMesh) (avw : Option (Nat → VertexWeightTable)) (counts : Nat → Nat)
    (numPolyVerts real : Nat) (srcVerts : Option (List aiVector3D)) : KindResult :=
  let numFaces := counts real
  let numVertices := if real = 3 then numPolyVerts else numFaces * (real + 1)
  let st := copyFaces mesh avw real mesh.mFaces (initState mesh srcVerts numFaces numVertices)
  { out :=
      { mPrimitiveTypes := 1 <<< real
        mNumVertices := numVertices
        mFaces := st.outFaces.buf
        mVertices := st.vert.map Cursor.buf
        mNormals := st.nor.map Cursor.buf
        mTangents := st.tan.map Cursor.buf
        mBitangents := st.bit.map Cursor.buf
        mTextureCoords := st.uv.map (Option.map Cursor.buf)
        mNumUVComponents := mesh.mNumUVComponents
        mColors := st.cols.map (Option.map Cursor.buf)
        mMaterialIndex := mesh.mMaterialIndex
        mBones := makeBones st.tempBones mesh.mBones 0 }
    outIdx := st.outIdx
    tempBones := st.tempBones
    srcVerts := st.srcVerts }

/-- The loop over `real`, for the kinds listed: `none` for a kind without faces
(the `continue`), the result of the round otherwise.  The source positions are
handed from one round to the next. -/
def splitKinds (mesh : aiMesh) (avw : Option (Nat → VertexWeightTable)) (counts : Nat → Nat)
    (numPolyVerts : Nat) : List Nat → Option (List aiVector3D) → List (Option KindResult)
  | [], _ => []
  | real :: rest, srcVerts =>
    if counts real = 0 then
      none :: splitKinds mesh avw counts numPolyVerts rest srcVerts
    else
      let r := splitKind mesh avw counts numPolyVerts real srcVerts
      some r :: splitKinds mesh avw counts numPolyVerts rest r.srcVerts

/-- The split path of `SortByPTypeProcess::Execute` for one mesh: the counting
loop followed by the loop over `real = 0..3`; entry `real` of the result is the
round for that kind. -/
def splitMeshWith (avw : Option (Nat → VertexWeightTable)) (mesh : aiMesh) :
    List (Option KindResult) :=
  let cnt := countFaces mesh.mFaces (fun _ => 0, 0)
  splitKinds mesh avw cnt.1 cnt.2 [0, 1, 2, 3] mesh.mVertices

/-- The split path with the table computed by `ComputeVertexBoneWeightTable`. -/
def splitMesh (mesh : aiMesh) : List (Option KindResult) :=
  splitMeshWith (ComputeVertexBoneWeightTable mesh) mesh

/-- The number `num` of kind bits set in a mask. -/
def numKinds (mask : Nat) : Nat :=
  (if mask &&& aiPrimitiveType_POINT ≠ 0 then 1 else 0) +
  (if mask &&& aiPrimitiveType_LINE ≠ 0 then 1 else 0) +
  (if mask &&& aiPrimitiveType_TRIANGLE ≠ 0 then 1 else 0) +
  (if mask &&& aiPrimitiveType_POLYGON ≠ 0 then 1 else 0)

/-! ## SortByPTypeProcess: the scene -/

/-- The value `0xffffffff` of a remap slot without output mesh. -/
def absentSlot : Nat := 0xffffffff

/-- The value `0xcdcdcdcd` that ends a remap record. -/
def endOfRecord : Nat := 0xcdcdcdcd

/-- The ways in which the step stops instead of returning. -/
inductive Fault where
  | assertion (what : String)
  | divisionByZero
  deriving DecidableEq, Repr

/-- The divisor `num-1` of the capacity estimate `mNumWeights / (num-1)`, in
`unsigned int` arithmetic. -/
def reserveDivisor (num : Nat) : Nat := (num + 4294967295) % 4294967296

/-- The part of the loop over `real` that appends the output meshes to
`outMeshes` and writes the four slots of the remap record. -/
def emitRounds : List (Option KindResult) → List aiMesh → List aiMesh × List Nat
  | [], outMeshes => (outMeshes, [])
  | none :: rs, outMeshes =>
    let r := emitRounds rs outMeshes
    (r.1, absentSlot :: r.2)
  | some k :: rs, outMeshes =>
    let r := emitRounds rs (outMeshes ++ [k.out])
    (r.1, outMeshes.length :: r.2)

/-- The vectors `outMeshes` and `replaceMeshIndex` (the records written so far). -/
structure SortState where
  outMeshes : List aiMesh
  replaceMeshIndex : List Nat
  deriving DecidableEq, Repr

/-- The body of the mesh loop of `SortByPTypeProcess::Execute`. -/
def SortByPTypeProcess.ExecuteMesh (st : SortState) (mesh : aiMesh) : Except Fault SortState :=
  if mesh.mPrimitiveTypes = 0 then
    Except.error (Fault.assertion "0 != mesh->mPrimitiveTypes")
  else if numKinds mesh.mPrimitiveTypes = 1 then
    Except.ok
      { outMeshes := st.outMeshes ++ [mesh]
        replaceMeshIndex := st.replaceMeshIndex ++
          [st.outMeshes.length, absentSlot, absentSlot, absentSlot, endOfRecord] }
  else if mesh.mBones ≠ [] ∧ reserveDivisor (numKinds mesh.mPrimitiveTypes) = 0 then
    Except.error Fault.divisionByZero
  else
    let r := emitRounds (splitMesh mesh) st.outMeshes
    Except.ok { outMeshes := r.1, replaceMeshIndex := st.replaceMeshIndex ++ r.2 ++ [endOfRecord] }

/-- The mesh loop of `SortByPTypeProcess::Execute`. -/
def SortByPTypeProcess.meshLoop : List aiMesh → SortState → Except Fault SortState
  | [], st => Except.ok st
  | mesh :: rest, st =>
    match SortByPTypeProcess.ExecuteMesh st mesh with
    | Except.ok st' => SortByPTypeProcess.meshLoop rest st'
    | Except.error e => Except.error e

/-- The inner loop of `UpdateNodes` for one mesh reference `m`: the slots of the
record starting at `m*5` up to the end marker, without the absent ones. -/
def remapOf (replaceMeshIndex : List Nat) (m : Nat) : List Nat :=
  ((replaceMeshIndex.drop (m * 5)).takeWhile fun v => v != endOfRecord).filter
    fun v => v != absentSlot

mutual
/-- The function `UpdateNodes`. -/
def UpdateNodes (replaceMeshIndex : List Nat) : aiNode → Except Fault aiNode
  | aiNode.mk mMeshes mChildren =>
    if mMeshes.length ≠ 0 then
      if (mMeshes.flatMap (remapOf replaceMeshIndex)).length = 0 then
        Except.error (Fault.assertion "0 != newSize")
      else
        match UpdateChildren replaceMeshIndex mChildren with
        | Except.ok cs => Except.ok (aiNode.mk (mMeshes.flatMap (remapOf replaceMeshIndex)) cs)
        | Except.error e => Except.error e
    else
      match UpdateChildren replaceMeshIndex mChildren with
      | Except.ok cs => Except.ok (aiNode.mk mMeshes cs)
      | Except.error e => Except.error e
/-- The loop of `UpdateNodes` over the children of a node. -/
def UpdateChildren (replaceMeshIndex : List Nat) : List aiNode → Except Fault (List aiNode)
  | [] => Except.ok []
  | c :: cs =>
    match UpdateNodes replaceMeshIndex c with
    | Except.ok c' =>
      match UpdateChildren replaceMeshIndex cs with
      | Except.ok cs' => Except.ok (c' :: cs')
      | Except.error e => Except.error e
    | Except.error e => Except.error e
end

/-- The step `SortByPTypeProcess::Execute`.  When the number of output meshes
equals the number of meshes of the scene the mesh array of the scene is left as
it is. -/
def SortByPTypeProcess.Execute (pScene : aiScene) : Except Fault aiScene :=
  if pScene.mMeshes.length = 0 then Except.ok pScene
  else
    match SortByPTypeProcess.meshLoop pScene.mMeshes ⟨[], []⟩ with
    | Except.error e => Except.error e
    | Except.ok st =>
      match UpdateNodes st.replaceMeshIndex pScene.mRootNode with
      | Except.error e => Except.error e
      | Except.ok root =>
        Except.ok
          { mMeshes := if st.outMeshes.length ≠ pScene.mMeshes.length then st.outMeshes
                       else pScene.mMeshes
            mRootNode := root }

/-- The output mesh of kind `real` of a split, if the split produces one. -/
def outputOf (rs : List (Option KindResult)) (real : Nat) : Option aiMesh :=
  (rs.getD real none).map KindResult.out

/-- A face with `n` indices has the kind `real`: POINT (0) is one index, LINE (1)
two, TRIANGLE (2) three, POLYGON (3) more than three. -/
def hasKind (real n : Nat) : Bool :=
  (real == 0 && n == 1) || (real == 1 && n == 2) || (real == 2 && n == 3) ||
    (real == 3 && decide (3 < n))

/-- The source faces of kind `real`, in source order. -/
def facesOfKind (mesh : aiMesh) (real : Nat) : List aiFace :=
  mesh.mFaces.filter fun f => hasKind real f.mNumIndices

/-- The vertex indices of the corners of the source faces of kind `real`, in
face order. -/
def cornersOfKind (mesh : aiMesh) (real : Nat) : List Nat :=
  (facesOfKind mesh real).flatMap aiFace.mIndices

/-- The weight entries accumulated for the source bone `q` over all output
meshes of a split. -/
def accumulatedFor (rs : List (Option KindResult)) (q : Nat) : List aiVertexWeight :=
  rs.flatMap fun r =>
    match r with
    | some k => k.tempBones q
    | none => []

/-- The face corners copied into an output mesh, in copy order: the pairs
(index of the corner in the source face, index written into the output face). -/
def cornerPairs (srcFaces outFaces : List aiFace) : List (Nat × Nat) :=
  (List.zip srcFaces outFaces).flatMap fun p => List.zip p.1.mIndices p.2.mIndices

/-! ## Example data -/

/-- A position with three ordinary coordinates. -/
def vec (x y z : Int) : aiVector3D := ⟨.num x, .num y, .num z⟩

/-- The mesh of the end-to-end example: faces (0,1,2), (3,4), (3,4), (5) over six
different positions, with normals, one texture channel, and a bone weighting
the vertices 0, 3 and 5 and a bone weighting the vertex 4. -/
def exampleMesh : aiMesh :=
  { mPrimitiveTypes := 0
    mNumVertices := 6
    mFaces := [⟨[0, 1, 2]⟩, ⟨[3, 4]⟩, ⟨[3, 4]⟩, ⟨[5]⟩]
    mVertices := some [vec 0 0 0, vec 1 0 0, vec 0 1 0, vec 2 0 0, vec 3 0 0, vec 4 0 0]
    mNormals := some [vec 0 0 1, vec 0 0 2, vec 0 0 3, vec 0 0 4, vec 0 0 5, vec 0 0 6]
    mTangents := none
    mBitangents := none
    mTextureCoords := [some [vec 10 0 0, vec 11 0 0, vec 12 0 0, vec 13 0 0, vec 14 0 0, vec 15 0 0],
                       none, none, none]
    mNumUVComponents := [2, 0, 0, 0]
    mColors := [none, none, none, none]
    mMaterialIndex := 7
    mBones := [⟨"arm", [], [⟨0, .num 1⟩, ⟨3, .num 2⟩, ⟨5, .num 3⟩]⟩,
               ⟨"leg", [.num 1], [⟨4, .num 4⟩]⟩] }

/-- The example mesh as the classifier leaves it. -/
def classifiedExample : aiMesh := (DeterminePTypeHelperProcess.ExecuteMesh exampleMesh).1

/-- The scene holding only the example mesh, referenced by the root node. -/
def exampleScene : aiScene := ⟨[exampleMesh], aiNode.mk [0] []⟩

/-- The mesh in slot `i` of the scene after `DeterminePTypeHelperProcess::Execute`. -/
def classifiedMesh (pScene : aiScene) (i : Nat) : Option aiMesh :=
  (DeterminePTypeHelperProcess.Execute pScene).1.mMeshes[i]?

/-- The face in slot `j` of mesh `i` after `DeterminePTypeHelperProcess::Execute`. -/
def classifiedFace (pScene : aiScene) (i j : Nat) : Option aiFace :=
  (classifiedMesh pScene i).bind fun m => m.mFaces[j]?

/-- The comparison `mesh->mVertices[a] == mesh->mVertices[b]`. -/
def samePosition (mesh : aiMesh) (a b : Nat) : Bool :=
  (streamAt mesh.mVertices a).eq (streamAt mesh.mVertices b)

/-- The mask bit of the kind of a face with `n` indices. -/
def kindBit (n : Nat) : Nat :=
  if n = 1 then aiPrimitiveType_POINT
  else if n = 2 then aiPrimitiveType_LINE
  else if n = 3 then aiPrimitiveType_TRIANGLE
  else aiPrimitiveType_POLYGON

/-- A mesh with one face for every pattern of coinciding corners; the vertices
0 and 1 share a position, and so do 2 and 4. -/
def degenerateMesh : aiMesh :=
  { exampleMesh with
    mNumVertices := 5
    mFaces := [⟨[0, 1, 2]⟩, ⟨[0, 2, 1]⟩, ⟨[0, 2, 4]⟩, ⟨[0, 1, 1]⟩, ⟨[0, 1]⟩, ⟨[0, 2, 3]⟩,
               ⟨[0, 2]⟩]
    mVertices := some [vec 0 0 0, vec 0 0 0, vec 1 0 0, vec 2 0 0, vec 1 0 0] }

/-- The scene holding only the mesh with degenerate faces. -/
def degenerateScene : aiScene := ⟨[degenerateMesh], aiNode.mk [0] []⟩

/-- The faces of an output mesh as the copy loop leaves them when it starts with
`outIdx = k`: every face keeps its index count and holds consecutive indices. -/
def renumber : Nat → List aiFace → List aiFace
  | _, [] => []
  | k, f :: fs => ⟨List.range' k f.mNumIndices⟩ :: renumber (k + f.mNumIndices) fs

/-- The classified example mesh with its texture coordinates moved from channel 0
to channel 1, so that channel 1 is present while channel 0 is absent. -/
def gapMesh : aiMesh :=
  { classifiedExample with
    mTextureCoords := [none, some [vec 10 0 0, vec 11 0 0, vec 12 0 0, vec 13 0 0, vec 14 0 0,
                                   vec 15 0 0], none, none]
    mNumUVComponents := [0, 2, 0, 0] }

/-- The classified example mesh with tangents and bitangents. -/
def tangentMesh : aiMesh :=
  { classifiedExample with
    mTangents := some [vec 1 0 1, vec 1 0 2, vec 1 0 3, vec 1 0 4, vec 1 0 5, vec 1 0 6]
    mBitangents := some [vec 0 1 1, vec 0 1 2, vec 0 1 3, vec 0 1 4, vec 0 1 5, vec 0 1 6] }

/-! ## Notions for the scene-level statements -/

/-- The output meshes of one mesh in emission order: the mesh itself when its
mask has one kind bit, otherwise the output meshes of its split in the order
POINT, LINE, TRIANGLE, POLYGON. -/
def outputsOf (mesh : aiMesh) : List aiMesh :=
  if numKinds mesh.mPrimitiveTypes = 1 then [mesh]
  else (splitMesh mesh).filterMap fun r => r.map KindResult.out

/-- The emitted output list of a mesh list: the output meshes of all meshes, mesh
after mesh. -/
def emittedMeshes (meshes : List aiMesh) : List aiMesh :=
  meshes.flatMap outputsOf

/-- The position in the output list of the first output mesh of mesh `i`. -/
def firstOutput (meshes : List aiMesh) (i : Nat) : Nat :=
  ((meshes.take i).map fun m => (outputsOf m).length).sum

/-- The output-list positions of the output meshes of mesh `i`, in emission
order; none for an index that is not valid. -/
def positionsOf (meshes : List aiMesh) (i : Nat) : List Nat :=
  match meshes[i]? with
  | some m => List.range' (firstOutput meshes i) (outputsOf m).length
  | none => []

mutual
/-- The node tree with the reference list of every node, at any depth, replaced
by its image under `f`. -/
def mapNode (f : List Nat → List Nat) : aiNode → aiNode
  | aiNode.mk mMeshes mChildren => aiNode.mk (f mMeshes) (mapChildren f mChildren)
/-- The children of a node with every reference list replaced by its image. -/
def mapChildren (f : List Nat → List Nat) : List aiNode → List aiNode
  | [] => []
  | c :: cs => mapNode f c :: mapChildren f cs
end

mutual
/-- The reference lists of all nodes of a tree, the node itself first. -/
def nodeLists : aiNode → List (List Nat)
  | aiNode.mk mMeshes mChildren => mMeshes :: childrenLists mChildren
/-- The reference lists of all nodes below the given children. -/
def childrenLists : List aiNode → List (List Nat)
  | [] => []
  | c :: cs => nodeLists c ++ childrenLists cs
end

/-- The kinds whose bit is set in a mask, in the order POINT (0), LINE (1),
TRIANGLE (2), POLYGON (3). -/
def kindsOfMask (mask : Nat) : List Nat :=
  [0, 1, 2, 3].filter fun k => mask &&& 2 ^ k != 0

/-- The four slots that the loop over `real` writes into the remap record when it
starts with `first` output meshes. -/
def slotsOf : Nat → List (Option KindResult) → List Nat
  | _, [] => []
  | first, none :: rs => absentSlot :: slotsOf first rs
  | first, some _ :: rs => first :: slotsOf (first + 1) rs

/-- The remap record written for a mesh when `first` output meshes exist. -/
def recordOf (first : Nat) (mesh : aiMesh) : List Nat :=
  if numKinds mesh.mPrimitiveTypes = 1 then
    [first, absentSlot, absentSlot, absentSlot, endOfRecord]
  else slotsOf first (splitMesh mesh) ++ [endOfRecord]

/-- The remap records of a mesh list, the first mesh starting at `first`. -/
def tableOf : Nat → List aiMesh → List Nat
  | _, [] => []
  | first, m :: ms => recordOf first m ++ tableOf (first + (outputsOf m).length) ms

/-- The mask of a mesh is the set of the kinds present among its faces: a kind
bit is set exactly when a face of that kind exists, and no other bit is set. -/
abbrev maskIsKindsOfFaces (mesh : aiMesh) : Prop :=
  mesh.mPrimitiveTypes < 16 ∧
    ∀ k, k < 4 → (mesh.mPrimitiveTypes &&& 2 ^ k ≠ 0 ↔
      ∃ f ∈ mesh.mFaces, hasKind k f.mNumIndices = true)

/-- A mesh whose mask has the POINT and the LINE bit while its only face is a
point. -/
def pointOnlyMesh : aiMesh :=
  { classifiedExample with mPrimitiveTypes := 3, mFaces := [⟨[5]⟩] }

/-- A mesh whose mask has the POINT and the LINE bit and that has no face. -/
def faceLessMesh : aiMesh :=
  { classifiedExample with mPrimitiveTypes := 3, mFaces := [] }

/-- A mesh with a point face and a line face and the mask of these two kinds. -/
def pointLineMesh : aiMesh :=
  { classifiedExample with mPrimitiveTypes := 3, mFaces := [⟨[5]⟩, ⟨[3, 4]⟩] }

/-- A mesh with one point face and the POINT mask. -/
def pointMesh : aiMesh :=
  { classifiedExample with mPrimitiveTypes := 1, mFaces := [⟨[5]⟩] }

/-- A scene with the one mesh whose split yields a single output mesh. -/
def sameCountScene : aiScene := ⟨[pointOnlyMesh], aiNode.mk [0] []⟩

/-- A scene with a mesh that yields no output mesh and a mesh that yields two. -/
def noneAndTwoScene : aiScene := ⟨[faceLessMesh, pointLineMesh], aiNode.mk [1] []⟩

/-- A scene of two meshes with one kind each, one of them referenced twice. -/
def singleKindScene : aiScene :=
  ⟨[pointMesh, { pointMesh with mPrimitiveTypes := 2, mFaces := [⟨[3, 4]⟩] }],
    aiNode.mk [1, 0, 1] [aiNode.mk [] []]⟩

/-- A mesh with zero mask, a point face and a face without indices. -/
def emptyFaceMesh : aiMesh :=
  { exampleMesh with mFaces := [⟨[5]⟩, ⟨[]⟩] }

/-- Modelled from the spec: whether a `float` is a NaN, the values for which
`==` is false even against themselves. -/
def FloatVal.isNaN : FloatVal → Bool
  | .qnan => true
  | .num _ => false

/-- Whether one of the three coordinates of a position is a NaN. -/
def aiVector3D.hasNaN (v : aiVector3D) : Bool :=
  v.x.isNaN || v.y.isNaN || v.z.isNaN

/-- The value `mesh->mVertices[a]`, the position stored for the vertex `a`. -/
def position (mesh : aiMesh) (a : Nat) : aiVector3D :=
  streamAt mesh.mVertices a

/-- A mesh with zero mask whose vertex 0 has a NaN coordinate, with a line and
four triangles that use this vertex more than once. -/
def nanMesh : aiMesh :=
  { exampleMesh with
    mNumVertices := 2
    mFaces := [⟨[0, 0]⟩, ⟨[0, 0, 1]⟩, ⟨[0, 1, 0]⟩, ⟨[1, 0, 0]⟩, ⟨[0, 0, 0]⟩]
    mVertices := some [⟨.qnan, .num 0, .num 0⟩, vec 1 0 0]
    mNormals := none
    mTextureCoords := [none, none, none, none]
    mBones := [] }

/-- The scene holding only the mesh with the NaN coordinate. -/
def nanScene : aiScene := ⟨[nanMesh], aiNode.mk [0] []⟩

end Assimp

namespace Assimp

/-! ## The classifier -/

theorem floatEq_symm (a b : FloatVal) : a.eq b = b.eq a := by
  cases a <;> cases b <;> simp [FloatVal.eq, eq_comm]

theorem floatEq_trans {a b c : FloatVal} (h₁ : a.eq b = true) (h₂ : b.eq c = true) :
    a.eq c = true := by
  cases a <;> cases b <;> cases c <;> simp_all [FloatVal.eq]

theorem vectorEq_symm (a b : aiVector3D) : a.eq b = b.eq a := by
  simp [aiVector3D.eq, floatEq_symm a.x, floatEq_symm a.y, floatEq_symm a.z]

theorem vectorEq_trans {a b c : aiVector3D} (h₁ : a.eq b = true) (h₂ : b.eq c = true) :
    a.eq c = true := by
  simp only [aiVector3D.eq, Bool.and_eq_true] at *
  exact ⟨⟨floatEq_trans h₁.1.1 h₂.1.1, floatEq_trans h₁.1.2 h₂.1.2⟩,
    floatEq_trans h₁.2 h₂.2⟩

theorem classifyFaces_faces (verts : Option (List aiVector3D)) (fs : List aiFace) (mask : Nat)
    (deg : Bool) :
    (classifyFaces verts fs mask deg).1 = fs.map fun f => (classifyFace verts f).face := by
  induction fs generalizing mask deg with
  | nil => rfl
  | cons f fs ih => simp [classifyFaces, ih]

theorem classifyFaces_mask (verts : Option (List aiVector3D)) (fs : List aiFace) (mask : Nat)
    (deg : Bool) :
    (classifyFaces verts fs mask deg).2.1 =
      fs.foldl (fun m f => m ||| (classifyFace verts f).ptype) mask := by
  induction fs generalizing mask deg with
  | nil => rfl
  | cons f fs ih => simp [classifyFaces, ih]

theorem classifyLine_ptype (verts : Option (List aiVector3D)) (f : aiFace) (deg : Bool)
    (h : f.mIndices.length = 2) :
    (classifyLine verts f deg).ptype = kindBit (classifyLine verts f deg).face.mIndices.length := by
  unfold classifyLine
  split <;> simp [classifyPoint, kindBit, h]

theorem classifyFace_ptype (verts : Option (List aiVector3D)) (f : aiFace) :
    (classifyFace verts f).ptype = kindBit (classifyFace verts f).face.mNumIndices := by
  unfold classifyFace aiFace.mNumIndices
  split
  · rename_i h3
    unfold classifyTriangle
    split
    · exact classifyLine_ptype _ _ _ rfl
    · split
      · exact classifyLine_ptype _ _ _ rfl
      · simp [kindBit, h3]
  · rename_i h2
    exact classifyLine_ptype _ _ _ h2
  · rename_i h1
    simp [classifyPoint, kindBit, h1]
  · rename_i n3 n2 n1
    have : ¬ f.mIndices.length = 1 := n1
    have : ¬ f.mIndices.length = 2 := n2
    have : ¬ f.mIndices.length = 3 := n3
    simp [kindBit, *]

theorem and_two_pow_ne_zero (m k : Nat) : m &&& 2 ^ k ≠ 0 ↔ m.testBit k = true := by
  constructor
  · intro h
    obtain ⟨i, hi⟩ := Nat.ne_zero_implies_bit_true h
    rw [Nat.testBit_and, Bool.and_eq_true, Nat.testBit_two_pow] at hi
    have : k = i := by simpa using hi.2
    subst this
    exact hi.1
  · intro h h0
    have : (m &&& 2 ^ k).testBit k = true := by
      rw [Nat.testBit_and, h, Nat.testBit_two_pow_self]; rfl
    rw [h0] at this
    simp at this

theorem kindBit_eq_two_pow (n : Nat) :
    kindBit n = 2 ^ (if n = 1 then 0 else if n = 2 then 1 else if n = 3 then 2 else 3) := by
  unfold kindBit aiPrimitiveType_POINT aiPrimitiveType_LINE aiPrimitiveType_TRIANGLE
    aiPrimitiveType_POLYGON
  split_ifs <;> rfl

theorem foldl_kindBit_testBit (fs : List aiFace) (mask k : Nat) :
    (fs.foldl (fun m f => m ||| kindBit f.mNumIndices) mask).testBit k = true ↔
      mask.testBit k = true ∨ ∃ f ∈ fs, kindBit f.mNumIndices = 2 ^ k := by
  induction fs generalizing mask with
  | nil => simp
  | cons f fs ih =>
    rw [List.foldl_cons, ih, Nat.testBit_or, Bool.or_eq_true]
    have hk : (kindBit f.mNumIndices).testBit k = true ↔ kindBit f.mNumIndices = 2 ^ k := by
      rw [kindBit_eq_two_pow, Nat.testBit_two_pow]
      constructor
      · intro h
        have := of_decide_eq_true h
        rw [this]
      · intro h
        have := Nat.pow_right_injective (le_refl 2) h
        simpa using this
    rw [hk]
    simp only [List.mem_cons, exists_eq_or_imp]
    tauto

theorem ExecuteMesh_faces (mesh : aiMesh) (h : mesh.mPrimitiveTypes = 0) :
    (DeterminePTypeHelperProcess.ExecuteMesh mesh).1.mFaces =
      mesh.mFaces.map fun f => (classifyFace mesh.mVertices f).face := by
  simp [DeterminePTypeHelperProcess.ExecuteMesh, h, classifyFaces_faces]

theorem foldl_ptype_eq (verts : Option (List aiVector3D)) (fs : List aiFace) (m0 : Nat) :
    fs.foldl (fun m f => m ||| (classifyFace verts f).ptype) m0 =
      (fs.map fun f => (classifyFace verts f).face).foldl
        (fun m f => m ||| kindBit f.mNumIndices) m0 := by
  induction fs generalizing m0 with
  | nil => rfl
  | cons f fs ih =>
    simp only [List.foldl_cons, List.map_cons]
    rw [classifyFace_ptype _ f]
    exact ih _

theorem ExecuteMesh_mask (mesh : aiMesh) (h : mesh.mPrimitiveTypes = 0) :
    (DeterminePTypeHelperProcess.ExecuteMesh mesh).1.mPrimitiveTypes =
      (DeterminePTypeHelperProcess.ExecuteMesh mesh).1.mFaces.foldl
        (fun m f => m ||| kindBit f.mNumIndices) 0 := by
  rw [ExecuteMesh_faces mesh h]
  simp only [DeterminePTypeHelperProcess.ExecuteMesh, h, if_true, classifyFaces_mask]
  exact foldl_ptype_eq _ _ _

theorem classifiedMesh_eq (pScene : aiScene) (i : Nat) :
    classifiedMesh pScene i =
      (pScene.mMeshes[i]?).map fun m => (DeterminePTypeHelperProcess.ExecuteMesh m).1 := by
  simp [classifiedMesh, DeterminePTypeHelperProcess.Execute, List.getElem?_map]
  cases pScene.mMeshes[i]? <;> rfl

theorem classifyLine_length_pos (verts : Option (List aiVector3D)) (f : aiFace) (deg : Bool)
    (h : 1 ≤ f.mNumIndices) : 1 ≤ (classifyLine verts f deg).face.mNumIndices := by
  unfold classifyLine
  split
  · simp [classifyPoint, aiFace.mNumIndices]
  · exact h

theorem classifyFace_length_pos (verts : Option (List aiVector3D)) (f : aiFace)
    (h : 1 ≤ f.mNumIndices) : 1 ≤ (classifyFace verts f).face.mNumIndices := by
  unfold classifyFace
  split
  · unfold classifyTriangle
    split
    · exact classifyLine_length_pos _ _ _ (by simp [aiFace.mNumIndices])
    · split
      · exact classifyLine_length_pos _ _ _ (by simp [aiFace.mNumIndices])
      · exact h
  · exact classifyLine_length_pos _ _ _ h
  · exact h
  · exact h

theorem kindBit_eq_point (n : Nat) : kindBit n = 2 ^ 0 ↔ n = 1 := by
  unfold kindBit aiPrimitiveType_POINT aiPrimitiveType_LINE aiPrimitiveType_TRIANGLE
    aiPrimitiveType_POLYGON
  split_ifs <;> simp_all

theorem kindBit_eq_line (n : Nat) : kindBit n = 2 ^ 1 ↔ n = 2 := by
  unfold kindBit aiPrimitiveType_POINT aiPrimitiveType_LINE aiPrimitiveType_TRIANGLE
    aiPrimitiveType_POLYGON
  split_ifs <;> simp_all

theorem kindBit_eq_triangle (n : Nat) : kindBit n = 2 ^ 2 ↔ n = 3 := by
  unfold kindBit aiPrimitiveType_POINT aiPrimitiveType_LINE aiPrimitiveType_TRIANGLE
    aiPrimitiveType_POLYGON
  split_ifs <;> simp_all

theorem kindBit_eq_polygon (n : Nat) (h : 1 ≤ n) : kindBit n = 2 ^ 3 ↔ 3 < n := by
  unfold kindBit aiPrimitiveType_POINT aiPrimitiveType_LINE aiPrimitiveType_TRIANGLE
    aiPrimitiveType_POLYGON
  split_ifs <;> omega

theorem kindBit_ne_high (n k : Nat) (hk : 4 ≤ k) : kindBit n ≠ 2 ^ k := by
  have h16 : 2 ^ 4 ≤ 2 ^ k := Nat.pow_le_pow_right (by decide) hk
  unfold kindBit aiPrimitiveType_POINT aiPrimitiveType_LINE aiPrimitiveType_TRIANGLE
    aiPrimitiveType_POLYGON
  split_ifs <;> omega

/-- C1. For a mesh of the scene with zero mask, faces of at least one index and
in-range face indices, after `DeterminePTypeHelperProcess::Execute` every face
slot holds what the switch leaves of the face that was in that slot (so number and
order of the faces are unchanged), the POINT, LINE, TRIANGLE and POLYGON bits of
the mask are set exactly when a face with 1, 2, 3, respectively more than 3
indices is present afterwards, and no other bit is set. -/
theorem C1_mask_has_exactly_the_kinds_present (pScene : aiScene) (i : Nat) (mesh : aiMesh)
    (hmesh : pScene.mMeshes[i]? = some mesh)
    (hmask : mesh.mPrimitiveTypes = 0)
    (hpos : ∀ f ∈ mesh.mFaces, 1 ≤ f.mNumIndices)
    (_hrange : ∀ f ∈ mesh.mFaces, ∀ v ∈ f.mIndices,
      ∃ l, mesh.mVertices = some l ∧ v < l.length) :
    ∃ after, classifiedMesh pScene i = some after ∧
      after.mFaces = (mesh.mFaces.map fun f => (classifyFace mesh.mVertices f).face) ∧
      after.mFaces.length = mesh.mFaces.length ∧
      (after.mPrimitiveTypes &&& aiPrimitiveType_POINT ≠ 0 ↔
        ∃ f ∈ after.mFaces, f.mNumIndices = 1) ∧
      (after.mPrimitiveTypes &&& aiPrimitiveType_LINE ≠ 0 ↔
        ∃ f ∈ after.mFaces, f.mNumIndices = 2) ∧
      (after.mPrimitiveTypes &&& aiPrimitiveType_TRIANGLE ≠ 0 ↔
        ∃ f ∈ after.mFaces, f.mNumIndices = 3) ∧
      (after.mPrimitiveTypes &&& aiPrimitiveType_POLYGON ≠ 0 ↔
        ∃ f ∈ after.mFaces, 3 < f.mNumIndices) ∧
      ∀ k, 4 ≤ k → after.mPrimitiveTypes.testBit k = false := by
  refine ⟨(DeterminePTypeHelperProcess.ExecuteMesh mesh).1, ?_, ?_, ?_, ?_⟩
  · rw [classifiedMesh_eq, hmesh]; rfl
  · exact ExecuteMesh_faces mesh hmask
  · rw [ExecuteMesh_faces mesh hmask, List.length_map]
  have hafter : ∀ f ∈ (DeterminePTypeHelperProcess.ExecuteMesh mesh).1.mFaces,
      1 ≤ f.mNumIndices := by
    rw [ExecuteMesh_faces mesh hmask]
    intro f hf
    obtain ⟨g, hg, rfl⟩ := List.mem_map.1 hf
    exact classifyFace_length_pos _ g (hpos g hg)
  have hbit : ∀ k, (DeterminePTypeHelperProcess.ExecuteMesh mesh).1.mPrimitiveTypes.testBit k
      = true ↔ ∃ f ∈ (DeterminePTypeHelperProcess.ExecuteMesh mesh).1.mFaces,
        kindBit f.mNumIndices = 2 ^ k := by
    intro k
    rw [ExecuteMesh_mask mesh hmask, foldl_kindBit_testBit]
    simp
  refine ⟨?_, ?_, ?_, ?_, ?_⟩
  · rw [show aiPrimitiveType_POINT = 2 ^ 0 from rfl, and_two_pow_ne_zero, hbit]
    simp only [kindBit_eq_point]
  · rw [show aiPrimitiveType_LINE = 2 ^ 1 from rfl, and_two_pow_ne_zero, hbit]
    simp only [kindBit_eq_line]
  · rw [show aiPrimitiveType_TRIANGLE = 2 ^ 2 from rfl, and_two_pow_ne_zero, hbit]
    simp only [kindBit_eq_triangle]
  · rw [show aiPrimitiveType_POLYGON = 2 ^ 3 from rfl, and_two_pow_ne_zero, hbit]
    constructor
    · rintro ⟨f, hf, h⟩
      exact ⟨f, hf, (kindBit_eq_polygon _ (hafter f hf)).1 h⟩
    · rintro ⟨f, hf, h⟩
      exact ⟨f, hf, (kindBit_eq_polygon _ (hafter f hf)).2 h⟩
  · intro k hk
    by_contra hne
    have ht : (DeterminePTypeHelperProcess.ExecuteMesh mesh).1.mPrimitiveTypes.testBit k
        = true := by simpa using hne
    obtain ⟨f, _, h⟩ := (hbit k).1 ht
    exact kindBit_ne_high _ k hk h

/-- C1, at the mesh of the end-to-end example. -/
theorem C1_mask_has_exactly_the_kinds_present_witness :
    ∃ after, classifiedMesh exampleScene 0 = some after ∧
      after.mFaces = (exampleMesh.mFaces.map fun f =>
        (classifyFace exampleMesh.mVertices f).face) ∧
      after.mFaces.length = exampleMesh.mFaces.length ∧
      (after.mPrimitiveTypes &&& aiPrimitiveType_POINT ≠ 0 ↔
        ∃ f ∈ after.mFaces, f.mNumIndices = 1) ∧
      (after.mPrimitiveTypes &&& aiPrimitiveType_LINE ≠ 0 ↔
        ∃ f ∈ after.mFaces, f.mNumIndices = 2) ∧
      (after.mPrimitiveTypes &&& aiPrimitiveType_TRIANGLE ≠ 0 ↔
        ∃ f ∈ after.mFaces, f.mNumIndices = 3) ∧
      (after.mPrimitiveTypes &&& aiPrimitiveType_POLYGON ≠ 0 ↔
        ∃ f ∈ after.mFaces, 3 < f.mNumIndices) ∧
      ∀ k, 4 ≤ k → after.mPrimitiveTypes.testBit k = false :=
  C1_mask_has_exactly_the_kinds_present exampleScene 0 exampleMesh rfl rfl (by decide)
    (by decide)

theorem classifiedFace_eq (pScene : aiScene) (i j : Nat) (mesh : aiMesh)
    (hmesh : pScene.mMeshes[i]? = some mesh) (hmask : mesh.mPrimitiveTypes = 0) :
    classifiedFace pScene i j =
      (mesh.mFaces[j]?).map fun f => (classifyFace mesh.mVertices f).face := by
  unfold classifiedFace
  rw [classifiedMesh_eq, hmesh]
  simp [ExecuteMesh_faces mesh hmask, List.getElem?_map]

theorem samePosition_symm (mesh : aiMesh) (a b : Nat) :
    samePosition mesh a b = samePosition mesh b a :=
  vectorEq_symm _ _

theorem samePosition_trans (mesh : aiMesh) {a b c : Nat} (h₁ : samePosition mesh a b = true)
    (h₂ : samePosition mesh b c = true) : samePosition mesh a c = true :=
  vectorEq_trans h₁ h₂

theorem classifyFace_line (mesh : aiMesh) (a b : Nat) :
    (classifyFace mesh.mVertices ⟨[a, b]⟩).face =
      if samePosition mesh a b then ⟨[a]⟩ else ⟨[a, b]⟩ := by
  simp only [classifyFace, aiFace.mNumIndices, List.length_cons, List.length_nil, classifyLine,
    aiFace.idx, samePosition, List.getD_cons_zero, List.getD_cons_succ, classifyPoint]
  split <;> rfl

theorem classifyFace_triangle (mesh : aiMesh) (a b c : Nat) :
    (classifyFace mesh.mVertices ⟨[a, b, c]⟩).face =
      if samePosition mesh a b || samePosition mesh b c then
        (if samePosition mesh a c then ⟨[a]⟩ else ⟨[a, c]⟩)
      else if samePosition mesh c a then
        (if samePosition mesh a b then ⟨[a]⟩ else ⟨[a, b]⟩)
      else ⟨[a, b, c]⟩ := by
  simp only [classifyFace, aiFace.mNumIndices, List.length_cons, List.length_nil,
    classifyTriangle, classifyLine, aiFace.idx, samePosition, List.getD_cons_zero,
    List.getD_cons_succ, classifyPoint]
  split
  · split <;> rfl
  · split
    · split <;> rfl
    · rfl

theorem floatEq_iff (a b : FloatVal) : a.eq b = true ↔ a = b ∧ a.isNaN = false := by
  cases a <;> cases b <;> simp [FloatVal.eq, FloatVal.isNaN]

theorem vectorEq_iff (a b : aiVector3D) : a.eq b = true ↔ a = b ∧ a.hasNaN = false := by
  cases a with
  | mk ax ay az =>
    cases b with
    | mk bx b_y bz =>
      simp only [aiVector3D.eq, aiVector3D.hasNaN, Bool.and_eq_true, floatEq_iff,
        Bool.or_eq_false_iff, aiVector3D.mk.injEq]
      tauto

theorem samePosition_iff (mesh : aiMesh) (a b : Nat) :
    samePosition mesh a b = true ↔
      position mesh a = position mesh b ∧ (position mesh a).hasNaN = false :=
  vectorEq_iff _ _

theorem samePosition_of_eq (mesh : aiMesh) (a b : Nat) (h : position mesh a = position mesh b)
    (hn : (position mesh a).hasNaN = false) : samePosition mesh a b = true :=
  (samePosition_iff mesh a b).2 ⟨h, hn⟩

theorem samePosition_false_iff (mesh : aiMesh) (a b : Nat) :
    samePosition mesh a b = false ↔
      (position mesh a = position mesh b → (position mesh a).hasNaN = true) := by
  rw [← Bool.not_eq_true, samePosition_iff]
  constructor
  · intro h heq
    by_contra hn
    exact h ⟨heq, by simpa using hn⟩
  · rintro h ⟨heq, hn⟩
    rw [h heq] at hn
    exact Bool.noConfusion hn

theorem samePosition_of_ne (mesh : aiMesh) (a b : Nat) (h : position mesh a ≠ position mesh b) :
    samePosition mesh a b = false :=
  (samePosition_false_iff mesh a b).2 fun heq => absurd heq h

/-- The collapse of the faces in terms of the comparison `==` of the code. -/
theorem collapse_under_comparison (pScene : aiScene) (i j : Nat) (mesh : aiMesh)
    (hmesh : pScene.mMeshes[i]? = some mesh) (hmask : mesh.mPrimitiveTypes = 0)
    (a b c : Nat) :
    (mesh.mFaces[j]? = some ⟨[a, b, c]⟩ → samePosition mesh a b = true →
      samePosition mesh a c = false → classifiedFace pScene i j = some ⟨[a, c]⟩) ∧
    (mesh.mFaces[j]? = some ⟨[a, b, c]⟩ → samePosition mesh a b = false →
      samePosition mesh c a = true → classifiedFace pScene i j = some ⟨[a, b]⟩) ∧
    (mesh.mFaces[j]? = some ⟨[a, b, c]⟩ → samePosition mesh a b = false →
      samePosition mesh b c = true → classifiedFace pScene i j = some ⟨[a, c]⟩) ∧
    (mesh.mFaces[j]? = some ⟨[a, b, c]⟩ → samePosition mesh a b = true →
      samePosition mesh b c = true → classifiedFace pScene i j = some ⟨[a]⟩) ∧
    (mesh.mFaces[j]? = some ⟨[a, b]⟩ → samePosition mesh a b = true →
      classifiedFace pScene i j = some ⟨[a]⟩) ∧
    (mesh.mFaces[j]? = some ⟨[a, b, c]⟩ → samePosition mesh a b = false →
      samePosition mesh b c = false → samePosition mesh c a = false →
      classifiedFace pScene i j = some ⟨[a, b, c]⟩) ∧
    (mesh.mFaces[j]? = some ⟨[a, b]⟩ → samePosition mesh a b = false →
      classifiedFace pScene i j = some ⟨[a, b]⟩) := by
  rw [classifiedFace_eq pScene i j mesh hmesh hmask]
  refine ⟨?_, ?_, ?_, ?_, ?_, ?_, ?_⟩
  · intro hf hab hac
    rw [hf, Option.map_some', classifyFace_triangle]
    simp [hab, hac]
  · intro hf hab hca
    have hbc : samePosition mesh b c = false := by
      by_contra h
      have h1 : samePosition mesh b c = true := by simpa using h
      have h2 := samePosition_trans mesh h1 hca
      rw [samePosition_symm, hab] at h2
      exact Bool.noConfusion h2
    rw [hf, Option.map_some', classifyFace_triangle]
    simp [hab, hca, hbc]
  · intro hf hab hbc
    have hac : samePosition mesh a c = false := by
      by_contra h
      have h1 : samePosition mesh a c = true := by simpa using h
      have h2 : samePosition mesh c b = true := by rw [samePosition_symm]; exact hbc
      have h3 := samePosition_trans mesh h1 h2
      rw [hab] at h3
      exact Bool.noConfusion h3
    rw [hf, Option.map_some', classifyFace_triangle]
    simp [hbc, hac]
  · intro hf hab hbc
    have hac := samePosition_trans mesh hab hbc
    rw [hf, Option.map_some', classifyFace_triangle]
    simp [hab, hac]
  · intro hf hab
    rw [hf, Option.map_some', classifyFace_line]
    simp [hab]
  · intro hf hab hbc hca
    rw [hf, Option.map_some', classifyFace_triangle]
    simp [hab, hbc, hca]
  · intro hf hab
    rw [hf, Option.map_some', classifyFace_line]
    simp [hab]

/-- C2 as stated fails for a position with a NaN coordinate: in the mesh whose
vertex 0 holds such a position A (and vertex 1 a different position B), the line
(A,A) and the triangles (A,A,B), (A,B,A), (B,A,A) and (A,A,A) all keep their
index lists, because `==` is false for A against itself. -/
theorem C2_face_on_a_nan_position_is_not_collapsed :
    nanMesh.mPrimitiveTypes = 0 ∧
    position nanMesh 0 ≠ position nanMesh 1 ∧
    (nanMesh.mFaces[0]? = some ⟨[0, 0]⟩ ∧ classifiedFace nanScene 0 0 = some ⟨[0, 0]⟩ ∧
      classifiedFace nanScene 0 0 ≠ some ⟨[0]⟩) ∧
    (nanMesh.mFaces[1]? = some ⟨[0, 0, 1]⟩ ∧ classifiedFace nanScene 0 1 = some ⟨[0, 0, 1]⟩ ∧
      classifiedFace nanScene 0 1 ≠ some ⟨[0, 1]⟩) ∧
    (nanMesh.mFaces[2]? = some ⟨[0, 1, 0]⟩ ∧ classifiedFace nanScene 0 2 = some ⟨[0, 1, 0]⟩ ∧
      classifiedFace nanScene 0 2 ≠ some ⟨[0, 1]⟩) ∧
    (nanMesh.mFaces[3]? = some ⟨[1, 0, 0]⟩ ∧ classifiedFace nanScene 0 3 = some ⟨[1, 0, 0]⟩ ∧
      classifiedFace nanScene 0 3 ≠ some ⟨[1, 0]⟩) ∧
    (nanMesh.mFaces[4]? = some ⟨[0, 0, 0]⟩ ∧ classifiedFace nanScene 0 4 = some ⟨[0, 0, 0]⟩ ∧
      classifiedFace nanScene 0 4 ≠ some ⟨[0]⟩) := by
  refine ⟨?_, ?_, ?_, ?_, ?_, ?_, ?_⟩ <;> decide

/-- C2, amended. In `DeterminePTypeHelperProcess::Execute`, for a mesh with zero
mask and distinct positions A and B, where the position that occurs more than
once among the corners has no NaN coordinate: a triangle whose corner positions
are (A,A,B) or (A,B,B) becomes the line of its indices 0 and 2, a triangle
(A,B,A) the line of its indices 0 and 1, a triangle (A,A,A) and a line (A,A)
become the point of index 0.  A triangle with three pairwise different positions
and a line with two different positions keep their index lists, and so does
every triangle and line in which each position that occurs more than once has a
NaN coordinate. -/
theorem C2_degenerate_faces_collapse_unless_nan (pScene : aiScene) (i j : Nat) (mesh : aiMesh)
    (hmesh : pScene.mMeshes[i]? = some mesh) (hmask : mesh.mPrimitiveTypes = 0)
    (a b c : Nat) :
    (mesh.mFaces[j]? = some ⟨[a, b, c]⟩ → position mesh a = position mesh b →
      position mesh a ≠ position mesh c → (position mesh a).hasNaN = false →
      classifiedFace pScene i j = some ⟨[a, c]⟩) ∧
    (mesh.mFaces[j]? = some ⟨[a, b, c]⟩ → position mesh a ≠ position mesh b →
      position mesh c = position mesh a → (position mesh a).hasNaN = false →
      classifiedFace pScene i j = some ⟨[a, b]⟩) ∧
    (mesh.mFaces[j]? = some ⟨[a, b, c]⟩ → position mesh a ≠ position mesh b →
      position mesh b = position mesh c → (position mesh b).hasNaN = false →
      classifiedFace pScene i j = some ⟨[a, c]⟩) ∧
    (mesh.mFaces[j]? = some ⟨[a, b, c]⟩ → position mesh a = position mesh b →
      position mesh b = position mesh c → (position mesh a).hasNaN = false →
      classifiedFace pScene i j = some ⟨[a]⟩) ∧
    (mesh.mFaces[j]? = some ⟨[a, b]⟩ → position mesh a = position mesh b →
      (position mesh a).hasNaN = false → classifiedFace pScene i j = some ⟨[a]⟩) ∧
    (mesh.mFaces[j]? = some ⟨[a, b, c]⟩ → position mesh a ≠ position mesh b →
      position mesh b ≠ position mesh c → position mesh c ≠ position mesh a →
      classifiedFace pScene i j = some ⟨[a, b, c]⟩) ∧
    (mesh.mFaces[j]? = some ⟨[a, b]⟩ → position mesh a ≠ position mesh b →
      classifiedFace pScene i j = some ⟨[a, b]⟩) ∧
    (mesh.mFaces[j]? = some ⟨[a, b, c]⟩ →
      (position mesh a = position mesh b → (position mesh a).hasNaN = true) →
      (position mesh b = position mesh c → (position mesh b).hasNaN = true) →
      (position mesh c = position mesh a → (position mesh c).hasNaN = true) →
      classifiedFace pScene i j = some ⟨[a, b, c]⟩) ∧
    (mesh.mFaces[j]? = some ⟨[a, b]⟩ →
      (position mesh a = position mesh b → (position mesh a).hasNaN = true) →
      classifiedFace pScene i j = some ⟨[a, b]⟩) := by
  have H := collapse_under_comparison pScene i j mesh hmesh hmask a b c
  refine ⟨?_, ?_, ?_, ?_, ?_, ?_, ?_, ?_, ?_⟩
  · intro hf hab hac hn
    exact H.1 hf (samePosition_of_eq mesh a b hab hn) (samePosition_of_ne mesh a c hac)
  · intro hf hab hca hn
    have hnc : (position mesh c).hasNaN = false := by rw [hca]; exact hn
    exact H.2.1 hf (samePosition_of_ne mesh a b hab) (samePosition_of_eq mesh c a hca hnc)
  · intro hf hab hbc hn
    exact H.2.2.1 hf (samePosition_of_ne mesh a b hab) (samePosition_of_eq mesh b c hbc hn)
  · intro hf hab hbc hn
    have hnb : (position mesh b).hasNaN = false := by rw [← hab]; exact hn
    exact H.2.2.2.1 hf (samePosition_of_eq mesh a b hab hn)
      (samePosition_of_eq mesh b c hbc hnb)
  · intro hf hab hn
    exact H.2.2.2.2.1 hf (samePosition_of_eq mesh a b hab hn)
  · intro hf hab hbc hca
    exact H.2.2.2.2.2.1 hf (samePosition_of_ne mesh a b hab) (samePosition_of_ne mesh b c hbc)
      (samePosition_of_ne mesh c a hca)
  · intro hf hab
    exact H.2.2.2.2.2.2 hf (samePosition_of_ne mesh a b hab)
  · intro hf hab hbc hca
    exact H.2.2.2.2.2.1 hf ((samePosition_false_iff mesh a b).2 hab)
      ((samePosition_false_iff mesh b c).2 hbc) ((samePosition_false_iff mesh c a).2 hca)
  · intro hf hab
    exact H.2.2.2.2.2.2 hf ((samePosition_false_iff mesh a b).2 hab)

/-- C2, amended, at a mesh with one face for every pattern, and at the line and
the triangle on the vertex with a NaN coordinate. -/
theorem C2_degenerate_faces_collapse_unless_nan_witness :
    classifiedFace degenerateScene 0 0 = some ⟨[0, 2]⟩ ∧
    classifiedFace degenerateScene 0 1 = some ⟨[0, 2]⟩ ∧
    classifiedFace degenerateScene 0 2 = some ⟨[0, 4]⟩ ∧
    classifiedFace degenerateScene 0 3 = some ⟨[0]⟩ ∧
    classifiedFace degenerateScene 0 4 = some ⟨[0]⟩ ∧
    classifiedFace degenerateScene 0 5 = some ⟨[0, 2, 3]⟩ ∧
    classifiedFace degenerateScene 0 6 = some ⟨[0, 2]⟩ ∧
    classifiedFace nanScene 0 1 = some ⟨[0, 0, 1]⟩ ∧
    classifiedFace nanScene 0 0 = some ⟨[0, 0]⟩ :=
  ⟨(C2_degenerate_faces_collapse_unless_nan degenerateScene 0 0 degenerateMesh rfl rfl
      0 1 2).1 rfl (by decide) (by decide) (by decide),
   (C2_degenerate_faces_collapse_unless_nan degenerateScene 0 1 degenerateMesh rfl rfl
      0 2 1).2.1 rfl (by decide) (by decide) (by decide),
   (C2_degenerate_faces_collapse_unless_nan degenerateScene 0 2 degenerateMesh rfl rfl
      0 2 4).2.2.1 rfl (by decide) (by decide) (by decide),
   (C2_degenerate_faces_collapse_unless_nan degenerateScene 0 3 degenerateMesh rfl rfl
      0 1 1).2.2.2.1 rfl (by decide) (by decide) (by decide),
   (C2_degenerate_faces_collapse_unless_nan degenerateScene 0 4 degenerateMesh rfl rfl
      0 1 0).2.2.2.2.1 rfl (by decide) (by decide),
   (C2_degenerate_faces_collapse_unless_nan degenerateScene 0 5 degenerateMesh rfl rfl
      0 2 3).2.2.2.2.2.1 rfl (by decide) (by decide) (by decide),
   (C2_degenerate_faces_collapse_unless_nan degenerateScene 0 6 degenerateMesh rfl rfl
      0 2 0).2.2.2.2.2.2.1 rfl (by decide),
   (C2_degenerate_faces_collapse_unless_nan nanScene 0 1 nanMesh rfl rfl
      0 0 1).2.2.2.2.2.2.2.1 rfl (by decide) (by decide) (by decide),
   (C2_degenerate_faces_collapse_unless_nan nanScene 0 0 nanMesh rfl rfl
      0 0 0).2.2.2.2.2.2.2.2 rfl (by decide)⟩

/-! ## Output arrays -/

theorem foldl_put_append {α : Type} (vs pre rest : List α) (h : vs.length ≤ rest.length) :
    vs.foldl Cursor.put ⟨pre ++ rest, pre.length⟩ =
      ⟨pre ++ vs ++ rest.drop vs.length, pre.length + vs.length⟩ := by
  induction vs generalizing pre rest with
  | nil => simp
  | cons v vs ih =>
    cases rest with
    | nil => simp at h
    | cons r rest =>
      have h' : vs.length ≤ rest.length := by simpa using h
      have hstep : Cursor.put ⟨pre ++ r :: rest, pre.length⟩ v =
          ⟨(pre ++ [v]) ++ rest, (pre ++ [v]).length⟩ := by
        simp [Cursor.put]
      rw [List.foldl_cons, hstep, ih (pre ++ [v]) rest h']
      simp [Nat.add_assoc, Nat.add_comm 1]

theorem foldl_put_alloc {α : Type} [Inhabited α] (vs : List α) (n : Nat) (h : vs.length = n) :
    vs.foldl Cursor.put (Cursor.alloc α n) = ⟨vs, n⟩ := by
  have := foldl_put_append vs [] (List.replicate n default) (by simp [h])
  simp only [List.nil_append, List.length_nil, Nat.zero_add] at this
  rw [Cursor.alloc, this, h]
  simp [← h]

theorem foldl_put_map {α : Type} (f : Nat → α) (l : List Nat) (c : Cursor α) :
    l.foldl (fun c idx => c.put (f idx)) c = (l.map f).foldl Cursor.put c := by
  rw [List.foldl_map]

theorem foldl_option_map {α : Type} (g : α → Nat → α) (l : List Nat) (c : Option α) :
    l.foldl (fun c idx => c.map fun x => g x idx) c = c.map fun x => l.foldl g x := by
  induction l generalizing c with
  | nil => cases c <;> rfl
  | cons a l ih => rw [List.foldl_cons, ih]; cases c <;> rfl

/-! ## The copy loop, field by field -/

theorem copyIndices_proj {β : Type} (mesh : aiMesh) (avw : Option (Nat → VertexWeightTable))
    (π : SplitState → β) (g : β → Nat → β)
    (hg : ∀ st idx, π (copyCorner mesh avw st idx) = g (π st) idx)
    (l : List Nat) (st : SplitState) :
    π (copyIndices mesh avw l st).1 = l.foldl g (π st) := by
  induction l generalizing st with
  | nil => rfl
  | cons idx l ih => simp only [copyIndices, List.foldl_cons, ih, hg]

theorem copyIndices_outIdx (mesh : aiMesh) (avw : Option (Nat → VertexWeightTable))
    (l : List Nat) (st : SplitState) :
    (copyIndices mesh avw l st).1.outIdx = st.outIdx + l.length := by
  rw [copyIndices_proj mesh avw SplitState.outIdx (fun n _ => n + 1) (fun _ _ => rfl)]
  induction l generalizing st with
  | nil => rfl
  | cons a l ih =>
    have := ih { st with outIdx := st.outIdx + 1 }
    simp only [List.foldl_cons, List.length_cons] at *
    omega

theorem copyIndices_outFaces (mesh : aiMesh) (avw : Option (Nat → VertexWeightTable))
    (l : List Nat) (st : SplitState) :
    (copyIndices mesh avw l st).1.outFaces = st.outFaces := by
  rw [copyIndices_proj mesh avw SplitState.outFaces (fun c _ => c) (fun _ _ => rfl)]
  induction l with
  | nil => rfl
  | cons a l ih => simp [ih]

theorem copyIndices_snd (mesh : aiMesh) (avw : Option (Nat → VertexWeightTable))
    (l : List Nat) (st : SplitState) :
    (copyIndices mesh avw l st).2 = List.range' st.outIdx l.length := by
  induction l generalizing st with
  | nil => rfl
  | cons idx l ih =>
    simp only [copyIndices, ih, List.length_cons, List.range'_succ]
    rfl

theorem copyFaces_proj {β : Type} (mesh : aiMesh) (avw : Option (Nat → VertexWeightTable))
    (real : Nat) (π : SplitState → β) (g : β → Nat → β)
    (hg : ∀ st idx, π (copyCorner mesh avw st idx) = g (π st) idx)
    (hf : ∀ (st : SplitState) (c : Cursor aiFace), π { st with outFaces := c } = π st)
    (fs : List aiFace) (st : SplitState) :
    π (copyFaces mesh avw real fs st) =
      ((fs.filter fun f => faceMatches real f.mNumIndices).flatMap aiFace.mIndices).foldl g
        (π st) := by
  induction fs generalizing st with
  | nil => rfl
  | cons f fs ih =>
    unfold copyFaces
    by_cases hm : faceMatches real f.mNumIndices = true
    · simp only [hm, if_true, List.filter_cons_of_pos, List.flatMap_cons, List.foldl_append]
      rw [ih, hf, copyIndices_proj mesh avw π g hg]
    · simp only [hm, if_false, Bool.false_eq_true]
      rw [ih]
      simp [List.filter_cons, hm]

theorem copyFaces_outIdx (mesh : aiMesh) (avw : Option (Nat → VertexWeightTable))
    (real : Nat) (fs : List aiFace) (st : SplitState) :
    (copyFaces mesh avw real fs st).outIdx = st.outIdx +
      ((fs.filter fun f => faceMatches real f.mNumIndices).flatMap aiFace.mIndices).length := by
  rw [copyFaces_proj mesh avw real SplitState.outIdx (fun n _ => n + 1) (fun _ _ => rfl)
    (fun _ _ => rfl)]
  generalize ((fs.filter fun f => faceMatches real f.mNumIndices).flatMap aiFace.mIndices) = l
  generalize st.outIdx = n
  induction l generalizing n with
  | nil => rfl
  | cons a l ih =>
    have := ih (n + 1)
    simp only [List.foldl_cons, List.length_cons] at *
    omega

theorem copyFaces_outFaces (mesh : aiMesh) (avw : Option (Nat → VertexWeightTable))
    (real : Nat) (fs : List aiFace) (st : SplitState) :
    (copyFaces mesh avw real fs st).outFaces =
      (renumber st.outIdx (fs.filter fun f => faceMatches real f.mNumIndices)).foldl
        Cursor.put st.outFaces := by
  induction fs generalizing st with
  | nil => rfl
  | cons f fs ih =>
    unfold copyFaces
    by_cases hm : faceMatches real f.mNumIndices = true
    · simp only [hm, if_true, List.filter_cons_of_pos, renumber, List.foldl_cons]
      rw [ih]
      simp only [copyIndices_outIdx, copyIndices_outFaces, copyIndices_snd, aiFace.mNumIndices]
    · simp only [hm, if_false, Bool.false_eq_true]
      rw [ih]
      simp [List.filter_cons, hm]

/-! ## The counting loop -/

theorem faceMatches_eq_hasKind (k n : Nat) (hk : k < 4) : faceMatches k n = hasKind k n := by
  have h : k = 0 ∨ k = 1 ∨ k = 2 ∨ k = 3 := by omega
  rcases h with rfl | rfl | rfl | rfl
  · simp [faceMatches, hasKind, bne]
  · simp [faceMatches, hasKind, bne]
  · simp [faceMatches, hasKind, bne]
  · by_cases h3 : n ≤ 3
    · have : ¬ 3 < n := by omega
      simp [faceMatches, hasKind, h3, this]
    · have : 3 < n := by omega
      simp [faceMatches, hasKind, h3, this]

theorem filter_faceMatches (fs : List aiFace) (k : Nat) (hk : k < 4) :
    (fs.filter fun f => faceMatches k f.mNumIndices) =
      fs.filter fun f => hasKind k f.mNumIndices := by
  congr 1
  funext f
  exact faceMatches_eq_hasKind k _ hk

theorem bump_small (c : Nat → Nat) (n k : Nat) (hn : n ≤ 3) (hk : k < 4) :
    bump c (counterIndex n) k = c k + if hasKind k n then 1 else 0 := by
  have h : k = 0 ∨ k = 1 ∨ k = 2 ∨ k = 3 := by omega
  have h' : n = 0 ∨ n = 1 ∨ n = 2 ∨ n = 3 := by omega
  rcases h with rfl | rfl | rfl | rfl <;> rcases h' with rfl | rfl | rfl | rfl <;>
    simp [bump, counterIndex, hasKind]

theorem bump_large (c : Nat → Nat) (n k : Nat) (hn : 3 < n) (hk : k < 4) :
    bump c 3 k = c k + if hasKind k n then 1 else 0 := by
  have h : k = 0 ∨ k = 1 ∨ k = 2 ∨ k = 3 := by omega
  rcases h with rfl | rfl | rfl | rfl <;> simp [bump, hasKind, hn] <;> omega

theorem countFaces_fst (fs : List aiFace) (c : Nat → Nat) (p k : Nat) (hk : k < 4) :
    (countFaces fs (c, p)).1 k =
      c k + (fs.filter fun f => hasKind k f.mNumIndices).length := by
  induction fs generalizing c p with
  | nil => simp [countFaces]
  | cons f fs ih =>
    unfold countFaces
    by_cases hn : f.mNumIndices ≤ 3
    · simp only [hn, if_true]
      rw [ih, bump_small c f.mNumIndices k hn hk]
      by_cases hh : hasKind k f.mNumIndices = true
      · simp [hh]; omega
      · simp [hh]
    · simp only [hn, if_false]
      rw [ih, bump_large c f.mNumIndices k (by omega) hk]
      by_cases hh : hasKind k f.mNumIndices = true
      · simp [hh]; omega
      · simp [hh]

theorem countFaces_snd (fs : List aiFace) (c : Nat → Nat) (p : Nat) :
    (countFaces fs (c, p)).2 =
      p + ((fs.filter fun f => hasKind 3 f.mNumIndices).flatMap aiFace.mIndices).length := by
  induction fs generalizing c p with
  | nil => simp [countFaces]
  | cons f fs ih =>
    unfold countFaces
    by_cases hn : f.mNumIndices ≤ 3
    · have hh : hasKind 3 f.mNumIndices = false := by simp [hasKind]; omega
      simp only [hn, if_true]
      rw [ih, List.filter_cons_of_neg (by simp [hh])]
    · have hh : hasKind 3 f.mNumIndices = true := by simp [hasKind]; omega
      simp only [hn, if_false]
      rw [ih, List.filter_cons_of_pos (by simp [hh])]
      simp [aiFace.mNumIndices, Nat.add_assoc]

/-! ## The loop over the kinds -/

theorem splitKinds_length (mesh : aiMesh) (avw : Option (Nat → VertexWeightTable))
    (counts : Nat → Nat) (npv : Nat) (ks : List Nat) (src : Option (List aiVector3D)) :
    (splitKinds mesh avw counts npv ks src).length = ks.length := by
  induction ks generalizing src with
  | nil => rfl
  | cons k ks ih =>
    unfold splitKinds
    split <;> simp [ih]

theorem splitKinds_getElem (mesh : aiMesh) (avw : Option (Nat → VertexWeightTable))
    (counts : Nat → Nat) (npv : Nat) (ks : List Nat) (src : Option (List aiVector3D))
    (i : Nat) :
    ∃ src', (splitKinds mesh avw counts npv ks src)[i]? =
      (ks[i]?).map fun real =>
        if counts real = 0 then none else some (splitKind mesh avw counts npv real src') := by
  induction ks generalizing src i with
  | nil => exact ⟨src, rfl⟩
  | cons k ks ih =>
    unfold splitKinds
    cases i with
    | zero =>
      refine ⟨src, ?_⟩
      split <;> simp [*]
    | succ i =>
      split
      · obtain ⟨src', h⟩ := ih src i
        exact ⟨src', by simpa using h⟩
      · obtain ⟨src', h⟩ := ih (splitKind mesh avw counts npv k src).srcVerts i
        exact ⟨src', by simpa using h⟩

theorem splitMeshWith_length (avw : Option (Nat → VertexWeightTable)) (mesh : aiMesh) :
    (splitMeshWith avw mesh).length = 4 := by
  simp [splitMeshWith, splitKinds_length]

theorem splitMeshWith_getElem (avw : Option (Nat → VertexWeightTable)) (mesh : aiMesh)
    (real : Nat) (h : real < 4) :
    ∃ src', (splitMeshWith avw mesh)[real]? = some
      (if (countFaces mesh.mFaces (fun _ => 0, 0)).1 real = 0 then none
       else some (splitKind mesh avw (countFaces mesh.mFaces (fun _ => 0, 0)).1
        (countFaces mesh.mFaces (fun _ => 0, 0)).2 real src')) := by
  obtain ⟨src', hs⟩ := splitKinds_getElem mesh avw (countFaces mesh.mFaces (fun _ => 0, 0)).1
    (countFaces mesh.mFaces (fun _ => 0, 0)).2 [0, 1, 2, 3] mesh.mVertices real
  refine ⟨src', ?_⟩
  unfold splitMeshWith
  rw [hs]
  have h' : real = 0 ∨ real = 1 ∨ real = 2 ∨ real = 3 := by omega
  rcases h' with rfl | rfl | rfl | rfl <;> rfl

theorem counts_eq (mesh : aiMesh) (real : Nat) (h : real < 4) :
    (countFaces mesh.mFaces (fun _ => 0, 0)).1 real = (facesOfKind mesh real).length := by
  rw [countFaces_fst _ _ _ _ h]
  simp [facesOfKind]

theorem numPolyVerts_eq (mesh : aiMesh) :
    (countFaces mesh.mFaces (fun _ => 0, 0)).2 = (cornersOfKind mesh 3).length := by
  rw [countFaces_snd]
  simp [cornersOfKind, facesOfKind]

theorem splitMeshWith_some (avw : Option (Nat → VertexWeightTable)) (mesh : aiMesh)
    (real : Nat) (r : KindResult) (hr : (splitMeshWith avw mesh)[real]? = some (some r)) :
    real < 4 ∧ facesOfKind mesh real ≠ [] ∧
      ∃ src', r = splitKind mesh avw (countFaces mesh.mFaces (fun _ => 0, 0)).1
        (countFaces mesh.mFaces (fun _ => 0, 0)).2 real src' := by
  have hlt : real < 4 := by
    have := (List.getElem?_eq_some_iff.1 hr).1
    rwa [splitMeshWith_length] at this
  obtain ⟨src', hs⟩ := splitMeshWith_getElem avw mesh real hlt
  rw [hs] at hr
  by_cases hc : (countFaces mesh.mFaces (fun _ => 0, 0)).1 real = 0
  · simp [hc] at hr
  · simp only [hc, if_false, Option.some.injEq] at hr
    refine ⟨hlt, ?_, src', hr.symm⟩
    intro hnil
    apply hc
    rw [counts_eq mesh real hlt, hnil]
    rfl

theorem splitMeshWith_isSome (avw : Option (Nat → VertexWeightTable)) (mesh : aiMesh)
    (real : Nat) (h : real < 4) :
    (outputOf (splitMeshWith avw mesh) real).isSome = true ↔ facesOfKind mesh real ≠ [] := by
  obtain ⟨src', hs⟩ := splitMeshWith_getElem avw mesh real h
  unfold outputOf
  rw [List.getD_eq_getElem?_getD, hs, counts_eq mesh real h]
  by_cases hc : facesOfKind mesh real = []
  · simp [hc]
  · have : (facesOfKind mesh real).length ≠ 0 := by
      intro h0; exact hc (List.length_eq_zero.1 h0)
    simp [hc, this]

theorem outputOf_some (avw : Option (Nat → VertexWeightTable)) (mesh : aiMesh)
    (real : Nat) (out : aiMesh) (h : outputOf (splitMeshWith avw mesh) real = some out) :
    ∃ r, (splitMeshWith avw mesh)[real]? = some (some r) ∧ r.out = out := by
  unfold outputOf at h
  rw [List.getD_eq_getElem?_getD] at h
  cases hr : (splitMeshWith avw mesh)[real]? with
  | none => simp [hr] at h
  | some o =>
    cases o with
    | none => simp [hr] at h
    | some r => exact ⟨r, rfl, by simpa [hr] using h⟩

/-! ## Counts of the output meshes -/

theorem length_flatMap_const (l : List aiFace) (m : Nat)
    (h : ∀ f ∈ l, f.mIndices.length = m) :
    (l.flatMap aiFace.mIndices).length = l.length * m := by
  induction l with
  | nil => simp
  | cons f l ih =>
    rw [List.flatMap_cons, List.length_append, ih (fun g hg => h g (List.mem_cons_of_mem _ hg)),
      h f (List.mem_cons_self _ _), List.length_cons]
    ring

theorem length_flatMap_sum (l : List aiFace) :
    (l.flatMap aiFace.mIndices).length = (l.map aiFace.mNumIndices).sum := by
  induction l with
  | nil => simp
  | cons f l ih =>
    rw [List.flatMap_cons, List.length_append, ih]
    simp [aiFace.mNumIndices]

theorem hasKind_small (real n : Nat) (h : real < 3) :
    hasKind real n = decide (n = real + 1) := by
  have h' : real = 0 ∨ real = 1 ∨ real = 2 := by omega
  rcases h' with rfl | rfl | rfl <;> simp only [hasKind] <;> cases hn : decide (n = _) <;>
    simp_all

theorem hasKind_three (n : Nat) : hasKind 3 n = decide (3 < n) := by
  simp [hasKind]

theorem renumber_length (k : Nat) (l : List aiFace) : (renumber k l).length = l.length := by
  induction l generalizing k with
  | nil => rfl
  | cons f l ih => simp [renumber, ih]

theorem renumber_numIndices (k : Nat) (l : List aiFace) :
    (renumber k l).map aiFace.mNumIndices = l.map aiFace.mNumIndices := by
  induction l generalizing k with
  | nil => rfl
  | cons f l ih => simp [renumber, ih, aiFace.mNumIndices]

theorem splitKind_outIdx (mesh : aiMesh) (avw : Option (Nat → VertexWeightTable))
    (counts : Nat → Nat) (npv real : Nat) (src : Option (List aiVector3D)) (h : real < 4) :
    (splitKind mesh avw counts npv real src).outIdx = (cornersOfKind mesh real).length := by
  simp only [splitKind, copyFaces_outIdx, filter_faceMatches _ _ h, initState, Nat.zero_add]
  rfl

theorem splitKind_faces (mesh : aiMesh) (avw : Option (Nat → VertexWeightTable))
    (npv real : Nat) (src : Option (List aiVector3D)) (h : real < 4) :
    (splitKind mesh avw (countFaces mesh.mFaces (fun _ => 0, 0)).1 npv real src).out.mFaces =
      renumber 0 (facesOfKind mesh real) := by
  simp only [splitKind, copyFaces_outFaces, filter_faceMatches _ _ h, initState]
  rw [foldl_put_alloc _ _ (by rw [renumber_length, counts_eq mesh real h]; rfl)]
  rfl

theorem cornersOfKind_length_small (mesh : aiMesh) (real : Nat) (h : real < 3) :
    (cornersOfKind mesh real).length = (facesOfKind mesh real).length * (real + 1) := by
  apply length_flatMap_const
  intro f hf
  have := (List.mem_filter.1 hf).2
  rw [hasKind_small real _ h] at this
  exact of_decide_eq_true this

theorem splitKind_numVertices (mesh : aiMesh) (avw : Option (Nat → VertexWeightTable))
    (real : Nat) (src : Option (List aiVector3D)) (h : real < 4) :
    (splitKind mesh avw (countFaces mesh.mFaces (fun _ => 0, 0)).1
      (countFaces mesh.mFaces (fun _ => 0, 0)).2 real src).out.mNumVertices =
      (cornersOfKind mesh real).length := by
  simp only [splitKind]
  by_cases h3 : real = 3
  · subst h3
    simp [numPolyVerts_eq]
  · simp only [h3, if_false]
    rw [counts_eq mesh real h, cornersOfKind_length_small mesh real (by omega)]

/-- C3. For a mesh on the split path of `SortByPTypeProcess::Execute` whose
faces each have at least one index, the output mesh of kind POINT, LINE or
TRIANGLE declares (number of source faces with `real + 1` indices) times
`real + 1` vertices, the POLYGON output mesh declares the sum of the index counts
of the source faces with more than three indices, and the copy loop ends with
`outIdx` equal to the declared vertex count. -/
theorem C3_declared_vertex_count_is_written (avw : Option (Nat → VertexWeightTable))
    (mesh : aiMesh) (real : Nat) (r : KindResult)
    (_hsplit : 1 < numKinds mesh.mPrimitiveTypes)
    (_hpos : ∀ f ∈ mesh.mFaces, 1 ≤ f.mNumIndices)
    (hr : (splitMeshWith avw mesh)[real]? = some (some r)) :
    (real < 3 → r.out.mNumVertices =
      (mesh.mFaces.filter fun f => f.mNumIndices = real + 1).length * (real + 1)) ∧
    (real = 3 → r.out.mNumVertices =
      ((mesh.mFaces.filter fun f => 3 < f.mNumIndices).map aiFace.mNumIndices).sum) ∧
    r.outIdx = r.out.mNumVertices := by
  obtain ⟨hlt, -, src', rfl⟩ := splitMeshWith_some avw mesh real r hr
  rw [splitKind_numVertices mesh avw real src' hlt, splitKind_outIdx mesh avw _ _ real src' hlt]
  refine ⟨?_, ?_, rfl⟩
  · intro h3
    rw [cornersOfKind_length_small mesh real h3]
    simp only [facesOfKind, hasKind_small real _ h3]
  · intro h3
    subst h3
    rw [cornersOfKind, length_flatMap_sum]
    simp only [facesOfKind, hasKind_three]

/-- C3, at the LINE round of the end-to-end example. -/
theorem C3_declared_vertex_count_is_written_witness :
    ∃ r, (splitMeshWith (ComputeVertexBoneWeightTable classifiedExample) classifiedExample)[1]?
        = some (some r) ∧
      (1 < 3 → r.out.mNumVertices =
        (classifiedExample.mFaces.filter fun f => f.mNumIndices = 1 + 1).length * (1 + 1)) ∧
      (1 = 3 → r.out.mNumVertices =
        ((classifiedExample.mFaces.filter fun f => 3 < f.mNumIndices).map
          aiFace.mNumIndices).sum) ∧
      r.outIdx = r.out.mNumVertices := by
  have h : ∃ r, (splitMeshWith (ComputeVertexBoneWeightTable classifiedExample)
      classifiedExample)[1]? = some (some r) := ⟨_, rfl⟩
  obtain ⟨r, hr⟩ := h
  exact ⟨r, hr, C3_declared_vertex_count_is_written _ classifiedExample 1 r (by decide)
    (by decide) hr⟩

theorem kinds_partition (fs : List aiFace) (hpos : ∀ f ∈ fs, 1 ≤ f.mNumIndices) :
    (fs.filter fun f => hasKind 0 f.mNumIndices).length +
      (fs.filter fun f => hasKind 1 f.mNumIndices).length +
      (fs.filter fun f => hasKind 2 f.mNumIndices).length +
      (fs.filter fun f => hasKind 3 f.mNumIndices).length = fs.length := by
  induction fs with
  | nil => rfl
  | cons f fs ih =>
    have ih' := ih (fun g hg => hpos g (List.mem_cons_of_mem _ hg))
    have h1 := hpos f (List.mem_cons_self _ _)
    have hc : f.mNumIndices = 1 ∨ f.mNumIndices = 2 ∨ f.mNumIndices = 3 ∨ 3 < f.mNumIndices := by
      omega
    have key : ∃ b0 b1 b2 b3 : Bool, hasKind 0 f.mNumIndices = b0 ∧
        hasKind 1 f.mNumIndices = b1 ∧ hasKind 2 f.mNumIndices = b2 ∧
        hasKind 3 f.mNumIndices = b3 ∧
        (if b0 then 1 else 0) + (if b1 then 1 else 0) + (if b2 then 1 else 0) +
          (if b3 then 1 else 0) = 1 := by
      rcases hc with h | h | h | h
      · exact ⟨true, false, false, false, by simp [hasKind, h], by simp [hasKind, h],
          by simp [hasKind, h], by simp [hasKind, h], rfl⟩
      · exact ⟨false, true, false, false, by simp [hasKind, h], by simp [hasKind, h],
          by simp [hasKind, h], by simp [hasKind, h], rfl⟩
      · exact ⟨false, false, true, false, by simp [hasKind, h], by simp [hasKind, h],
          by simp [hasKind, h], by simp [hasKind, h], rfl⟩
      · have e1 : ¬ f.mNumIndices = 1 := by omega
        have e2 : ¬ f.mNumIndices = 2 := by omega
        have e3 : ¬ f.mNumIndices = 3 := by omega
        exact ⟨false, false, false, true, by simp [hasKind, e1], by simp [hasKind, e2],
          by simp [hasKind, e3], by simp [hasKind, h], rfl⟩
    obtain ⟨b0, b1, b2, b3, h0, h1', h2, h3, hsum⟩ := key
    simp only [List.filter_cons, h0, h1', h2, h3, List.length_cons]
    cases b0 <;> cases b1 <;> cases b2 <;> cases b3 <;> simp at hsum ⊢ <;> omega

theorem outputOf_faces_length (avw : Option (Nat → VertexWeightTable)) (mesh : aiMesh)
    (real : Nat) (h : real < 4) :
    ((outputOf (splitMeshWith avw mesh) real).map fun out => out.mFaces.length).getD 0 =
      (facesOfKind mesh real).length := by
  obtain ⟨src', hs⟩ := splitMeshWith_getElem avw mesh real h
  unfold outputOf
  rw [List.getD_eq_getElem?_getD, hs]
  by_cases hc : (countFaces mesh.mFaces (fun _ => 0, 0)).1 real = 0
  · simp only [hc, if_true]
    rw [counts_eq mesh real h] at hc
    simp [hc]
  · simp only [hc, if_false]
    simp [splitKind_faces mesh avw _ real src' h, renumber_length]

/-- C4. For a mesh on the split path of `SortByPTypeProcess::Execute` whose
faces each have at least one index: the split has one entry per kind, the entry
of a kind holds an output mesh exactly when a source face of that kind exists,
the output mesh of kind `real` has the mask `2 ^ real` (the bit of the kind) and
its faces have, in order, the index counts of the source faces of that kind in
source order, and the face counts of the output meshes sum to the source face
count. -/
theorem C4_one_output_mesh_per_kind_present (avw : Option (Nat → VertexWeightTable))
    (mesh : aiMesh)
    (_hsplit : 1 < numKinds mesh.mPrimitiveTypes)
    (hpos : ∀ f ∈ mesh.mFaces, 1 ≤ f.mNumIndices) :
    (splitMeshWith avw mesh).length = 4 ∧
    (∀ real, real < 4 → ((outputOf (splitMeshWith avw mesh) real).isSome = true ↔
      ∃ f ∈ mesh.mFaces, hasKind real f.mNumIndices = true)) ∧
    (∀ real out, outputOf (splitMeshWith avw mesh) real = some out →
      real < 4 ∧ out.mPrimitiveTypes = 2 ^ real ∧
      out.mFaces.map aiFace.mNumIndices = (facesOfKind mesh real).map aiFace.mNumIndices) ∧
    ((List.range 4).map fun real =>
      ((outputOf (splitMeshWith avw mesh) real).map fun out => out.mFaces.length).getD 0).sum
      = mesh.mFaces.length := by
  refine ⟨splitMeshWith_length avw mesh, ?_, ?_, ?_⟩
  · intro real hlt
    rw [splitMeshWith_isSome avw mesh real hlt, facesOfKind, Ne, List.filter_eq_nil_iff]
    constructor
    · intro h
      by_contra hne
      apply h
      intro f hf hk
      exact hne ⟨f, hf, hk⟩
    · rintro ⟨f, hf, hk⟩ h
      exact h f hf hk
  · intro real out hout
    obtain ⟨r, hr, rfl⟩ := outputOf_some avw mesh real out hout
    obtain ⟨hlt, -, src', rfl⟩ := splitMeshWith_some avw mesh real r hr
    refine ⟨hlt, ?_, ?_⟩
    · simp [splitKind, Nat.one_shiftLeft]
    · rw [splitKind_faces mesh avw _ real src' hlt, renumber_numIndices]
  · have e : List.range 4 = [0, 1, 2, 3] := rfl
    rw [e]
    simp only [List.map_cons, List.map_nil, List.sum_cons, List.sum_nil]
    rw [outputOf_faces_length avw mesh 0 (by decide), outputOf_faces_length avw mesh 1 (by decide),
      outputOf_faces_length avw mesh 2 (by decide), outputOf_faces_length avw mesh 3 (by decide)]
    have := kinds_partition mesh.mFaces hpos
    simp only [facesOfKind]
    omega

/-- C4, at the mesh of the end-to-end example. -/
theorem C4_one_output_mesh_per_kind_present_witness :
    (splitMesh classifiedExample).length = 4 ∧
    (∀ real, real < 4 → ((outputOf (splitMesh classifiedExample) real).isSome = true ↔
      ∃ f ∈ classifiedExample.mFaces, hasKind real f.mNumIndices = true)) ∧
    (∀ real out, outputOf (splitMesh classifiedExample) real = some out →
      real < 4 ∧ out.mPrimitiveTypes = 2 ^ real ∧
      out.mFaces.map aiFace.mNumIndices =
        (facesOfKind classifiedExample real).map aiFace.mNumIndices) ∧
    ((List.range 4).map fun real =>
      ((outputOf (splitMesh classifiedExample) real).map fun out => out.mFaces.length).getD 0).sum
      = classifiedExample.mFaces.length :=
  C4_one_output_mesh_per_kind_present (ComputeVertexBoneWeightTable classifiedExample)
    classifiedExample (by decide) (by decide)

/-! ## Positions -/

/-- C5. In the end-to-end example the vertex 3 is referenced by both line faces.
The second line face copies the corner with original index 3 to the new index
2 of the LINE mesh after the first copy has overwritten the x of source vertex
3 with the quiet NaN: the output position at index 2 is (NaN, 0, 0) while the
source position was (2, 0, 0) when the split began. -/
theorem C5_shared_vertex_copies_poisoned_position :
    ∃ out, outputOf (splitMesh classifiedExample) 1 = some out ∧
      (3, 2) ∈ cornerPairs (facesOfKind classifiedExample 1) out.mFaces ∧
      streamAt classifiedExample.mVertices 3 = vec 2 0 0 ∧
      streamAt out.mVertices 2 = ⟨FloatVal.qnan, FloatVal.num 0, FloatVal.num 0⟩ ∧
      out.mVertices = some [vec 2 0 0, vec 3 0 0,
        ⟨FloatVal.qnan, FloatVal.num 0, FloatVal.num 0⟩,
        ⟨FloatVal.qnan, FloatVal.num 0, FloatVal.num 0⟩] := by
  refine ⟨_, rfl, ?_, ?_, ?_, ?_⟩
  · decide
  · decide
  · decide
  · decide

/-! ## Copied corners -/

theorem cornerPairs_renumber (k : Nat) (l : List aiFace) :
    cornerPairs l (renumber k l) =
      List.zip (l.flatMap aiFace.mIndices)
        (List.range' k (l.flatMap aiFace.mIndices).length) := by
  induction l generalizing k with
  | nil => rfl
  | cons f l ih =>
    have hcons : cornerPairs (f :: l) (renumber k (f :: l)) =
        List.zip f.mIndices (List.range' k f.mNumIndices) ++
          cornerPairs l (renumber (k + f.mNumIndices) l) := by
      simp [cornerPairs, renumber]
    rw [hcons, ih, List.flatMap_cons, List.length_append, Nat.add_comm f.mIndices.length,
      ← List.range'_append_1, List.zip_append (by simp)]
    rfl

theorem mem_zip_range (l : List Nat) (k o j : Nat)
    (h : (o, j) ∈ List.zip l (List.range' k l.length)) :
    k ≤ j ∧ l[j - k]? = some o := by
  induction l generalizing k with
  | nil => simp at h
  | cons a l ih =>
    rw [List.length_cons, List.range'_succ, List.zip_cons_cons, List.mem_cons] at h
    rcases h with h | h
    · have h1 : o = a := congrArg Prod.fst h
      have h2 : j = k := congrArg Prod.snd h
      subst h1 h2
      simp
    · obtain ⟨hle, hget⟩ := ih (k + 1) h
      refine ⟨by omega, ?_⟩
      have : j - k = (j - (k + 1)) + 1 := by omega
      rw [this, List.getElem?_cons_succ]
      exact hget

theorem corner_of_pair (avw : Option (Nat → VertexWeightTable)) (mesh : aiMesh)
    (real : Nat) (r : KindResult) (hr : (splitMeshWith avw mesh)[real]? = some (some r))
    (p : Nat × Nat) (hp : p ∈ cornerPairs (facesOfKind mesh real) r.out.mFaces) :
    (cornersOfKind mesh real)[p.2]? = some p.1 := by
  obtain ⟨hlt, -, src', rfl⟩ := splitMeshWith_some avw mesh real r hr
  rw [splitKind_faces mesh avw _ real src' hlt, cornerPairs_renumber] at hp
  have := mem_zip_range _ 0 p.1 p.2 hp
  simpa [cornersOfKind] using this.2

theorem getElem?_map_streamAt {α : Type} [Inhabited α] (corners : List Nat) (ch : List α)
    (o j : Nat) (hc : corners[j]? = some o) (ho : o < ch.length) :
    (corners.map fun idx => streamAt (some ch) idx)[j]? = ch[o]? := by
  rw [List.getElem?_map, hc]
  simp [streamAt, List.getD_eq_getElem?_getD, List.getElem?_eq_getElem ho]

/-! ## Texture-coordinate and colour channels -/

theorem copyChannels_isSome {α : Type} [Inhabited α] (cs : List (Option (Cursor α)))
    (srcs : List (Option (List α))) (idx : Nat) :
    (copyChannels cs srcs idx).map Option.isSome = cs.map Option.isSome := by
  induction cs generalizing srcs with
  | nil => cases srcs <;> rfl
  | cons c cs ih =>
    cases c with
    | none => cases srcs <;> rfl
    | some c =>
      cases srcs with
      | nil => rfl
      | cons src srcs => simp [copyChannels, ih]

theorem foldl_copyChannels_isSome {α : Type} [Inhabited α] (corners : List Nat)
    (cs : List (Option (Cursor α))) (srcs : List (Option (List α))) :
    (corners.foldl (fun u idx => copyChannels u srcs idx) cs).map Option.isSome =
      cs.map Option.isSome := by
  induction corners generalizing cs with
  | nil => rfl
  | cons a corners ih => rw [List.foldl_cons, ih, copyChannels_isSome]

theorem foldl_copyChannels_cons {α : Type} [Inhabited α] (corners : List Nat) (c : Cursor α)
    (cs : List (Option (Cursor α))) (src : Option (List α)) (srcs : List (Option (List α))) :
    corners.foldl (fun u idx => copyChannels u (src :: srcs) idx) (some c :: cs) =
      some (corners.foldl (fun c idx => c.put (streamAt src idx)) c) ::
        corners.foldl (fun u idx => copyChannels u srcs idx) cs := by
  induction corners generalizing c cs with
  | nil => rfl
  | cons a corners ih => simp only [List.foldl_cons, copyChannels, ih]

theorem foldl_copyChannels_leading {α : Type} [Inhabited α] (srcs : List (Option (List α)))
    (n : Nat) (corners : List Nat) (hlen : corners.length = n) (i : Nat) (ch : List α)
    (hi : srcs[i]? = some (some ch))
    (hpre : ∀ j, j < i → ∃ c, srcs[j]? = some (some c)) :
    (corners.foldl (fun u idx => copyChannels u srcs idx)
      (srcs.map fun ch => if ch.isSome then some (Cursor.alloc α n) else none))[i]? =
      some (some ⟨corners.map fun idx => streamAt (some ch) idx, n⟩) := by
  induction srcs generalizing i with
  | nil => simp at hi
  | cons s0 rest ih =>
    cases i with
    | zero =>
      have hs : s0 = some ch := by simpa using hi
      subst hs
      simp only [List.map_cons, Option.isSome_some, if_true, foldl_copyChannels_cons,
        List.getElem?_cons_zero]
      rw [foldl_put_map, foldl_put_alloc _ _ (by simpa using hlen)]
    | succ i =>
      obtain ⟨c, hc⟩ := hpre 0 (Nat.succ_pos i)
      have hs : s0 = some c := by simpa using hc
      subst hs
      simp only [List.map_cons, Option.isSome_some, if_true, foldl_copyChannels_cons,
        List.getElem?_cons_succ]
      apply ih i (by simpa using hi)
      intro j hj
      have := hpre (j + 1) (by omega)
      simpa using this

theorem declared_eq (mesh : aiMesh) (real : Nat) (h : real < 4) :
    (if real = 3 then (countFaces mesh.mFaces (fun _ => 0, 0)).2
      else (countFaces mesh.mFaces (fun _ => 0, 0)).1 real * (real + 1)) =
      (cornersOfKind mesh real).length := by
  by_cases h3 : real = 3
  · subst h3
    simp [numPolyVerts_eq]
  · simp only [h3, if_false]
    rw [counts_eq mesh real h, cornersOfKind_length_small mesh real (by omega)]

theorem splitKind_uv (mesh : aiMesh) (avw : Option (Nat → VertexWeightTable))
    (real : Nat) (src : Option (List aiVector3D)) (h : real < 4) :
    (splitKind mesh avw (countFaces mesh.mFaces (fun _ => 0, 0)).1
      (countFaces mesh.mFaces (fun _ => 0, 0)).2 real src).out.mTextureCoords =
      ((cornersOfKind mesh real).foldl (fun u idx => copyChannels u mesh.mTextureCoords idx)
        (mesh.mTextureCoords.map fun ch =>
          if ch.isSome then some (Cursor.alloc aiVector3D (cornersOfKind mesh real).length)
          else none)).map (Option.map Cursor.buf) := by
  simp only [splitKind]
  rw [copyFaces_proj mesh avw real SplitState.uv
    (fun u idx => copyChannels u mesh.mTextureCoords idx) (fun _ _ => rfl) (fun _ _ => rfl),
    filter_faceMatches _ _ h, declared_eq mesh real h]
  rfl

theorem splitKind_cols (mesh : aiMesh) (avw : Option (Nat → VertexWeightTable))
    (real : Nat) (src : Option (List aiVector3D)) (h : real < 4) :
    (splitKind mesh avw (countFaces mesh.mFaces (fun _ => 0, 0)).1
      (countFaces mesh.mFaces (fun _ => 0, 0)).2 real src).out.mColors =
      ((cornersOfKind mesh real).foldl (fun u idx => copyChannels u mesh.mColors idx)
        (mesh.mColors.map fun ch =>
          if ch.isSome then some (Cursor.alloc aiColor4D (cornersOfKind mesh real).length)
          else none)).map (Option.map Cursor.buf) := by
  simp only [splitKind]
  rw [copyFaces_proj mesh avw real SplitState.cols
    (fun u idx => copyChannels u mesh.mColors idx) (fun _ _ => rfl) (fun _ _ => rfl),
    filter_faceMatches _ _ h, declared_eq mesh real h]
  rfl

theorem map_isSome_alloc {α : Type} [Inhabited α] (srcs : List (Option (List α))) (n : Nat) :
    ((srcs.map fun ch => if ch.isSome then some (Cursor.alloc α n) else none).map
      Option.isSome) = srcs.map Option.isSome := by
  rw [List.map_map]
  congr 1
  funext ch
  cases ch <;> rfl

theorem map_isSome_buf {α : Type} (cs : List (Option (Cursor α))) :
    (cs.map (Option.map Cursor.buf)).map Option.isSome = cs.map Option.isSome := by
  rw [List.map_map]
  congr 1
  funext c
  cases c <;> rfl

theorem channel_copied {α : Type} [Inhabited α] (srcs : List (Option (List α)))
    (corners : List Nat) (i : Nat) (ch : List α)
    (hi : srcs[i]? = some (some ch))
    (hpre : ∀ j, j < i → ∃ c, srcs[j]? = some (some c)) :
    ((corners.foldl (fun u idx => copyChannels u srcs idx)
      (srcs.map fun ch => if ch.isSome then some (Cursor.alloc α corners.length) else none)).map
        (Option.map Cursor.buf))[i]? =
      some (some (corners.map fun idx => streamAt (some ch) idx)) := by
  rw [List.getElem?_map, foldl_copyChannels_leading srcs _ corners rfl i ch hi hpre]
  rfl

/-- C6 as stated fails: in the mesh whose only texture channel is channel 1
(channel 0 absent), the corner with original index 3 is copied to the new index
0 of the LINE mesh, the source holds (13, 0, 0) for it in channel 1, and the
output channel 1, although present, holds (0, 0, 0) there. -/
theorem C6_channel_behind_a_gap_is_not_copied :
    ∃ out, outputOf (splitMesh gapMesh) 1 = some out ∧
      (3, 0) ∈ cornerPairs (facesOfKind gapMesh 1) out.mFaces ∧
      (gapMesh.mTextureCoords[1]?).map (fun ch => streamAt ch 3) = some (vec 13 0 0) ∧
      (out.mTextureCoords[1]?).map (fun ch => (ch.isSome, streamAt ch 0)) =
        some (true, vec 0 0 0) ∧
      (out.mTextureCoords[1]?).map (fun ch => streamAt ch 0) ≠
        (gapMesh.mTextureCoords[1]?).map (fun ch => streamAt ch 3) := by
  refine ⟨_, rfl, ?_, ?_, ?_, ?_⟩
  · decide
  · decide
  · decide
  · decide

/-- C6, amended. For every round of the split of a mesh whose mask has more than
one kind bit: every texture-coordinate and colour
channel is present on the output mesh exactly when it is present on the source,
the UV component counts are copied unchanged, and for every channel that is
present on the source together with all lower-numbered channels, the output
channel holds at the new index of every copied corner the source value of the
corner's original index. -/
theorem C6_leading_channels_are_copied (avw : Option (Nat → VertexWeightTable))
    (mesh : aiMesh) (real : Nat) (r : KindResult)
    (_hsplit : 1 < numKinds mesh.mPrimitiveTypes)
    (hr : (splitMeshWith avw mesh)[real]? = some (some r)) :
    r.out.mTextureCoords.map Option.isSome = mesh.mTextureCoords.map Option.isSome ∧
    r.out.mColors.map Option.isSome = mesh.mColors.map Option.isSome ∧
    r.out.mNumUVComponents = mesh.mNumUVComponents ∧
    (∀ (i : Nat) (ch : List aiVector3D), mesh.mTextureCoords[i]? = some (some ch) →
      (∀ j, j < i → ∃ c, mesh.mTextureCoords[j]? = some (some c)) →
      ∃ och, r.out.mTextureCoords[i]? = some (some och) ∧
        ∀ p ∈ cornerPairs (facesOfKind mesh real) r.out.mFaces,
          p.1 < ch.length → och[p.2]? = ch[p.1]?) ∧
    (∀ (i : Nat) (ch : List aiColor4D), mesh.mColors[i]? = some (some ch) →
      (∀ j, j < i → ∃ c, mesh.mColors[j]? = some (some c)) →
      ∃ och, r.out.mColors[i]? = some (some och) ∧
        ∀ p ∈ cornerPairs (facesOfKind mesh real) r.out.mFaces,
          p.1 < ch.length → och[p.2]? = ch[p.1]?) := by
  have hpair := corner_of_pair avw mesh real r hr
  obtain ⟨hlt, -, src', rfl⟩ := splitMeshWith_some avw mesh real r hr
  refine ⟨?_, ?_, rfl, ?_, ?_⟩
  · rw [splitKind_uv mesh avw real src' hlt, map_isSome_buf, foldl_copyChannels_isSome,
      map_isSome_alloc]
  · rw [splitKind_cols mesh avw real src' hlt, map_isSome_buf, foldl_copyChannels_isSome,
      map_isSome_alloc]
  · intro i ch hi hpre
    refine ⟨(cornersOfKind mesh real).map fun idx => streamAt (some ch) idx, ?_, ?_⟩
    · rw [splitKind_uv mesh avw real src' hlt]
      exact channel_copied mesh.mTextureCoords _ i ch hi hpre
    · intro p hp hlen
      exact getElem?_map_streamAt _ ch p.1 p.2 (hpair p hp) hlen
  · intro i ch hi hpre
    refine ⟨(cornersOfKind mesh real).map fun idx => streamAt (some ch) idx, ?_, ?_⟩
    · rw [splitKind_cols mesh avw real src' hlt]
      exact channel_copied mesh.mColors _ i ch hi hpre
    · intro p hp hlen
      exact getElem?_map_streamAt _ ch p.1 p.2 (hpair p hp) hlen

/-- C6, amended, at the LINE round of the end-to-end example. -/
theorem C6_leading_channels_are_copied_witness :
    ∃ r, (splitMesh classifiedExample)[1]? = some (some r) ∧
      r.out.mTextureCoords.map Option.isSome =
        classifiedExample.mTextureCoords.map Option.isSome ∧
      r.out.mColors.map Option.isSome = classifiedExample.mColors.map Option.isSome ∧
      r.out.mNumUVComponents = classifiedExample.mNumUVComponents ∧
      (∀ (i : Nat) (ch : List aiVector3D),
        classifiedExample.mTextureCoords[i]? = some (some ch) →
        (∀ j, j < i → ∃ c, classifiedExample.mTextureCoords[j]? = some (some c)) →
        ∃ och, r.out.mTextureCoords[i]? = some (some och) ∧
          ∀ p ∈ cornerPairs (facesOfKind classifiedExample 1) r.out.mFaces,
            p.1 < ch.length → och[p.2]? = ch[p.1]?) ∧
      (∀ (i : Nat) (ch : List aiColor4D), classifiedExample.mColors[i]? = some (some ch) →
        (∀ j, j < i → ∃ c, classifiedExample.mColors[j]? = some (some c)) →
        ∃ och, r.out.mColors[i]? = some (some och) ∧
          ∀ p ∈ cornerPairs (facesOfKind classifiedExample 1) r.out.mFaces,
            p.1 < ch.length → och[p.2]? = ch[p.1]?) := by
  have h : ∃ r, (splitMesh classifiedExample)[1]? = some (some r) := ⟨_, rfl⟩
  obtain ⟨r, hr⟩ := h
  exact ⟨r, hr, C6_leading_channels_are_copied _ classifiedExample 1 r (by decide) hr⟩

/-! ## Normals, tangents and bitangents -/

theorem foldl_stream {α : Type} [Inhabited α] (src : Option (List α)) (corners : List Nat)
    (n : Nat) (hn : corners.length = n) (present : Bool) :
    (corners.foldl (fun c idx => Option.map (fun c => Cursor.put c (streamAt src idx)) c)
      (if present = true then some (Cursor.alloc α n) else none)).map Cursor.buf =
      if present = true then some (corners.map fun idx => streamAt src idx) else none := by
  rw [foldl_option_map (fun x idx => Cursor.put x (streamAt src idx))]
  cases present
  · rfl
  · simp only [if_true, Option.map_some']
    rw [foldl_put_map, foldl_put_alloc _ _ (by simpa using hn)]

theorem foldl_pair_none {α : Type} [Inhabited α] (srcT srcB : Option (List α))
    (corners : List Nat) (b : Option (Cursor α)) :
    corners.foldl (fun (tb : Option (Cursor α) × Option (Cursor α)) idx =>
      (tb.1.map fun c => c.put (streamAt srcT idx),
       if tb.1.isSome then tb.2.map fun c => c.put (streamAt srcB idx) else tb.2))
      (none, b) = (none, b) := by
  induction corners with
  | nil => rfl
  | cons a corners ih => simpa using ih

theorem foldl_pair_some {α : Type} [Inhabited α] (srcT srcB : Option (List α))
    (corners : List Nat) (c₁ c₂ : Cursor α) :
    corners.foldl (fun (tb : Option (Cursor α) × Option (Cursor α)) idx =>
      (tb.1.map fun c => c.put (streamAt srcT idx),
       if tb.1.isSome then tb.2.map fun c => c.put (streamAt srcB idx) else tb.2))
      (some c₁, some c₂) =
      (some (corners.foldl (fun c idx => c.put (streamAt srcT idx)) c₁),
       some (corners.foldl (fun c idx => c.put (streamAt srcB idx)) c₂)) := by
  induction corners generalizing c₁ c₂ with
  | nil => rfl
  | cons a corners ih => simp only [List.foldl_cons, Option.map_some', Option.isSome_some,
      if_true, ih]

theorem splitKind_normals (mesh : aiMesh) (avw : Option (Nat → VertexWeightTable))
    (real : Nat) (src : Option (List aiVector3D)) (h : real < 4) :
    (splitKind mesh avw (countFaces mesh.mFaces (fun _ => 0, 0)).1
      (countFaces mesh.mFaces (fun _ => 0, 0)).2 real src).out.mNormals =
      if mesh.mNormals.isSome = true then
        some ((cornersOfKind mesh real).map fun idx => streamAt mesh.mNormals idx)
      else none := by
  simp only [splitKind]
  rw [copyFaces_proj mesh avw real SplitState.nor
    (fun (c : Option (Cursor aiVector3D)) idx =>
      c.map fun (x : Cursor aiVector3D) => x.put (streamAt mesh.mNormals idx)) (fun _ _ => rfl)
    (fun _ _ => rfl), filter_faceMatches _ _ h, declared_eq mesh real h]
  exact foldl_stream mesh.mNormals (cornersOfKind mesh real) _ rfl mesh.mNormals.isSome

theorem splitKind_tangents (mesh : aiMesh) (avw : Option (Nat → VertexWeightTable))
    (real : Nat) (src : Option (List aiVector3D)) (h : real < 4) :
    ((splitKind mesh avw (countFaces mesh.mFaces (fun _ => 0, 0)).1
      (countFaces mesh.mFaces (fun _ => 0, 0)).2 real src).out.mTangents,
     (splitKind mesh avw (countFaces mesh.mFaces (fun _ => 0, 0)).1
      (countFaces mesh.mFaces (fun _ => 0, 0)).2 real src).out.mBitangents) =
      if mesh.mTangents.isSome = true then
        (some ((cornersOfKind mesh real).map fun idx => streamAt mesh.mTangents idx),
         some ((cornersOfKind mesh real).map fun idx => streamAt mesh.mBitangents idx))
      else (none, none) := by
  have key := copyFaces_proj mesh avw real (fun st => (st.tan, st.bit))
    (fun (tb : Option (Cursor aiVector3D) × Option (Cursor aiVector3D)) idx =>
      (tb.1.map fun (c : Cursor aiVector3D) => c.put (streamAt mesh.mTangents idx),
       if tb.1.isSome then
         tb.2.map fun (c : Cursor aiVector3D) => c.put (streamAt mesh.mBitangents idx)
       else tb.2))
    (fun _ _ => rfl) (fun _ _ => rfl) mesh.mFaces
    (initState mesh src ((countFaces mesh.mFaces (fun _ => 0, 0)).1 real)
      (cornersOfKind mesh real).length)
  rw [filter_faceMatches _ _ h] at key
  simp only [splitKind]
  rw [declared_eq mesh real h]
  have hT : ∀ st : SplitState, (st.tan.map Cursor.buf, st.bit.map Cursor.buf) =
      (Option.map Cursor.buf (st.tan, st.bit).1, Option.map Cursor.buf (st.tan, st.bit).2) :=
    fun _ => rfl
  rw [hT, key]
  cases hp : mesh.mTangents.isSome
  · simp only [initState, hp, Bool.false_eq_true, if_false]
    rw [foldl_pair_none]
    rfl
  · simp only [initState, hp, if_true]
    rw [foldl_pair_some]
    simp only [Option.map_some']
    rw [foldl_put_map, foldl_put_alloc _ _ (by rw [List.length_map]; rfl), foldl_put_map,
      foldl_put_alloc _ _ (by rw [List.length_map]; rfl)]
    rfl

/-- C7. For a round of the split of a mesh whose mask has more than one kind bit
and that has bitangents whenever it has tangents: the output mesh has normals exactly when the source has them, it has
tangents and bitangents exactly when the source has them, it has the material
index of the source, and at the new index of every copied corner it holds the
normal, the tangent and the bitangent that the source holds at the corner's
original index. -/
theorem C7_normals_and_tangents_are_copied (avw : Option (Nat → VertexWeightTable))
    (mesh : aiMesh) (real : Nat) (r : KindResult)
    (_hsplit : 1 < numKinds mesh.mPrimitiveTypes)
    (hpaired : mesh.mTangents.isSome = true → mesh.mBitangents.isSome = true)
    (hr : (splitMeshWith avw mesh)[real]? = some (some r)) :
    r.out.mNormals.isSome = mesh.mNormals.isSome ∧
    ((r.out.mTangents.isSome = true ∧ r.out.mBitangents.isSome = true) ↔
      (mesh.mTangents.isSome = true ∧ mesh.mBitangents.isSome = true)) ∧
    r.out.mMaterialIndex = mesh.mMaterialIndex ∧
    ∀ p ∈ cornerPairs (facesOfKind mesh real) r.out.mFaces,
      (∀ l, mesh.mNormals = some l → p.1 < l.length →
        ∃ l', r.out.mNormals = some l' ∧ l'[p.2]? = l[p.1]?) ∧
      (∀ t b, mesh.mTangents = some t → mesh.mBitangents = some b →
        p.1 < t.length → p.1 < b.length →
        ∃ t' b', r.out.mTangents = some t' ∧ r.out.mBitangents = some b' ∧
          t'[p.2]? = t[p.1]? ∧ b'[p.2]? = b[p.1]?) := by
  have hpair := corner_of_pair avw mesh real r hr
  obtain ⟨hlt, -, src', rfl⟩ := splitMeshWith_some avw mesh real r hr
  have hn := splitKind_normals mesh avw real src' hlt
  have ht := splitKind_tangents mesh avw real src' hlt
  have ht1 := congrArg Prod.fst ht
  have ht2 := congrArg Prod.snd ht
  simp only at ht1 ht2
  refine ⟨?_, ?_, rfl, ?_⟩
  · rw [hn]
    cases mesh.mNormals.isSome <;> rfl
  · rw [ht1, ht2]
    cases hT : mesh.mTangents.isSome
    · simp
    · simp [hpaired hT]
  · intro p hp
    constructor
    · intro l hl hlen
      rw [hn, hl]
      exact ⟨_, rfl, getElem?_map_streamAt _ l p.1 p.2 (hpair p hp) hlen⟩
    · intro t b hte hbe hlt' hlb
      rw [ht1, ht2, hte, hbe]
      exact ⟨_, _, rfl, rfl, getElem?_map_streamAt _ t p.1 p.2 (hpair p hp) hlt',
        getElem?_map_streamAt _ b p.1 p.2 (hpair p hp) hlb⟩

/-- C7, at the LINE round of the example mesh with tangents. -/
theorem C7_normals_and_tangents_are_copied_witness :
    ∃ r, (splitMesh tangentMesh)[1]? = some (some r) ∧
      r.out.mNormals.isSome = tangentMesh.mNormals.isSome ∧
      ((r.out.mTangents.isSome = true ∧ r.out.mBitangents.isSome = true) ↔
        (tangentMesh.mTangents.isSome = true ∧ tangentMesh.mBitangents.isSome = true)) ∧
      r.out.mMaterialIndex = tangentMesh.mMaterialIndex ∧
      ∀ p ∈ cornerPairs (facesOfKind tangentMesh 1) r.out.mFaces,
        (∀ l, tangentMesh.mNormals = some l → p.1 < l.length →
          ∃ l', r.out.mNormals = some l' ∧ l'[p.2]? = l[p.1]?) ∧
        (∀ t b, tangentMesh.mTangents = some t → tangentMesh.mBitangents = some b →
          p.1 < t.length → p.1 < b.length →
          ∃ t' b', r.out.mTangents = some t' ∧ r.out.mBitangents = some b' ∧
            t'[p.2]? = t[p.1]? ∧ b'[p.2]? = b[p.1]?) := by
  have h : ∃ r, (splitMesh tangentMesh)[1]? = some (some r) := ⟨_, rfl⟩
  obtain ⟨r, hr⟩ := h
  exact ⟨r, hr, C7_normals_and_tangents_are_copied _ tangentMesh 1 r (by decide) (by decide)
    hr⟩

/-! ## Bone weights -/

/-- C8. In the end-to-end example the bone "arm" weights the vertex 5 of the
point face.  The POINT output mesh has one vertex and the corner is copied to
the new index 0, but the weight entry of its bone carries the vertex index 5,
the index in the source mesh. -/
theorem C8_weight_keeps_the_source_vertex_index :
    ∃ out, outputOf (splitMesh classifiedExample) 0 = some out ∧
      out.mNumVertices = 1 ∧
      cornerPairs (facesOfKind classifiedExample 0) out.mFaces = [(5, 0)] ∧
      out.mBones.map aiBone.mWeights = [[⟨5, FloatVal.num 3⟩]] := by
  refine ⟨_, rfl, ?_, ?_, ?_⟩
  · decide
  · decide
  · decide

theorem accumulate_apply (tb : Nat → List aiVertexWeight) (idx : Nat) (T : VertexWeightTable)
    (q : Nat) :
    accumulate tb idx T q =
      tb q ++ (T.filter fun e => e.1 == q).map fun e => (⟨idx, e.2⟩ : aiVertexWeight) := by
  induction T generalizing tb with
  | nil => simp [accumulate]
  | cons e T ih =>
    have hstep : accumulate tb idx (e :: T) = accumulate (pushWeight tb e.1 ⟨idx, e.2⟩) idx T :=
      rfl
    rw [hstep, ih, List.filter_cons]
    by_cases hq : q = e.1
    · subst hq
      simp [pushWeight]
    · have hne : (e.1 == q) = false := by
        simp only [beq_eq_false_iff_ne, ne_eq]
        exact fun h => hq h.symm
      simp [pushWeight, hq, hne]

theorem foldl_accumulate_apply (tbl : Nat → VertexWeightTable) (corners : List Nat)
    (tb : Nat → List aiVertexWeight) (q : Nat) :
    (corners.foldl (fun t idx => accumulate t idx (tbl idx)) tb) q =
      tb q ++ corners.flatMap fun idx =>
        ((tbl idx).filter fun e => e.1 == q).map fun e => (⟨idx, e.2⟩ : aiVertexWeight) := by
  induction corners generalizing tb with
  | nil => simp
  | cons a corners ih =>
    rw [List.foldl_cons, ih, accumulate_apply, List.flatMap_cons, List.append_assoc]

theorem splitKind_tempBones (mesh : aiMesh) (tbl : Nat → VertexWeightTable)
    (counts : Nat → Nat) (npv real : Nat) (src : Option (List aiVector3D)) (h : real < 4)
    (q : Nat) :
    (splitKind mesh (some tbl) counts npv real src).tempBones q =
      (cornersOfKind mesh real).flatMap fun idx =>
        ((tbl idx).filter fun e => e.1 == q).map fun e => (⟨idx, e.2⟩ : aiVertexWeight) := by
  simp only [splitKind]
  rw [copyFaces_proj mesh (some tbl) real SplitState.tempBones
    (fun t idx => accumulate t idx (tbl idx)) (fun _ _ => rfl) (fun _ _ => rfl),
    filter_faceMatches _ _ h, foldl_accumulate_apply]
  rfl

theorem filter_map_bone (l : List aiVertexWeight) (i v q : Nat) :
    ((((l.filter fun w => w.mVertexId == v).map fun w => (i, w.mWeight)).filter
      fun e => e.1 == q).map fun e => (⟨v, e.2⟩ : aiVertexWeight)) =
      if i = q then l.filter fun w => w.mVertexId == v else [] := by
  induction l with
  | nil => simp
  | cons w l ih =>
    by_cases hw : w.mVertexId = v
    · by_cases hi : i = q
      · simp only [hi, if_true] at ih ⊢
        simp only [List.filter_cons, hw, beq_self_eq_true, if_true, List.map_cons] at ih ⊢
        rw [ih]
        cases w
        simp_all
      · simp only [hi, if_false] at ih ⊢
        have : (i == q) = false := by simpa using hi
        simp only [List.filter_cons, hw, beq_self_eq_true, if_true, List.map_cons, this]
        exact ih
    · have hne : (w.mVertexId == v) = false := by simpa using hw
      simp only [List.filter_cons, hne]
      exact ih

theorem weightsOfVertex_filter (bs : List aiBone) (i v q : Nat) :
    (((weightsOfVertex bs i v).filter fun e => e.1 == q).map
      fun e => (⟨v, e.2⟩ : aiVertexWeight)) =
      if q < i then []
      else ((bs[q - i]?).map fun b => b.mWeights.filter fun w => w.mVertexId == v).getD [] := by
  induction bs generalizing i with
  | nil => simp [weightsOfVertex]
  | cons b bs ih =>
    simp only [weightsOfVertex, List.filter_append, List.map_append]
    rw [filter_map_bone, ih]
    by_cases h1 : q < i
    · have h2 : q < i + 1 := by omega
      have h3 : ¬ i = q := by omega
      simp [h1, h2, h3]
    · by_cases h2 : i = q
      · subst h2
        simp
      · have h3 : ¬ q < i + 1 := by omega
        have h4 : q - i = (q - (i + 1)) + 1 := by omega
        simp only [h1, h2, h3, if_false, List.nil_append]
        rw [h4, List.getElem?_cons_succ]

theorem splitKind_tempBones_inverse (mesh : aiMesh) (counts : Nat → Nat) (npv real : Nat)
    (src : Option (List aiVector3D)) (h : real < 4) (q : Nat) (b : aiBone)
    (hb : mesh.mBones[q]? = some b) :
    (splitKind mesh (ComputeVertexBoneWeightTable mesh) counts npv real src).tempBones q =
      (cornersOfKind mesh real).flatMap fun idx =>
        b.mWeights.filter fun w => w.mVertexId == idx := by
  unfold ComputeVertexBoneWeightTable
  rw [splitKind_tempBones mesh _ counts npv real src h]
  congr 1
  funext idx
  rw [weightsOfVertex_filter]
  simp [hb]

theorem count_flatMap_filter (W : List aiVertexWeight) (corners : List Nat)
    (e : aiVertexWeight) :
    (corners.flatMap fun idx => W.filter fun w => w.mVertexId == idx).count e =
      W.count e * corners.count e.mVertexId := by
  induction corners with
  | nil => simp
  | cons a corners ih =>
    rw [List.flatMap_cons, List.count_append, ih, List.count_cons]
    by_cases ha : a = e.mVertexId
    · subst ha
      rw [List.count_filter (by simp)]
      simp [Nat.mul_add, Nat.add_comm]
    · have hz : (W.filter fun w => w.mVertexId == a).count e = 0 := by
        apply List.count_eq_zero_of_not_mem
        intro hmem
        have h2 : e.mVertexId = a := by simpa using (List.mem_filter.1 hmem).2
        exact ha h2.symm
      have hne : (a == e.mVertexId) = false := by simpa using ha
      simp [hz, hne]

theorem round_tempBones (mesh : aiMesh) (real : Nat) (h : real < 4) (q : Nat) (b : aiBone)
    (hb : mesh.mBones[q]? = some b) (src : Option (List aiVector3D)) :
    (match (if (countFaces mesh.mFaces (fun _ => 0, 0)).1 real = 0 then none
        else some (splitKind mesh (ComputeVertexBoneWeightTable mesh)
          (countFaces mesh.mFaces (fun _ => 0, 0)).1
          (countFaces mesh.mFaces (fun _ => 0, 0)).2 real src)) with
      | some k => k.tempBones q
      | none => []) =
      (cornersOfKind mesh real).flatMap fun idx =>
        b.mWeights.filter fun w => w.mVertexId == idx := by
  by_cases hc : (countFaces mesh.mFaces (fun _ => 0, 0)).1 real = 0
  · simp only [hc, if_true]
    rw [counts_eq mesh real h] at hc
    have : facesOfKind mesh real = [] := List.length_eq_zero.1 hc
    simp [cornersOfKind, this]
  · simp only [hc, if_false]
    exact splitKind_tempBones_inverse mesh _ _ real src h q b hb

theorem accumulatedFor_splitMesh (mesh : aiMesh) (q : Nat) (b : aiBone)
    (hb : mesh.mBones[q]? = some b) :
    accumulatedFor (splitMesh mesh) q =
      [0, 1, 2, 3].flatMap fun real =>
        (cornersOfKind mesh real).flatMap fun idx =>
          b.mWeights.filter fun w => w.mVertexId == idx := by
  obtain ⟨s0, h0⟩ := splitMeshWith_getElem (ComputeVertexBoneWeightTable mesh) mesh 0 (by decide)
  obtain ⟨s1, h1⟩ := splitMeshWith_getElem (ComputeVertexBoneWeightTable mesh) mesh 1 (by decide)
  obtain ⟨s2, h2⟩ := splitMeshWith_getElem (ComputeVertexBoneWeightTable mesh) mesh 2 (by decide)
  obtain ⟨s3, h3⟩ := splitMeshWith_getElem (ComputeVertexBoneWeightTable mesh) mesh 3 (by decide)
  have hl := splitMeshWith_length (ComputeVertexBoneWeightTable mesh) mesh
  unfold splitMesh
  generalize splitMeshWith (ComputeVertexBoneWeightTable mesh) mesh = rs at h0 h1 h2 h3 hl
  match rs, hl with
  | [a0, a1, a2, a3], _ =>
    simp only [List.getElem?_cons_zero, List.getElem?_cons_succ, Option.some.injEq]
      at h0 h1 h2 h3
    subst h0 h1 h2 h3
    simp only [accumulatedFor, List.flatMap_cons, List.flatMap_nil, List.append_nil]
    rw [round_tempBones mesh 0 (by decide) q b hb, round_tempBones mesh 1 (by decide) q b hb,
      round_tempBones mesh 2 (by decide) q b hb, round_tempBones mesh 3 (by decide) q b hb]

theorem count_corners_partition (fs : List aiFace) (v : Nat) :
    ((fs.filter fun f => hasKind 0 f.mNumIndices).flatMap aiFace.mIndices).count v +
      ((fs.filter fun f => hasKind 1 f.mNumIndices).flatMap aiFace.mIndices).count v +
      ((fs.filter fun f => hasKind 2 f.mNumIndices).flatMap aiFace.mIndices).count v +
      ((fs.filter fun f => hasKind 3 f.mNumIndices).flatMap aiFace.mIndices).count v =
      (fs.flatMap aiFace.mIndices).count v := by
  induction fs with
  | nil => rfl
  | cons f fs ih =>
    have hc : f.mNumIndices = 0 ∨ f.mNumIndices = 1 ∨ f.mNumIndices = 2 ∨ f.mNumIndices = 3 ∨
        3 < f.mNumIndices := by omega
    have key : ∃ b0 b1 b2 b3 : Bool, hasKind 0 f.mNumIndices = b0 ∧
        hasKind 1 f.mNumIndices = b1 ∧ hasKind 2 f.mNumIndices = b2 ∧
        hasKind 3 f.mNumIndices = b3 ∧
        ((if b0 then 1 else 0) + (if b1 then 1 else 0) + (if b2 then 1 else 0) +
          (if b3 then 1 else 0) = 1 ∨
         (b0 = false ∧ b1 = false ∧ b2 = false ∧ b3 = false ∧ f.mIndices = [])) := by
      rcases hc with h | h | h | h | h
      · exact ⟨false, false, false, false, by simp [hasKind, h], by simp [hasKind, h],
          by simp [hasKind, h], by simp [hasKind, h],
          Or.inr ⟨rfl, rfl, rfl, rfl, List.length_eq_zero.1 h⟩⟩
      · exact ⟨true, false, false, false, by simp [hasKind, h], by simp [hasKind, h],
          by simp [hasKind, h], by simp [hasKind, h], Or.inl rfl⟩
      · exact ⟨false, true, false, false, by simp [hasKind, h], by simp [hasKind, h],
          by simp [hasKind, h], by simp [hasKind, h], Or.inl rfl⟩
      · exact ⟨false, false, true, false, by simp [hasKind, h], by simp [hasKind, h],
          by simp [hasKind, h], by simp [hasKind, h], Or.inl rfl⟩
      · have e1 : ¬ f.mNumIndices = 1 := by omega
        have e2 : ¬ f.mNumIndices = 2 := by omega
        have e3 : ¬ f.mNumIndices = 3 := by omega
        exact ⟨false, false, false, true, by simp [hasKind, e1], by simp [hasKind, e2],
          by simp [hasKind, e3], by simp [hasKind, h], Or.inl rfl⟩
    obtain ⟨b0, b1, b2, b3, h0, h1, h2, h3, hsum⟩ := key
    simp only [List.filter_cons, h0, h1, h2, h3, List.flatMap_cons, List.count_append]
    rcases hsum with hsum | ⟨rfl, rfl, rfl, rfl, hnil⟩
    · cases b0 <;> cases b1 <;> cases b2 <;> cases b3 <;> simp at hsum <;>
        simp [List.flatMap_cons, List.count_append] <;> omega
    · simp [hnil]
      exact ih

/-- C9 as stated fails: in the end-to-end example the bone "arm" holds the entry
(vertex 3, weight 2) once, the vertex 3 is a corner of both line faces, and the
accumulator of the bone for the LINE mesh holds the entry twice; over all output
meshes four entries are accumulated for the three original ones. -/
theorem C9_entry_of_a_shared_vertex_is_accumulated_twice :
    ∃ r b, (splitMesh classifiedExample)[1]? = some (some r) ∧
      classifiedExample.mBones[0]? = some b ∧
      b.mWeights.count ⟨3, FloatVal.num 2⟩ = 1 ∧
      (r.tempBones 0).count ⟨3, FloatVal.num 2⟩ = 2 ∧
      ¬ (accumulatedFor (splitMesh classifiedExample) 0).Perm b.mWeights := by
  refine ⟨_, _, rfl, rfl, ?_, ?_, ?_⟩
  · decide
  · decide
  · intro h
    exact absurd h.length_eq (by decide)

/-- C9, amended. For a mesh whose mask has more than one kind bit, with the
vertex weight table being the per-vertex inversion of the weight lists of the
bones, the entries accumulated for a source bone over all output meshes of the
split, each carrying the source vertex it was taken from, are the original
entries of the bone, each repeated once for every face corner of the mesh that
references its vertex: an entry occurs among them as often as it occurs in the
bone times the number of corners that reference its vertex. -/
theorem C9_accumulated_once_per_referencing_corner (mesh : aiMesh)
    (tbl : Nat → VertexWeightTable)
    (_hsplit : 1 < numKinds mesh.mPrimitiveTypes)
    (htbl : ∀ v, tbl v = weightsOfVertex mesh.mBones 0 v)
    (q : Nat) (b : aiBone) (hb : mesh.mBones[q]? = some b) (e : aiVertexWeight) :
    (accumulatedFor (splitMeshWith (some tbl) mesh) q).count e =
      b.mWeights.count e * (mesh.mFaces.flatMap aiFace.mIndices).count e.mVertexId := by
  have ht : tbl = fun v => weightsOfVertex mesh.mBones 0 v := funext htbl
  subst ht
  have hacc := accumulatedFor_splitMesh mesh q b hb
  unfold splitMesh ComputeVertexBoneWeightTable at hacc
  rw [hacc]
  simp only [List.flatMap_cons, List.flatMap_nil, List.append_nil, List.count_append,
    count_flatMap_filter]
  rw [← count_corners_partition mesh.mFaces e.mVertexId]
  simp only [cornersOfKind, facesOfKind]
  ring

/-- C9, amended, at the bone "arm" of the end-to-end example and its entry for
the vertex 3, which two corners reference. -/
theorem C9_accumulated_once_per_referencing_corner_witness :
    (accumulatedFor (splitMesh classifiedExample) 0).count ⟨3, FloatVal.num 2⟩ =
      [(⟨0, FloatVal.num 1⟩ : aiVertexWeight), ⟨3, FloatVal.num 2⟩, ⟨5, FloatVal.num 3⟩].count
        ⟨3, FloatVal.num 2⟩ *
      (classifiedExample.mFaces.flatMap aiFace.mIndices).count 3 :=
  C9_accumulated_once_per_referencing_corner classifiedExample
    (fun v => weightsOfVertex classifiedExample.mBones 0 v) (by decide) (fun _ => rfl) 0
    ⟨"arm", [], [⟨0, FloatVal.num 1⟩, ⟨3, FloatVal.num 2⟩, ⟨5, FloatVal.num 3⟩]⟩ rfl
    ⟨3, FloatVal.num 2⟩

/-! ## Output bones -/

theorem makeBones_eq (tb : Nat → List aiVertexWeight) (bs : List aiBone) (i : Nat) :
    makeBones tb bs i =
      ((bs.enumFrom i).filter fun p => !(tb p.1).isEmpty).map fun p =>
        ({ mName := p.2.mName, mOffsetMatrix := p.2.mOffsetMatrix, mWeights := tb p.1 } :
          aiBone) := by
  induction bs generalizing i with
  | nil => rfl
  | cons b bs ih =>
    unfold makeBones
    rw [List.enumFrom_cons, List.filter_cons]
    cases h : (tb i).isEmpty
    · simp [ih]
    · simp [ih]

theorem flatMap_filter_nonempty (W : List aiVertexWeight) (corners : List Nat) :
    (!(corners.flatMap fun idx => W.filter fun w => w.mVertexId == idx).isEmpty) =
      W.any fun w => corners.contains w.mVertexId := by
  rw [Bool.eq_iff_iff]
  simp only [Bool.not_eq_true', List.isEmpty_eq_false, List.any_eq_true,
    List.contains_iff_exists_mem_beq, beq_iff_eq]
  constructor
  · intro h
    obtain ⟨x, hx⟩ := List.exists_mem_of_ne_nil _ h
    obtain ⟨idx, hidx, hmem⟩ := List.mem_flatMap.1 hx
    obtain ⟨hxW, hv⟩ := List.mem_filter.1 hmem
    exact ⟨x, hxW, idx, hidx, by simpa using hv⟩
  · rintro ⟨w, hw, idx, hidx, hv⟩ hnil
    have : w ∈ (corners.flatMap fun idx => W.filter fun w => w.mVertexId == idx) :=
      List.mem_flatMap.2 ⟨idx, hidx, List.mem_filter.2 ⟨hw, by simpa using hv⟩⟩
    rw [hnil] at this
    simp at this

/-- C10. For a mesh whose mask has more than one kind bit, with the vertex weight
table being the per-vertex inversion of the weight lists of the bones, the bones
of an output mesh of the split are, in source order, the source bones that weight
at least one vertex referenced by a corner copied into that output mesh; each
carries the name and the offset matrix of its source bone and as many weights as
its accumulator holds. -/
theorem C10_output_bones_are_the_bones_with_copied_vertices (mesh : aiMesh)
    (tbl : Nat → VertexWeightTable) (real : Nat) (r : KindResult)
    (_hsplit : 1 < numKinds mesh.mPrimitiveTypes)
    (htbl : ∀ v, tbl v = weightsOfVertex mesh.mBones 0 v)
    (hr : (splitMeshWith (some tbl) mesh)[real]? = some (some r)) :
    r.out.mBones.map (fun b => (b.mName, b.mOffsetMatrix, b.mWeights.length)) =
      (mesh.mBones.enum.filter fun p =>
        p.2.mWeights.any fun w => (cornersOfKind mesh real).contains w.mVertexId).map
        fun p => (p.2.mName, p.2.mOffsetMatrix, (r.tempBones p.1).length) := by
  have ht : tbl = fun v => weightsOfVertex mesh.mBones 0 v := funext htbl
  subst ht
  obtain ⟨hlt, -, src', rfl⟩ := splitMeshWith_some _ mesh real r hr
  have hbones : ∀ (k : KindResult),
      k = splitKind mesh (some fun v => weightsOfVertex mesh.mBones 0 v)
        (countFaces mesh.mFaces (fun _ => 0, 0)).1 (countFaces mesh.mFaces (fun _ => 0, 0)).2
        real src' → k.out.mBones = makeBones k.tempBones mesh.mBones 0 := by
    intro k hk
    subst hk
    rfl
  rw [hbones _ rfl, makeBones_eq, List.map_map]
  have hfilter : (mesh.mBones.enumFrom 0).filter (fun p =>
      !((splitKind mesh (some fun v => weightsOfVertex mesh.mBones 0 v)
        (countFaces mesh.mFaces (fun _ => 0, 0)).1 (countFaces mesh.mFaces (fun _ => 0, 0)).2
        real src').tempBones p.1).isEmpty) =
      mesh.mBones.enum.filter fun p =>
        p.2.mWeights.any fun w => (cornersOfKind mesh real).contains w.mVertexId := by
    apply List.filter_congr
    intro p hp
    have hb : mesh.mBones[p.1]? = some p.2 := List.mem_enum_iff_getElem?.1 hp
    have hacc := splitKind_tempBones_inverse mesh (countFaces mesh.mFaces (fun _ => 0, 0)).1
      (countFaces mesh.mFaces (fun _ => 0, 0)).2 real src' hlt p.1 p.2 hb
    unfold ComputeVertexBoneWeightTable at hacc
    rw [hacc, flatMap_filter_nonempty]
  rw [hfilter]
  rfl

/-- C10, at the LINE round of the end-to-end example. -/
theorem C10_output_bones_are_the_bones_with_copied_vertices_witness :
    ∃ r, (splitMesh classifiedExample)[1]? = some (some r) ∧
      r.out.mBones.map (fun b => (b.mName, b.mOffsetMatrix, b.mWeights.length)) =
        (classifiedExample.mBones.enum.filter fun p =>
          p.2.mWeights.any fun w => (cornersOfKind classifiedExample 1).contains w.mVertexId).map
          fun p => (p.2.mName, p.2.mOffsetMatrix, (r.tempBones p.1).length) := by
  have h : ∃ r, (splitMesh classifiedExample)[1]? = some (some r) := ⟨_, rfl⟩
  obtain ⟨r, hr⟩ := h
  exact ⟨r, hr, C10_output_bones_are_the_bones_with_copied_vertices classifiedExample
    (fun v => weightsOfVertex classifiedExample.mBones 0 v) 1 r (by decide) (fun _ => rfl) hr⟩

/-! ## The split path inside the mesh loop -/

theorem emitRounds_outMeshes (rs : List (Option KindResult)) (outMeshes : List aiMesh) :
    (emitRounds rs outMeshes).1 =
      outMeshes ++ rs.filterMap fun r => r.map KindResult.out := by
  induction rs generalizing outMeshes with
  | nil => simp [emitRounds]
  | cons r rs ih =>
    cases r with
    | none => simp [emitRounds, ih]
    | some k => simp [emitRounds, ih]

theorem numKinds_le (mask : Nat) : numKinds mask ≤ 4 := by
  unfold numKinds
  split_ifs <;> omega

theorem numKinds_zero : numKinds 0 = 0 := by decide

theorem ExecuteMesh_split (st : SortState) (mesh : aiMesh)
    (hsplit : 1 < numKinds mesh.mPrimitiveTypes) :
    SortByPTypeProcess.ExecuteMesh st mesh = Except.ok
      { outMeshes := st.outMeshes ++ (splitMesh mesh).filterMap fun r => r.map KindResult.out
        replaceMeshIndex := st.replaceMeshIndex ++
          (emitRounds (splitMesh mesh) st.outMeshes).2 ++ [endOfRecord] } := by
  have h0 : mesh.mPrimitiveTypes ≠ 0 := by
    intro h
    rw [h, numKinds_zero] at hsplit
    omega
  have h1 : numKinds mesh.mPrimitiveTypes ≠ 1 := by omega
  have hle := numKinds_le mesh.mPrimitiveTypes
  have hd : reserveDivisor (numKinds mesh.mPrimitiveTypes) ≠ 0 := by
    unfold reserveDivisor
    omega
  simp [SortByPTypeProcess.ExecuteMesh, h0, h1, hd, emitRounds_outMeshes]

/-! ## The mesh loop -/

theorem emitRounds_slots (rs : List (Option KindResult)) (outMeshes : List aiMesh) :
    (emitRounds rs outMeshes).2 = slotsOf outMeshes.length rs := by
  induction rs generalizing outMeshes with
  | nil => rfl
  | cons r rs ih =>
    cases r with
    | none => simp [emitRounds, slotsOf, ih]
    | some k => simp [emitRounds, slotsOf, ih]

theorem reserveDivisor_ne_zero (num : Nat) (hle : num ≤ 4) (h1 : num ≠ 1) :
    reserveDivisor num ≠ 0 := by
  unfold reserveDivisor
  omega

theorem ExecuteMesh_ok (st : SortState) (mesh : aiMesh) (h0 : mesh.mPrimitiveTypes ≠ 0) :
    SortByPTypeProcess.ExecuteMesh st mesh = Except.ok
      { outMeshes := st.outMeshes ++ outputsOf mesh
        replaceMeshIndex := st.replaceMeshIndex ++ recordOf st.outMeshes.length mesh } := by
  unfold SortByPTypeProcess.ExecuteMesh outputsOf recordOf
  by_cases h1 : numKinds mesh.mPrimitiveTypes = 1
  · simp [h0, h1]
  · have hd := reserveDivisor_ne_zero _ (numKinds_le mesh.mPrimitiveTypes) h1
    simp [h0, h1, hd, emitRounds_outMeshes, emitRounds_slots]

theorem meshLoop_ok (meshes : List aiMesh) (st : SortState)
    (h0 : ∀ m ∈ meshes, m.mPrimitiveTypes ≠ 0) :
    SortByPTypeProcess.meshLoop meshes st = Except.ok
      { outMeshes := st.outMeshes ++ emittedMeshes meshes
        replaceMeshIndex := st.replaceMeshIndex ++ tableOf st.outMeshes.length meshes } := by
  induction meshes generalizing st with
  | nil => simp [SortByPTypeProcess.meshLoop, emittedMeshes, tableOf]
  | cons m ms ih =>
    unfold SortByPTypeProcess.meshLoop
    rw [ExecuteMesh_ok st m (h0 m (List.mem_cons_self _ _))]
    simp only
    rw [ih _ (fun x hx => h0 x (List.mem_cons_of_mem _ hx))]
    simp [emittedMeshes, tableOf, List.append_assoc]

theorem slotsOf_length (first : Nat) (rs : List (Option KindResult)) :
    (slotsOf first rs).length = rs.length := by
  induction rs generalizing first with
  | nil => rfl
  | cons r rs ih => cases r <;> simp [slotsOf, ih]

theorem recordOf_length (first : Nat) (mesh : aiMesh) : (recordOf first mesh).length = 5 := by
  unfold recordOf
  split
  · rfl
  · simp [slotsOf_length, splitMesh, splitMeshWith_length]

theorem tableOf_length (first : Nat) (meshes : List aiMesh) :
    (tableOf first meshes).length = meshes.length * 5 := by
  induction meshes generalizing first with
  | nil => rfl
  | cons m ms ih => simp [tableOf, recordOf_length, ih]; ring

theorem firstOutput_zero (meshes : List aiMesh) : firstOutput meshes 0 = 0 := by
  simp [firstOutput]

theorem firstOutput_succ (m : aiMesh) (ms : List aiMesh) (i : Nat) :
    firstOutput (m :: ms) (i + 1) = (outputsOf m).length + firstOutput ms i := by
  simp [firstOutput]

theorem tableOf_drop (first : Nat) (meshes : List aiMesh) (i : Nat) (m : aiMesh)
    (hm : meshes[i]? = some m) :
    ∃ rest, (tableOf first meshes).drop (i * 5) =
      recordOf (first + firstOutput meshes i) m ++ rest := by
  induction meshes generalizing first i with
  | nil => simp at hm
  | cons m0 ms ih =>
    cases i with
    | zero =>
      have : m0 = m := by simpa using hm
      subst this
      exact ⟨tableOf (first + (outputsOf m0).length) ms, by simp [tableOf, firstOutput_zero]⟩
    | succ i =>
      have hm' : ms[i]? = some m := by simpa using hm
      obtain ⟨rest, hrest⟩ := ih (first + (outputsOf m0).length) i hm'
      refine ⟨rest, ?_⟩
      have hlen : (i + 1) * 5 = (recordOf first m0).length + i * 5 := by
        rw [recordOf_length]; ring
      rw [tableOf, hlen, List.drop_append, hrest, firstOutput_succ, Nat.add_assoc]

theorem tableOf_drop_none (first : Nat) (meshes : List aiMesh) (i : Nat)
    (hi : meshes[i]? = none) : (tableOf first meshes).drop (i * 5) = [] := by
  apply List.drop_eq_nil_of_le
  rw [tableOf_length]
  have := List.getElem?_eq_none_iff.1 hi
  exact Nat.mul_le_mul_right 5 this

theorem firstOutput_add_le (meshes : List aiMesh) (i : Nat) (m : aiMesh)
    (hm : meshes[i]? = some m) :
    firstOutput meshes i + (outputsOf m).length ≤ (emittedMeshes meshes).length := by
  induction meshes generalizing i with
  | nil => simp at hm
  | cons m0 ms ih =>
    cases i with
    | zero =>
      have : m0 = m := by simpa using hm
      subst this
      simp [firstOutput_zero, emittedMeshes]
    | succ i =>
      have hm' : ms[i]? = some m := by simpa using hm
      have := ih i hm'
      rw [firstOutput_succ]
      simp only [emittedMeshes, List.flatMap_cons, List.length_append] at this ⊢
      omega

theorem scan_slots (rs : List (Option KindResult)) (first : Nat) (rest : List Nat)
    (hb : first + (rs.filterMap fun r => r.map KindResult.out).length ≤ endOfRecord) :
    (((slotsOf first rs ++ endOfRecord :: rest).takeWhile fun v => v != endOfRecord).filter
      fun v => v != absentSlot) =
      List.range' first (rs.filterMap fun r => r.map KindResult.out).length := by
  induction rs generalizing first with
  | nil => simp [slotsOf]
  | cons r rs ih =>
    cases r with
    | none =>
      have h1 : (absentSlot != endOfRecord) = true := by decide
      have hb' : first + (rs.filterMap fun r => r.map KindResult.out).length ≤ endOfRecord := by
        simpa using hb
      simp only [slotsOf, List.cons_append, List.takeWhile_cons, h1, if_true, List.filter_cons,
        bne_self_eq_false, Bool.false_eq_true, if_false, List.filterMap_cons, Option.map_none']
      exact ih first hb'
    | some k =>
      have hlen : (((some k :: rs).filterMap fun r => r.map KindResult.out)).length =
          (rs.filterMap fun r => r.map KindResult.out).length + 1 := by
        simp
      rw [hlen] at hb ⊢
      have hlt : first < endOfRecord := by omega
      have h1 : (first != endOfRecord) = true := by
        simp only [bne_iff_ne, ne_eq]; omega
      have h2 : (first != absentSlot) = true := by
        simp only [bne_iff_ne, ne_eq]
        have : endOfRecord < absentSlot := by decide
        omega
      simp only [slotsOf, List.cons_append, List.takeWhile_cons, h1, if_true, List.filter_cons,
        h2, List.range'_succ]
      rw [ih (first + 1) (by omega)]

theorem scan_record (first : Nat) (mesh : aiMesh) (rest : List Nat)
    (hb : first + (outputsOf mesh).length ≤ endOfRecord) :
    (((recordOf first mesh ++ rest).takeWhile fun v => v != endOfRecord).filter
      fun v => v != absentSlot) = List.range' first (outputsOf mesh).length := by
  unfold recordOf outputsOf at *
  by_cases h1 : numKinds mesh.mPrimitiveTypes = 1
  · simp only [h1, if_true, List.length_singleton] at hb ⊢
    have hlt : first < endOfRecord := by omega
    have e1 : (first != endOfRecord) = true := by
      simp only [bne_iff_ne, ne_eq]; omega
    have e2 : (first != absentSlot) = true := by
      simp only [bne_iff_ne, ne_eq]
      have : endOfRecord < absentSlot := by decide
      omega
    have e3 : (absentSlot != endOfRecord) = true := by decide
    simp [List.takeWhile_cons, e1, e2, e3, List.filter_cons]
  · simp only [h1, if_false] at hb ⊢
    rw [List.append_assoc]
    exact scan_slots _ first rest hb

theorem remapOf_tableOf (meshes : List aiMesh) (i : Nat)
    (hb : (emittedMeshes meshes).length ≤ endOfRecord) :
    remapOf (tableOf 0 meshes) i = positionsOf meshes i := by
  unfold remapOf positionsOf
  cases hm : meshes[i]? with
  | none => simp [tableOf_drop_none 0 meshes i hm]
  | some m =>
    obtain ⟨rest, hrest⟩ := tableOf_drop 0 meshes i m hm
    have hle := firstOutput_add_le meshes i m hm
    rw [hrest, Nat.zero_add]
    exact scan_record _ m rest (by omega)

/-! ## The node tree -/

mutual
theorem nodeLists_mapNode (f : List Nat → List Nat) :
    ∀ node : aiNode, nodeLists (mapNode f node) = (nodeLists node).map f
  | aiNode.mk ms cs => by
    simp only [mapNode, nodeLists, List.map_cons, childrenLists_mapChildren f cs]
theorem childrenLists_mapChildren (f : List Nat → List Nat) :
    ∀ cs : List aiNode, childrenLists (mapChildren f cs) = (childrenLists cs).map f
  | [] => rfl
  | c :: cs => by
    simp only [mapChildren, childrenLists, List.map_append, nodeLists_mapNode f c,
      childrenLists_mapChildren f cs]
end

mutual
theorem UpdateNodes_ok (t : List Nat) :
    ∀ node : aiNode,
      (∀ ms ∈ nodeLists node, ms ≠ [] → ms.flatMap (remapOf t) ≠ []) →
      UpdateNodes t node = Except.ok (mapNode (fun ms => ms.flatMap (remapOf t)) node)
  | aiNode.mk ms cs => by
    intro h
    have hcs := UpdateChildren_ok t cs (fun l hl => h l (by simp [nodeLists, hl]))
    unfold UpdateNodes
    rw [hcs]
    by_cases hms : ms = []
    · subst hms
      simp [mapNode]
    · have hne := h ms (by simp [nodeLists]) hms
      have h1 : ms.length ≠ 0 := fun h0 => hms (List.length_eq_zero.1 h0)
      have h2 : (ms.flatMap (remapOf t)).length ≠ 0 := fun h0 => hne (List.length_eq_zero.1 h0)
      simp only [h1, h2, ne_eq, not_false_eq_true, if_true, if_false, mapNode]
theorem UpdateChildren_ok (t : List Nat) :
    ∀ cs : List aiNode,
      (∀ ms ∈ childrenLists cs, ms ≠ [] → ms.flatMap (remapOf t) ≠ []) →
      UpdateChildren t cs = Except.ok (mapChildren (fun ms => ms.flatMap (remapOf t)) cs)
  | [] => by
    intro _
    simp [UpdateChildren, mapChildren]
  | c :: cs => by
    intro h
    have hc := UpdateNodes_ok t c (fun l hl => h l (by simp [childrenLists, hl]))
    have hcs := UpdateChildren_ok t cs (fun l hl => h l (by simp [childrenLists, hl]))
    unfold UpdateChildren
    rw [hc]
    simp only
    rw [hcs]
    simp [mapChildren]
end

mutual
theorem UpdateNodes_result (t : List Nat) :
    ∀ node : aiNode,
      (UpdateNodes t node = Except.ok (mapNode (fun ms => ms.flatMap (remapOf t)) node) ∧
        ∀ ms ∈ nodeLists node, ms ≠ [] → ms.flatMap (remapOf t) ≠ []) ∨
      (UpdateNodes t node = Except.error (Fault.assertion "0 != newSize") ∧
        ∃ ms ∈ nodeLists node, ms ≠ [] ∧ ms.flatMap (remapOf t) = [])
  | aiNode.mk ms cs => by
    by_cases hms : ms ≠ [] ∧ ms.flatMap (remapOf t) = []
    · right
      have h1 : ms.length ≠ 0 := fun h0 => hms.1 (List.length_eq_zero.1 h0)
      refine ⟨?_, ms, by simp [nodeLists], hms.1, hms.2⟩
      unfold UpdateNodes
      simp [h1, hms.2]
    · rcases UpdateChildren_result t cs with ⟨hok, hall⟩ | ⟨herr, l, hl, hl1, hl2⟩
      · left
        have hall' : ∀ l ∈ nodeLists (aiNode.mk ms cs), l ≠ [] → l.flatMap (remapOf t) ≠ [] := by
          intro l hl hne
          simp only [nodeLists, List.mem_cons] at hl
          rcases hl with rfl | hl
          · exact fun h => hms ⟨hne, h⟩
          · exact hall l hl hne
        exact ⟨UpdateNodes_ok t _ hall', hall'⟩
      · right
        refine ⟨?_, l, by simp [nodeLists, hl], hl1, hl2⟩
        unfold UpdateNodes
        rw [herr]
        by_cases h1 : ms = []
        · subst h1
          simp
        · have h2 : ms.length ≠ 0 := fun h0 => h1 (List.length_eq_zero.1 h0)
          have h3 : (ms.flatMap (remapOf t)).length ≠ 0 := fun h0 =>
            hms ⟨h1, List.length_eq_zero.1 h0⟩
          simp [h2, h3]
theorem UpdateChildren_result (t : List Nat) :
    ∀ cs : List aiNode,
      (UpdateChildren t cs = Except.ok (mapChildren (fun ms => ms.flatMap (remapOf t)) cs) ∧
        ∀ ms ∈ childrenLists cs, ms ≠ [] → ms.flatMap (remapOf t) ≠ []) ∨
      (UpdateChildren t cs = Except.error (Fault.assertion "0 != newSize") ∧
        ∃ ms ∈ childrenLists cs, ms ≠ [] ∧ ms.flatMap (remapOf t) = [])
  | [] => by
    left
    exact ⟨by simp [UpdateChildren, mapChildren], by simp [childrenLists]⟩
  | c :: cs => by
    rcases UpdateNodes_result t c with ⟨hok, hall⟩ | ⟨herr, l, hl, hl1, hl2⟩
    · rcases UpdateChildren_result t cs with ⟨hok', hall'⟩ | ⟨herr', l, hl, hl1, hl2⟩
      · left
        have hall2 : ∀ l ∈ childrenLists (c :: cs), l ≠ [] → l.flatMap (remapOf t) ≠ [] := by
          intro l hl hne
          simp only [childrenLists, List.mem_append] at hl
          rcases hl with hl | hl
          · exact hall l hl hne
          · exact hall' l hl hne
        exact ⟨UpdateChildren_ok t _ hall2, hall2⟩
      · right
        refine ⟨?_, l, by simp [childrenLists, hl], hl1, hl2⟩
        unfold UpdateChildren
        rw [hok]
        simp only
        rw [herr']
    · right
      refine ⟨?_, l, by simp [childrenLists, hl], hl1, hl2⟩
      unfold UpdateChildren
      rw [herr]
end

mutual
theorem mapNode_eq_self (f : List Nat → List Nat) :
    ∀ node : aiNode, (∀ ms ∈ nodeLists node, f ms = ms) → mapNode f node = node
  | aiNode.mk ms cs => by
    intro h
    rw [mapNode, h ms (by simp [nodeLists]),
      mapChildren_eq_self f cs (fun l hl => h l (by simp [nodeLists, hl]))]
theorem mapChildren_eq_self (f : List Nat → List Nat) :
    ∀ cs : List aiNode, (∀ ms ∈ childrenLists cs, f ms = ms) → mapChildren f cs = cs
  | [] => fun _ => rfl
  | c :: cs => by
    intro h
    rw [mapChildren, mapNode_eq_self f c (fun l hl => h l (by simp [childrenLists, hl])),
      mapChildren_eq_self f cs (fun l hl => h l (by simp [childrenLists, hl]))]
end

mutual
theorem mapNode_congr (f g : List Nat → List Nat) :
    ∀ node : aiNode, (∀ ms ∈ nodeLists node, f ms = g ms) → mapNode f node = mapNode g node
  | aiNode.mk ms cs => by
    intro h
    rw [mapNode, mapNode, h ms (by simp [nodeLists]),
      mapChildren_congr f g cs (fun l hl => h l (by simp [nodeLists, hl]))]
theorem mapChildren_congr (f g : List Nat → List Nat) :
    ∀ cs : List aiNode, (∀ ms ∈ childrenLists cs, f ms = g ms) →
      mapChildren f cs = mapChildren g cs
  | [] => fun _ => rfl
  | c :: cs => by
    intro h
    rw [mapChildren, mapChildren,
      mapNode_congr f g c (fun l hl => h l (by simp [childrenLists, hl])),
      mapChildren_congr f g cs (fun l hl => h l (by simp [childrenLists, hl]))]
end

/-! ## The whole step -/

theorem Execute_empty (pScene : aiScene) (h : pScene.mMeshes = []) :
    SortByPTypeProcess.Execute pScene = Except.ok pScene := by
  simp [SortByPTypeProcess.Execute, h]

theorem Execute_ok (pScene : aiScene) (hne : pScene.mMeshes ≠ [])
    (h0 : ∀ m ∈ pScene.mMeshes, m.mPrimitiveTypes ≠ 0)
    (hnodes : ∀ ms ∈ nodeLists pScene.mRootNode, ms ≠ [] →
      ms.flatMap (remapOf (tableOf 0 pScene.mMeshes)) ≠ []) :
    SortByPTypeProcess.Execute pScene = Except.ok
      { mMeshes := if (emittedMeshes pScene.mMeshes).length ≠ pScene.mMeshes.length then
          emittedMeshes pScene.mMeshes else pScene.mMeshes
        mRootNode := mapNode (fun ms => ms.flatMap (remapOf (tableOf 0 pScene.mMeshes)))
          pScene.mRootNode } := by
  have hlen : pScene.mMeshes.length ≠ 0 := fun h => hne (List.length_eq_zero.1 h)
  unfold SortByPTypeProcess.Execute
  rw [if_neg hlen, meshLoop_ok pScene.mMeshes ⟨[], []⟩ h0]
  simp only [List.nil_append, List.length_nil]
  rw [UpdateNodes_ok _ _ hnodes]

theorem outputsOf_length_le (mesh : aiMesh) : (outputsOf mesh).length ≤ 4 := by
  unfold outputsOf
  split
  · simp
  · calc ((splitMesh mesh).filterMap fun r => r.map KindResult.out).length
        ≤ (splitMesh mesh).length := List.length_filterMap_le _ _
      _ = 4 := splitMeshWith_length _ mesh

theorem emittedMeshes_length_le (meshes : List aiMesh) :
    (emittedMeshes meshes).length ≤ 4 * meshes.length := by
  induction meshes with
  | nil => simp [emittedMeshes]
  | cons m ms ih =>
    have := outputsOf_length_le m
    simp only [emittedMeshes, List.flatMap_cons, List.length_append, List.length_cons] at ih ⊢
    omega

theorem emitted_fits (meshes : List aiMesh) (hsize : meshes.length * 5 < 2 ^ 32) :
    (emittedMeshes meshes).length ≤ endOfRecord := by
  have h1 := emittedMeshes_length_le meshes
  have h2 : endOfRecord = 3452816845 := rfl
  omega

theorem positionsOf_ne_nil (meshes : List aiMesh) (ms : List Nat)
    (hout : ∀ m ∈ meshes, outputsOf m ≠ [])
    (hvalid : ∀ r ∈ ms, r < meshes.length) (hne : ms ≠ []) :
    ms.flatMap (positionsOf meshes) ≠ [] := by
  obtain ⟨r, hr⟩ := List.exists_mem_of_ne_nil ms hne
  have hlt := hvalid r hr
  have hget : meshes[r]? = some meshes[r] := List.getElem?_eq_getElem hlt
  have hmem : meshes[r] ∈ meshes := List.getElem_mem hlt
  have hpos : positionsOf meshes r ≠ [] := by
    unfold positionsOf
    rw [hget]
    intro hnil
    have hl := congrArg List.length hnil
    simp at hl
    exact hout _ hmem hl
  intro hnil
  obtain ⟨x, hx⟩ := List.exists_mem_of_ne_nil _ hpos
  have : x ∈ ms.flatMap (positionsOf meshes) := List.mem_flatMap.2 ⟨r, hr, hx⟩
  rw [hnil] at this
  simp at this

theorem Execute_returns (pScene : aiScene)
    (hmask : ∀ m ∈ pScene.mMeshes, m.mPrimitiveTypes ≠ 0)
    (hout : ∀ m ∈ pScene.mMeshes, outputsOf m ≠ [])
    (hvalid : ∀ ms ∈ nodeLists pScene.mRootNode, ∀ r ∈ ms, r < pScene.mMeshes.length)
    (hsize : pScene.mMeshes.length * 5 < 2 ^ 32) :
    ∃ after, SortByPTypeProcess.Execute pScene = Except.ok after ∧
      after.mRootNode =
        mapNode (fun refs => refs.flatMap (positionsOf pScene.mMeshes)) pScene.mRootNode := by
  have hfun : (fun ms : List Nat => ms.flatMap (remapOf (tableOf 0 pScene.mMeshes))) =
      fun refs => refs.flatMap (positionsOf pScene.mMeshes) := by
    funext ms
    congr 1
    funext i
    exact remapOf_tableOf pScene.mMeshes i (emitted_fits _ hsize)
  by_cases hne : pScene.mMeshes = []
  · refine ⟨pScene, Execute_empty pScene hne, ?_⟩
    symm
    apply mapNode_eq_self
    intro ms hms
    cases ms with
    | nil => rfl
    | cons r rs =>
      have := hvalid _ hms r (List.mem_cons_self _ _)
      rw [hne] at this
      simp at this
  · have hnodes : ∀ ms ∈ nodeLists pScene.mRootNode, ms ≠ [] →
        ms.flatMap (remapOf (tableOf 0 pScene.mMeshes)) ≠ [] := by
      intro ms hms hnil
      have := positionsOf_ne_nil pScene.mMeshes ms hout (hvalid ms hms) hnil
      rw [← congrFun hfun ms] at this
      exact this
    refine ⟨_, Execute_ok pScene hne hmask hnodes, ?_⟩
    simp only
    rw [hfun]

theorem splitKinds_masks (mesh : aiMesh) (avw : Option (Nat → VertexWeightTable))
    (counts : Nat → Nat) (npv : Nat) (ks : List Nat) (src : Option (List aiVector3D)) :
    ((splitKinds mesh avw counts npv ks src).filterMap fun r => r.map KindResult.out).map
      aiMesh.mPrimitiveTypes = (ks.filter fun k => counts k != 0).map fun k => 1 <<< k := by
  induction ks generalizing src with
  | nil => rfl
  | cons k ks ih =>
    unfold splitKinds
    by_cases hc : counts k = 0
    · simp [hc, ih]
    · simp [hc, ih, splitKind]

theorem outputsOf_masks (mesh : aiMesh) (h1 : numKinds mesh.mPrimitiveTypes ≠ 1) :
    (outputsOf mesh).map aiMesh.mPrimitiveTypes =
      ([0, 1, 2, 3].filter fun k => !(facesOfKind mesh k).isEmpty).map fun k => 2 ^ k := by
  simp only [outputsOf, h1, if_false, splitMesh, splitMeshWith]
  rw [splitKinds_masks]
  have hf : ([0, 1, 2, 3].filter fun k => (countFaces mesh.mFaces (fun _ => 0, 0)).1 k != 0) =
      [0, 1, 2, 3].filter fun k => !(facesOfKind mesh k).isEmpty := by
    apply List.filter_congr
    intro k hk
    have hk4 : k < 4 := by
      simp only [List.mem_cons, List.mem_singleton, List.not_mem_nil, or_false] at hk
      omega
    rw [counts_eq mesh k hk4]
    cases h : facesOfKind mesh k <;> simp
  rw [hf]
  apply List.map_congr_left
  intro k _
  exact Nat.one_shiftLeft k

theorem kindsOfMask_length (mask : Nat) : (kindsOfMask mask).length = numKinds mask := by
  unfold kindsOfMask numKinds aiPrimitiveType_POINT aiPrimitiveType_LINE
    aiPrimitiveType_TRIANGLE aiPrimitiveType_POLYGON
  have e0 : (2 : Nat) ^ 0 = 1 := rfl
  have e1 : (2 : Nat) ^ 1 = 2 := rfl
  have e2 : (2 : Nat) ^ 2 = 4 := rfl
  have e3 : (2 : Nat) ^ 3 = 8 := rfl
  simp only [List.filter_cons, List.filter_nil, e0, e1, e2, e3, bne_iff_ne, ne_eq]
  split_ifs <;> rfl

theorem kinds_present (mesh : aiMesh) (hm : maskIsKindsOfFaces mesh) :
    ([0, 1, 2, 3].filter fun k => !(facesOfKind mesh k).isEmpty) =
      kindsOfMask mesh.mPrimitiveTypes := by
  unfold kindsOfMask
  apply List.filter_congr
  intro k hk
  have hk4 : k < 4 := by
    simp only [List.mem_cons, List.mem_singleton, List.not_mem_nil, or_false] at hk
    omega
  have hiff := hm.2 k hk4
  rw [Bool.eq_iff_iff]
  simp only [Bool.not_eq_true', List.isEmpty_eq_false, bne_iff_ne, ne_eq]
  rw [← ne_eq, ← ne_eq, hiff]
  unfold facesOfKind
  constructor
  · intro h
    obtain ⟨f, hf⟩ := List.exists_mem_of_ne_nil _ h
    exact ⟨f, (List.mem_filter.1 hf).1, (List.mem_filter.1 hf).2⟩
  · rintro ⟨f, hf, hk⟩ hnil
    have : f ∈ mesh.mFaces.filter fun f => hasKind k f.mNumIndices :=
      List.mem_filter.2 ⟨hf, hk⟩
    rw [hnil] at this
    simp at this

theorem numKinds_pos (mask : Nat) (h0 : mask ≠ 0) (h16 : mask < 16) : 1 ≤ numKinds mask := by
  have h : ∀ m, m < 16 → m ≠ 0 → 1 ≤ numKinds m := by decide
  exact h mask h16 h0

theorem outputsOf_length (mesh : aiMesh) (hm : maskIsKindsOfFaces mesh) :
    (outputsOf mesh).length = numKinds mesh.mPrimitiveTypes := by
  by_cases h1 : numKinds mesh.mPrimitiveTypes = 1
  · simp [outputsOf, h1]
  · have hmasks := congrArg List.length (outputsOf_masks mesh h1)
    rw [kinds_present mesh hm] at hmasks
    simpa [kindsOfMask_length] using hmasks

/-- C14. A mesh with the mask POINT|LINE whose only face is a point yields one
new POINT mesh; the output count equals the mesh count, so the mesh array of the
scene is not rewritten and still holds the original mesh, which the splitter
destroyed, instead of the emitted mesh.  The same happens when one mesh yields
no output mesh and another yields two. -/
theorem C14_same_count_keeps_the_destroyed_meshes :
    (∃ st after, SortByPTypeProcess.meshLoop sameCountScene.mMeshes ⟨[], []⟩ = Except.ok st ∧
      SortByPTypeProcess.Execute sameCountScene = Except.ok after ∧
      st.outMeshes.map aiMesh.mPrimitiveTypes = [1] ∧
      after.mMeshes = sameCountScene.mMeshes ∧
      after.mMeshes.map aiMesh.mPrimitiveTypes = [3] ∧
      after.mMeshes ≠ st.outMeshes) ∧
    (∃ st after, SortByPTypeProcess.meshLoop noneAndTwoScene.mMeshes ⟨[], []⟩ = Except.ok st ∧
      SortByPTypeProcess.Execute noneAndTwoScene = Except.ok after ∧
      st.outMeshes.map aiMesh.mPrimitiveTypes = [1, 2] ∧
      after.mMeshes = noneAndTwoScene.mMeshes ∧
      after.mMeshes.map aiMesh.mPrimitiveTypes = [3, 3] ∧
      after.mMeshes ≠ st.outMeshes ∧
      nodeLists after.mRootNode = [[0, 1]]) := by
  constructor
  · refine ⟨_, _, rfl, rfl, ?_, ?_, ?_, ?_⟩
    · decide
    · decide
    · decide
    · decide
  · refine ⟨_, _, rfl, rfl, ?_, ?_, ?_, ?_, ?_⟩
    · decide
    · decide
    · decide
    · decide
    · decide

/-! ## Meshes with one kind -/

theorem numKinds_one_ne_zero (mask : Nat) (h : numKinds mask = 1) : mask ≠ 0 := by
  intro h0
  rw [h0, numKinds_zero] at h
  exact absurd h (by decide)

theorem emitted_single (meshes : List aiMesh)
    (h : ∀ m ∈ meshes, numKinds m.mPrimitiveTypes = 1) : emittedMeshes meshes = meshes := by
  induction meshes with
  | nil => rfl
  | cons m ms ih =>
    have hm := h m (List.mem_cons_self _ _)
    have := ih (fun x hx => h x (List.mem_cons_of_mem _ hx))
    simp only [emittedMeshes, List.flatMap_cons] at this ⊢
    rw [this]
    simp [outputsOf, hm]

theorem firstOutput_single (meshes : List aiMesh)
    (h : ∀ m ∈ meshes, numKinds m.mPrimitiveTypes = 1) (i : Nat) (hi : i ≤ meshes.length) :
    firstOutput meshes i = i := by
  induction meshes generalizing i with
  | nil =>
    have : i = 0 := by simpa using hi
    subst this
    rfl
  | cons m ms ih =>
    cases i with
    | zero => rfl
    | succ i =>
      have hm := h m (List.mem_cons_self _ _)
      rw [firstOutput_succ, ih (fun x hx => h x (List.mem_cons_of_mem _ hx)) i
        (by simpa using hi)]
      simp [outputsOf, hm]
      omega

theorem positionsOf_single (meshes : List aiMesh)
    (h : ∀ m ∈ meshes, numKinds m.mPrimitiveTypes = 1) (i : Nat) (hi : i < meshes.length) :
    positionsOf meshes i = [i] := by
  have hget : meshes[i]? = some meshes[i] := List.getElem?_eq_getElem hi
  have hone := h _ (List.getElem_mem hi)
  unfold positionsOf
  rw [hget]
  simp only
  rw [firstOutput_single meshes h i (by omega)]
  simp [outputsOf, hone]

theorem flatMap_positionsOf_single (meshes : List aiMesh)
    (h : ∀ m ∈ meshes, numKinds m.mPrimitiveTypes = 1) (ms : List Nat)
    (hvalid : ∀ r ∈ ms, r < meshes.length) : ms.flatMap (positionsOf meshes) = ms := by
  induction ms with
  | nil => rfl
  | cons r ms ih =>
    rw [List.flatMap_cons, positionsOf_single meshes h r (hvalid r (List.mem_cons_self _ _)),
      ih (fun x hx => hvalid x (List.mem_cons_of_mem _ hx))]
    rfl

/-- C15. A mesh whose mask has exactly one kind bit is appended to the output
list as it is, once, and its remap record holds the output-list position in
slot 0, the absent marker in the slots 1 to 3 and the end marker in slot 4;
read the way `UpdateNodes` reads it, the record yields exactly that one
position.  When every mesh of the scene is of this kind (with valid node
references and a remap table size `mNumMeshes*5` that is an `unsigned int`)
the pass returns the scene as it was: the mesh list and the reference list of
every node are unchanged. -/
theorem C15_single_kind_mesh_passes_through (st : SortState) (mesh : aiMesh)
    (pScene : aiScene) (hone : numKinds mesh.mPrimitiveTypes = 1) :
    SortByPTypeProcess.ExecuteMesh st mesh = Except.ok
      { outMeshes := st.outMeshes ++ [mesh]
        replaceMeshIndex := st.replaceMeshIndex ++
          [st.outMeshes.length, absentSlot, absentSlot, absentSlot, endOfRecord] } ∧
    (st.outMeshes.length < endOfRecord →
      remapOf [st.outMeshes.length, absentSlot, absentSlot, absentSlot, endOfRecord] 0 =
        [st.outMeshes.length]) ∧
    ((∀ m ∈ pScene.mMeshes, numKinds m.mPrimitiveTypes = 1) →
      (∀ ms ∈ nodeLists pScene.mRootNode, ∀ r ∈ ms, r < pScene.mMeshes.length) →
      pScene.mMeshes.length * 5 < 2 ^ 32 →
      SortByPTypeProcess.Execute pScene = Except.ok pScene) := by
  refine ⟨?_, ?_, ?_⟩
  · rw [ExecuteMesh_ok st mesh (numKinds_one_ne_zero _ hone)]
    simp [outputsOf, recordOf, hone]
  · intro hlt
    have e1 : (st.outMeshes.length != endOfRecord) = true := by
      simp only [bne_iff_ne, ne_eq]; omega
    have e2 : (st.outMeshes.length != absentSlot) = true := by
      simp only [bne_iff_ne, ne_eq]
      have : endOfRecord < absentSlot := by decide
      omega
    have e3 : (absentSlot != endOfRecord) = true := by decide
    simp [remapOf, List.takeWhile_cons, List.filter_cons, e1, e2, e3]
  · intro hall hvalid hsize
    by_cases hne : pScene.mMeshes = []
    · exact Execute_empty pScene hne
    · have hfun : ∀ ms ∈ nodeLists pScene.mRootNode,
          ms.flatMap (remapOf (tableOf 0 pScene.mMeshes)) = ms := by
        intro ms hms
        have : ms.flatMap (remapOf (tableOf 0 pScene.mMeshes)) =
            ms.flatMap (positionsOf pScene.mMeshes) := by
          congr 1
          funext i
          exact remapOf_tableOf pScene.mMeshes i (emitted_fits _ hsize)
        rw [this]
        exact flatMap_positionsOf_single _ hall ms (hvalid ms hms)
      rw [Execute_ok pScene hne (fun m hm => numKinds_one_ne_zero _ (hall m hm))
        (fun ms hms hnil => by rw [hfun ms hms]; exact hnil)]
      rw [emitted_single _ hall, mapNode_eq_self _ _ hfun]
      simp

/-- C15, at a point mesh appended to one output mesh and at a scene of two
single-kind meshes. -/
theorem C15_single_kind_mesh_passes_through_witness :
    SortByPTypeProcess.ExecuteMesh ⟨[pointMesh], []⟩ pointMesh = Except.ok
      { outMeshes := [pointMesh] ++ [pointMesh]
        replaceMeshIndex := [] ++ [1, absentSlot, absentSlot, absentSlot, endOfRecord] } ∧
    remapOf [1, absentSlot, absentSlot, absentSlot, endOfRecord] 0 = [1] ∧
    SortByPTypeProcess.Execute singleKindScene = Except.ok singleKindScene :=
  have h := C15_single_kind_mesh_passes_through ⟨[pointMesh], []⟩ pointMesh singleKindScene
    (by decide)
  ⟨h.1, h.2.1 (by decide), h.2.2 (by decide) (by decide) (by decide)⟩

/-! ## Meshes without output -/

theorem face_of_some_index_has_one_kind (n : Nat) (h : 1 ≤ n) :
    ∃ real, real < 4 ∧ faceMatches real n = true ∧
      (∀ other, other < 4 → faceMatches other n = true → other = real) ∧
      counterIndex n = real ∧ kindBit n = 2 ^ real := by
  have hc : n = 1 ∨ n = 2 ∨ n = 3 ∨ 3 < n := by omega
  rcases hc with rfl | rfl | rfl | h3
  · exact ⟨0, by decide, by decide, by decide, by decide, by decide⟩
  · exact ⟨1, by decide, by decide, by decide, by decide, by decide⟩
  · exact ⟨2, by decide, by decide, by decide, by decide, by decide⟩
  · refine ⟨3, by decide, ?_, ?_, ?_, ?_⟩
    · rw [faceMatches_eq_hasKind 3 n (by decide), hasKind_three]
      exact decide_eq_true h3
    · intro other ho hm
      rw [faceMatches_eq_hasKind other n ho] at hm
      have ho' : other = 0 ∨ other = 1 ∨ other = 2 ∨ other = 3 := by omega
      rcases ho' with rfl | rfl | rfl | rfl
      · rw [hasKind_small 0 n (by decide)] at hm
        have := of_decide_eq_true hm
        omega
      · rw [hasKind_small 1 n (by decide)] at hm
        have := of_decide_eq_true hm
        omega
      · rw [hasKind_small 2 n (by decide)] at hm
        have := of_decide_eq_true hm
        omega
      · rfl
    · unfold counterIndex
      rw [if_neg (by omega)]
    · exact (kindBit_eq_polygon n h).2 h3

/-- C17. A face without indices breaks the exhaustiveness.  The classifier gives
the mesh with a point face and an empty face the mask POINT|POLYGON, so the mesh
is split; for the empty face the counting step uses the counter index
`0xffffffff` (not within 0..3), the copy loop matches it with none of the four
kinds, and no POLYGON mesh is produced although the POLYGON bit is set: the one
output mesh holds the point face only. -/
theorem C17_face_without_indices_matches_no_kind :
    (DeterminePTypeHelperProcess.ExecuteMesh emptyFaceMesh).1.mPrimitiveTypes =
      aiPrimitiveType_POINT ||| aiPrimitiveType_POLYGON ∧
    (DeterminePTypeHelperProcess.ExecuteMesh emptyFaceMesh).1.mFaces = [⟨[5]⟩, ⟨[]⟩] ∧
    (classifyFace emptyFaceMesh.mVertices ⟨[]⟩).ptype = aiPrimitiveType_POLYGON ∧
    1 < numKinds (DeterminePTypeHelperProcess.ExecuteMesh emptyFaceMesh).1.mPrimitiveTypes ∧
    counterIndex 0 = 4294967295 ∧ ¬ counterIndex 0 < 4 ∧
    (∀ real, real < 4 → faceMatches real 0 = false) ∧
    outputOf (splitMesh (DeterminePTypeHelperProcess.ExecuteMesh emptyFaceMesh).1) 3 = none ∧
    (outputsOf (DeterminePTypeHelperProcess.ExecuteMesh emptyFaceMesh).1).map aiMesh.mFaces =
      [[⟨[0]⟩]] := by
  refine ⟨?_, ?_, ?_, ?_, ?_, ?_, ?_, ?_, ?_⟩ <;> decide

/-! ## Indices of the output faces -/

theorem renumber_flatMap (k : Nat) (l : List aiFace) :
    (renumber k l).flatMap aiFace.mIndices =
      List.range' k (l.flatMap aiFace.mIndices).length := by
  induction l generalizing k with
  | nil => rfl
  | cons f l ih =>
    simp only [renumber, List.flatMap_cons, ih, List.length_append, aiFace.mNumIndices]
    rw [Nat.add_comm f.mIndices.length, ← List.range'_append_1]

theorem foldl_const {α : Type} (l : List Nat) (a : α) : l.foldl (fun o _ => o) a = a := by
  induction l with
  | nil => rfl
  | cons x l ih => simp [ih]

theorem copyChannels_lengths {α : Type} [Inhabited α] (cs : List (Option (Cursor α)))
    (srcs : List (Option (List α))) (idx : Nat) :
    (copyChannels cs srcs idx).map (Option.map fun c => c.buf.length) =
      cs.map (Option.map fun c => c.buf.length) := by
  induction cs generalizing srcs with
  | nil => cases srcs <;> rfl
  | cons c cs ih =>
    cases c with
    | none => cases srcs <;> rfl
    | some c =>
      cases srcs with
      | nil => rfl
      | cons src srcs => simp [copyChannels, ih, Cursor.put]

theorem foldl_copyChannels_lengths {α : Type} [Inhabited α] (corners : List Nat)
    (cs : List (Option (Cursor α))) (srcs : List (Option (List α))) :
    (corners.foldl (fun u idx => copyChannels u srcs idx) cs).map
      (Option.map fun c => c.buf.length) = cs.map (Option.map fun c => c.buf.length) := by
  induction corners generalizing cs with
  | nil => rfl
  | cons a corners ih => rw [List.foldl_cons, ih, copyChannels_lengths]

theorem splitKind_vertices_length (mesh : aiMesh) (avw : Option (Nat → VertexWeightTable))
    (real : Nat) (src : Option (List aiVector3D)) (h : real < 4) (l : List aiVector3D)
    (hl : (splitKind mesh avw (countFaces mesh.mFaces (fun _ => 0, 0)).1
      (countFaces mesh.mFaces (fun _ => 0, 0)).2 real src).out.mVertices = some l) :
    l.length = (cornersOfKind mesh real).length := by
  have key := copyFaces_proj mesh avw real
    (fun st => st.vert.map fun (c : Cursor aiVector3D) => c.buf.length) (fun o _ => o)
    (fun st idx => by cases h : st.vert <;> simp [copyCorner, h, Cursor.put])
    (fun _ _ => rfl) mesh.mFaces
    (initState mesh src ((countFaces mesh.mFaces (fun _ => 0, 0)).1 real)
      (cornersOfKind mesh real).length)
  rw [foldl_const] at key
  simp only [splitKind] at hl
  rw [declared_eq mesh real h] at hl
  cases hv : (copyFaces mesh avw real mesh.mFaces
    (initState mesh src ((countFaces mesh.mFaces (fun _ => 0, 0)).1 real)
      (cornersOfKind mesh real).length)).vert with
  | none => rw [hv] at hl; simp at hl
  | some c =>
    rw [hv] at hl key
    have hc : c.buf = l := by simpa using hl
    simp only [initState, Option.map_some'] at key
    cases hp : mesh.mVertices.isSome
    · rw [hp] at key; simp at key
    · rw [hp] at key
      simp only [if_true, Option.map_some', Option.some.injEq, Cursor.alloc,
        List.length_replicate] at key
      rw [← hc, key]

theorem splitKind_channel_lengths (mesh : aiMesh) (avw : Option (Nat → VertexWeightTable))
    (real : Nat) (src : Option (List aiVector3D)) (h : real < 4) :
    (∀ ch ∈ (splitKind mesh avw (countFaces mesh.mFaces (fun _ => 0, 0)).1
        (countFaces mesh.mFaces (fun _ => 0, 0)).2 real src).out.mTextureCoords,
      ∀ l, ch = some l → l.length = (cornersOfKind mesh real).length) ∧
    (∀ ch ∈ (splitKind mesh avw (countFaces mesh.mFaces (fun _ => 0, 0)).1
        (countFaces mesh.mFaces (fun _ => 0, 0)).2 real src).out.mColors,
      ∀ l, ch = some l → l.length = (cornersOfKind mesh real).length) := by
  have gen : ∀ {α : Type} [Inhabited α] (srcs : List (Option (List α))) (corners : List Nat)
      (n : Nat),
      ∀ ch ∈ ((corners.foldl (fun u idx => copyChannels u srcs idx)
        (srcs.map fun ch => if ch.isSome then some (Cursor.alloc α n) else none)).map
          (Option.map Cursor.buf)), ∀ l, ch = some l → l.length = n := by
    intro α _ srcs corners n ch hch l hl
    subst hl
    obtain ⟨c, hc, hcl⟩ := List.mem_map.1 hch
    cases c with
    | none => simp at hcl
    | some c =>
      have hbuf : c.buf = l := by simpa using hcl
      have hmem : some c.buf.length ∈
          (corners.foldl (fun u idx => copyChannels u srcs idx)
            (srcs.map fun ch => if ch.isSome then some (Cursor.alloc α n) else none)).map
            (Option.map fun c => c.buf.length) := List.mem_map.2 ⟨some c, hc, rfl⟩
      rw [foldl_copyChannels_lengths, List.map_map] at hmem
      obtain ⟨s0, _, hs0⟩ := List.mem_map.1 hmem
      cases s0 with
      | none => simp at hs0
      | some x =>
        simp [Cursor.alloc] at hs0
        rw [← hbuf, ← hs0]
  constructor
  · rw [splitKind_uv mesh avw real src h]
    exact gen mesh.mTextureCoords _ _
  · rw [splitKind_cols mesh avw real src h]
    exact gen mesh.mColors _ _

/-- C18. For an output mesh of the split of a mesh whose faces each have at least
one index: the index lists of its faces, concatenated in face order, are the
sequence 0, 1, ..., V-1 with V the vertex count of the output mesh; every vertex
below V is referenced by exactly one face corner, every face index is below V,
and every attribute array that the output mesh has (positions, normals,
tangents, bitangents, every texture-coordinate and colour channel) has V
entries. -/
theorem C18_output_faces_index_every_vertex_once (avw : Option (Nat → VertexWeightTable))
    (mesh : aiMesh) (real : Nat) (r : KindResult)
    (_hsplit : 1 < numKinds mesh.mPrimitiveTypes)
    (_hpos : ∀ f ∈ mesh.mFaces, 1 ≤ f.mNumIndices)
    (hr : (splitMeshWith avw mesh)[real]? = some (some r)) :
    r.out.mFaces.flatMap aiFace.mIndices = List.range r.out.mNumVertices ∧
    (∀ v, v < r.out.mNumVertices → (r.out.mFaces.flatMap aiFace.mIndices).count v = 1) ∧
    (∀ f ∈ r.out.mFaces, ∀ v ∈ f.mIndices, v < r.out.mNumVertices) ∧
    (∀ l, r.out.mVertices = some l → l.length = r.out.mNumVertices) ∧
    (∀ l, r.out.mNormals = some l → l.length = r.out.mNumVertices) ∧
    (∀ l, r.out.mTangents = some l → l.length = r.out.mNumVertices) ∧
    (∀ l, r.out.mBitangents = some l → l.length = r.out.mNumVertices) ∧
    (∀ ch ∈ r.out.mTextureCoords, ∀ l, ch = some l → l.length = r.out.mNumVertices) ∧
    (∀ ch ∈ r.out.mColors, ∀ l, ch = some l → l.length = r.out.mNumVertices) := by
  obtain ⟨hlt, -, src', rfl⟩ := splitMeshWith_some avw mesh real r hr
  have hV := splitKind_numVertices mesh avw real src' hlt
  have hflat : (splitKind mesh avw (countFaces mesh.mFaces (fun _ => 0, 0)).1
      (countFaces mesh.mFaces (fun _ => 0, 0)).2 real src').out.mFaces.flatMap aiFace.mIndices =
      List.range (cornersOfKind mesh real).length := by
    rw [splitKind_faces mesh avw _ real src' hlt, renumber_flatMap, List.range_eq_range']
    rfl
  have hn := splitKind_normals mesh avw real src' hlt
  have ht := splitKind_tangents mesh avw real src' hlt
  have ht1 := congrArg Prod.fst ht
  have ht2 := congrArg Prod.snd ht
  simp only at ht1 ht2
  have hch := splitKind_channel_lengths mesh avw real src' hlt
  rw [hV]
  refine ⟨hflat, ?_, ?_, ?_, ?_, ?_, ?_, hch.1, hch.2⟩
  · intro v hv
    rw [hflat]
    exact List.count_eq_one_of_mem (List.nodup_range _) (List.mem_range.2 hv)
  · intro f hf v hv
    have : v ∈ List.range (cornersOfKind mesh real).length := by
      rw [← hflat]
      exact List.mem_flatMap.2 ⟨f, hf, hv⟩
    exact List.mem_range.1 this
  · intro l hl
    exact splitKind_vertices_length mesh avw real src' hlt l hl
  · intro l hl
    rw [hn] at hl
    cases hp : mesh.mNormals.isSome
    · rw [hp] at hl; simp at hl
    · rw [hp] at hl
      simp only [if_true, Option.some.injEq] at hl
      rw [← hl, List.length_map]
  · intro l hl
    rw [ht1] at hl
    cases hp : mesh.mTangents.isSome
    · rw [hp] at hl; simp at hl
    · rw [hp] at hl
      simp only [if_true, Option.some.injEq] at hl
      rw [← hl, List.length_map]
  · intro l hl
    rw [ht2] at hl
    cases hp : mesh.mTangents.isSome
    · rw [hp] at hl; simp at hl
    · rw [hp] at hl
      simp only [if_true, Option.some.injEq] at hl
      rw [← hl, List.length_map]

/-- C18, at the LINE round of the end-to-end example. -/
theorem C18_output_faces_index_every_vertex_once_witness :
    ∃ r, (splitMesh classifiedExample)[1]? = some (some r) ∧
      r.out.mNumVertices = 4 ∧
      r.out.mFaces.flatMap aiFace.mIndices = List.range r.out.mNumVertices ∧
      (∀ v, v < r.out.mNumVertices → (r.out.mFaces.flatMap aiFace.mIndices).count v = 1) ∧
      (∀ f ∈ r.out.mFaces, ∀ v ∈ f.mIndices, v < r.out.mNumVertices) ∧
      (∀ l, r.out.mVertices = some l → l.length = r.out.mNumVertices) ∧
      (∀ l, r.out.mNormals = some l → l.length = r.out.mNumVertices) ∧
      (∀ l, r.out.mTangents = some l → l.length = r.out.mNumVertices) ∧
      (∀ l, r.out.mBitangents = some l → l.length = r.out.mNumVertices) ∧
      (∀ ch ∈ r.out.mTextureCoords, ∀ l, ch = some l → l.length = r.out.mNumVertices) ∧
      (∀ ch ∈ r.out.mColors, ∀ l, ch = some l → l.length = r.out.mNumVertices) := by
  refine ⟨_, rfl, rfl, ?_⟩
  exact C18_output_faces_index_every_vertex_once _ classifiedExample 1 _ (by decide)
    (by decide) rfl

/-! ## No degenerate face remains -/

/-- What the classifier guarantees of the face `g` it leaves of a face `f`. -/
theorem classifyFace_sound (mesh : aiMesh) (f : aiFace) :
    ((classifyFace mesh.mVertices f).face.mNumIndices = 2 →
      samePosition mesh ((classifyFace mesh.mVertices f).face.idx 0)
        ((classifyFace mesh.mVertices f).face.idx 1) = false) ∧
    ((classifyFace mesh.mVertices f).face.mNumIndices = 3 →
      samePosition mesh ((classifyFace mesh.mVertices f).face.idx 0)
        ((classifyFace mesh.mVertices f).face.idx 1) = false ∧
      samePosition mesh ((classifyFace mesh.mVertices f).face.idx 1)
        ((classifyFace mesh.mVertices f).face.idx 2) = false ∧
      samePosition mesh ((classifyFace mesh.mVertices f).face.idx 2)
        ((classifyFace mesh.mVertices f).face.idx 0) = false) ∧
    (classifyFace mesh.mVertices f).face.mIndices.Sublist f.mIndices ∧
    (classifyFace mesh.mVertices f).face.mIndices.head? = f.mIndices.head? ∧
    (classifyFace mesh.mVertices f).face.mNumIndices ≤ f.mNumIndices ∧
    f.mNumIndices - (classifyFace mesh.mVertices f).face.mNumIndices ≤ 2 := by
  obtain ⟨l⟩ := f
  match l with
  | [] => simp [classifyFace, aiFace.mNumIndices]
  | [a] => simp [classifyFace, aiFace.mNumIndices, classifyPoint]
  | [a, b] =>
    rw [classifyFace_line]
    cases hab : samePosition mesh a b
    · simp [aiFace.mNumIndices, aiFace.idx, hab]
    · simp [aiFace.mNumIndices, aiFace.idx]
  | [a, b, c] =>
    rw [classifyFace_triangle]
    cases hab : samePosition mesh a b <;> cases hbc : samePosition mesh b c <;>
      cases hac : samePosition mesh a c <;> cases hca : samePosition mesh c a <;>
      simp [aiFace.mNumIndices, aiFace.idx, hab, hbc, hac, hca]
  | a :: b :: c :: d :: rest =>
    simp [classifyFace, aiFace.mNumIndices]

/-- C19 as stated fails for a position with a NaN coordinate: the mesh has a
zero mask and in-range indices, and after the classifier its line (0,0) is still
a face of two indices with one and the same position at both, and its triangle
(0,0,0) still a face of three indices with one position at all three. -/
theorem C19_faces_on_one_nan_vertex_remain :
    nanMesh.mPrimitiveTypes = 0 ∧
    (∀ f ∈ nanMesh.mFaces, ∀ v ∈ f.mIndices,
      ∃ l, nanMesh.mVertices = some l ∧ v < l.length) ∧
    (∃ g, classifiedFace nanScene 0 0 = some g ∧ g.mNumIndices = 2 ∧
      g.idx 0 = g.idx 1 ∧ position nanMesh (g.idx 0) = position nanMesh (g.idx 1)) ∧
    (∃ g, classifiedFace nanScene 0 4 = some g ∧ g.mNumIndices = 3 ∧
      position nanMesh (g.idx 0) = position nanMesh (g.idx 1) ∧
      position nanMesh (g.idx 1) = position nanMesh (g.idx 2) ∧
      position nanMesh (g.idx 2) = position nanMesh (g.idx 0)) := by
  refine ⟨rfl, by decide, ⟨⟨[0, 0]⟩, by decide, rfl, rfl, rfl⟩,
    ⟨⟨[0, 0, 0]⟩, by decide, rfl, rfl, rfl, rfl⟩⟩

/-- C19, amended. For a mesh of the scene with zero mask and in-range face
indices, after `DeterminePTypeHelperProcess::Execute` the positions are
untouched and every face slot holds a face that, when it has two indices, has at
them positions that are different or hold a NaN coordinate, when it has three
indices, has for each pair of them positions that are different or hold a NaN
coordinate, whose index list is a subsequence of the original one with the same
first entry, and that lost at most two indices (one per collapse).  For a face
left on positions without a NaN coordinate the positions are thus pairwise
different. -/
theorem C19_no_degenerate_face_remains_unless_nan (pScene : aiScene) (i j : Nat)
    (mesh : aiMesh) (f : aiFace)
    (hmesh : pScene.mMeshes[i]? = some mesh) (hmask : mesh.mPrimitiveTypes = 0)
    (_hrange : ∀ f ∈ mesh.mFaces, ∀ v ∈ f.mIndices,
      ∃ l, mesh.mVertices = some l ∧ v < l.length)
    (hf : mesh.mFaces[j]? = some f) :
    (classifiedMesh pScene i).map aiMesh.mVertices = some mesh.mVertices ∧
    ∃ g, classifiedFace pScene i j = some g ∧
      (g.mNumIndices = 2 →
        (position mesh (g.idx 0) ≠ position mesh (g.idx 1) ∨
          (position mesh (g.idx 0)).hasNaN = true)) ∧
      (g.mNumIndices = 3 →
        (position mesh (g.idx 0) ≠ position mesh (g.idx 1) ∨
          (position mesh (g.idx 0)).hasNaN = true) ∧
        (position mesh (g.idx 1) ≠ position mesh (g.idx 2) ∨
          (position mesh (g.idx 1)).hasNaN = true) ∧
        (position mesh (g.idx 2) ≠ position mesh (g.idx 0) ∨
          (position mesh (g.idx 2)).hasNaN = true)) ∧
      ((∀ v ∈ g.mIndices, (position mesh v).hasNaN = false) →
        (g.mNumIndices = 2 → position mesh (g.idx 0) ≠ position mesh (g.idx 1)) ∧
        (g.mNumIndices = 3 →
          position mesh (g.idx 0) ≠ position mesh (g.idx 1) ∧
          position mesh (g.idx 1) ≠ position mesh (g.idx 2) ∧
          position mesh (g.idx 2) ≠ position mesh (g.idx 0))) ∧
      g.mIndices.Sublist f.mIndices ∧
      g.mIndices.head? = f.mIndices.head? ∧
      g.mNumIndices ≤ f.mNumIndices ∧
      f.mNumIndices - g.mNumIndices ≤ 2 := by
  have hor : ∀ a b, samePosition mesh a b = false →
      (position mesh a ≠ position mesh b ∨ (position mesh a).hasNaN = true) := by
    intro a b h
    by_cases heq : position mesh a = position mesh b
    · exact Or.inr ((samePosition_false_iff mesh a b).1 h heq)
    · exact Or.inl heq
  have hne : ∀ a b, samePosition mesh a b = false → (position mesh a).hasNaN = false →
      position mesh a ≠ position mesh b := by
    intro a b h hn heq
    rw [(samePosition_false_iff mesh a b).1 h heq] at hn
    exact Bool.noConfusion hn
  have hidx : ∀ (g : aiFace) (q : Nat), q < g.mNumIndices → g.idx q ∈ g.mIndices := by
    intro g q hq
    unfold aiFace.idx
    rw [List.getD_eq_getElem _ _ hq]
    exact List.getElem_mem _
  constructor
  · rw [classifiedMesh_eq, hmesh]
    simp [DeterminePTypeHelperProcess.ExecuteMesh, hmask]
  · obtain ⟨h2, h3, hrest⟩ := classifyFace_sound mesh f
    refine ⟨(classifyFace mesh.mVertices f).face, ?_, ?_, ?_, ?_, hrest⟩
    · rw [classifiedFace_eq pScene i j mesh hmesh hmask, hf]
      rfl
    · intro hn
      exact hor _ _ (h2 hn)
    · intro hn
      exact ⟨hor _ _ (h3 hn).1, hor _ _ (h3 hn).2.1, hor _ _ (h3 hn).2.2⟩
    · intro hnum
      constructor
      · intro hn
        exact hne _ _ (h2 hn) (hnum _ (hidx _ 0 (by omega)))
      · intro hn
        exact ⟨hne _ _ (h3 hn).1 (hnum _ (hidx _ 0 (by omega))),
          hne _ _ (h3 hn).2.1 (hnum _ (hidx _ 1 (by omega))),
          hne _ _ (h3 hn).2.2 (hnum _ (hidx _ 2 (by omega)))⟩

/-- C19, amended, at the triangle (A,B,B) of the mesh with degenerate faces,
which is left as the line of its indices 0 and 2 with different positions. -/
theorem C19_no_degenerate_face_remains_unless_nan_witness :
    classifiedFace degenerateScene 0 2 = some ⟨[0, 4]⟩ ∧
    (classifiedMesh degenerateScene 0).map aiMesh.mVertices = some degenerateMesh.mVertices ∧
    ∃ g, classifiedFace degenerateScene 0 2 = some g ∧
      (g.mNumIndices = 2 →
        (position degenerateMesh (g.idx 0) ≠ position degenerateMesh (g.idx 1) ∨
          (position degenerateMesh (g.idx 0)).hasNaN = true)) ∧
      (g.mNumIndices = 3 →
        (position degenerateMesh (g.idx 0) ≠ position degenerateMesh (g.idx 1) ∨
          (position degenerateMesh (g.idx 0)).hasNaN = true) ∧
        (position degenerateMesh (g.idx 1) ≠ position degenerateMesh (g.idx 2) ∨
          (position degenerateMesh (g.idx 1)).hasNaN = true) ∧
        (position degenerateMesh (g.idx 2) ≠ position degenerateMesh (g.idx 0) ∨
          (position degenerateMesh (g.idx 2)).hasNaN = true)) ∧
      ((∀ v ∈ g.mIndices, (position degenerateMesh v).hasNaN = false) →
        (g.mNumIndices = 2 →
          position degenerateMesh (g.idx 0) ≠ position degenerateMesh (g.idx 1)) ∧
        (g.mNumIndices = 3 →
          position degenerateMesh (g.idx 0) ≠ position degenerateMesh (g.idx 1) ∧
          position degenerateMesh (g.idx 1) ≠ position degenerateMesh (g.idx 2) ∧
          position degenerateMesh (g.idx 2) ≠ position degenerateMesh (g.idx 0))) ∧
      g.mIndices.Sublist [0, 2, 4] ∧
      g.mIndices.head? = [0, 2, 4].head? ∧
      g.mNumIndices ≤ 3 ∧
      3 - g.mNumIndices ≤ 2 :=
  ⟨by decide,
   C19_no_degenerate_face_remains_unless_nan degenerateScene 0 2 degenerateMesh ⟨[0, 2, 4]⟩
    rfl rfl (by decide) rfl⟩

/-! ## The two steps in sequence -/

theorem kindBit_iff_hasKind (k n : Nat) (hk : k < 4) (hn : 1 ≤ n) :
    kindBit n = 2 ^ k ↔ hasKind k n = true := by
  have h : k = 0 ∨ k = 1 ∨ k = 2 ∨ k = 3 := by omega
  rcases h with rfl | rfl | rfl | rfl
  · rw [kindBit_eq_point, hasKind_small 0 n (by decide)]
    simp
  · rw [kindBit_eq_line, hasKind_small 1 n (by decide)]
    simp
  · rw [kindBit_eq_triangle, hasKind_small 2 n (by decide)]
    simp
  · rw [kindBit_eq_polygon n hn, hasKind_three]
    simp

theorem classified_faces_pos (mesh : aiMesh) (hmask : mesh.mPrimitiveTypes = 0)
    (hpos : ∀ f ∈ mesh.mFaces, 1 ≤ f.mNumIndices) :
    ∀ f ∈ (DeterminePTypeHelperProcess.ExecuteMesh mesh).1.mFaces, 1 ≤ f.mNumIndices := by
  rw [ExecuteMesh_faces mesh hmask]
  intro f hf
  obtain ⟨g, hg, rfl⟩ := List.mem_map.1 hf
  exact classifyFace_length_pos _ g (hpos g hg)

theorem classified_testBit (mesh : aiMesh) (hmask : mesh.mPrimitiveTypes = 0) (k : Nat) :
    (DeterminePTypeHelperProcess.ExecuteMesh mesh).1.mPrimitiveTypes.testBit k = true ↔
      ∃ f ∈ (DeterminePTypeHelperProcess.ExecuteMesh mesh).1.mFaces,
        kindBit f.mNumIndices = 2 ^ k := by
  rw [ExecuteMesh_mask mesh hmask, foldl_kindBit_testBit]
  simp

theorem classified_consistent (mesh : aiMesh) (hmask : mesh.mPrimitiveTypes = 0)
    (hpos : ∀ f ∈ mesh.mFaces, 1 ≤ f.mNumIndices) :
    maskIsKindsOfFaces (DeterminePTypeHelperProcess.ExecuteMesh mesh).1 := by
  have hafter := classified_faces_pos mesh hmask hpos
  constructor
  · apply Nat.lt_pow_two_of_testBit (n := 4)
    intro k hk
    by_contra hne
    have ht : (DeterminePTypeHelperProcess.ExecuteMesh mesh).1.mPrimitiveTypes.testBit k
        = true := by simpa using hne
    obtain ⟨f, _, h⟩ := (classified_testBit mesh hmask k).1 ht
    exact kindBit_ne_high _ k hk h
  · intro k hk
    rw [and_two_pow_ne_zero, classified_testBit mesh hmask k]
    constructor
    · rintro ⟨f, hf, h⟩
      exact ⟨f, hf, (kindBit_iff_hasKind k _ hk (hafter f hf)).1 h⟩
    · rintro ⟨f, hf, h⟩
      exact ⟨f, hf, (kindBit_iff_hasKind k _ hk (hafter f hf)).2 h⟩

theorem classified_mask_ne_zero (mesh : aiMesh) (hmask : mesh.mPrimitiveTypes = 0)
    (hpos : ∀ f ∈ mesh.mFaces, 1 ≤ f.mNumIndices) (hne : mesh.mFaces ≠ []) :
    (DeterminePTypeHelperProcess.ExecuteMesh mesh).1.mPrimitiveTypes ≠ 0 := by
  have hafter := classified_faces_pos mesh hmask hpos
  have hne' : (DeterminePTypeHelperProcess.ExecuteMesh mesh).1.mFaces ≠ [] := by
    rw [ExecuteMesh_faces mesh hmask]
    simpa using hne
  obtain ⟨f, hf⟩ := List.exists_mem_of_ne_nil _ hne'
  obtain ⟨real, _, _, _, _, hbit⟩ := face_of_some_index_has_one_kind _ (hafter f hf)
  have ht := (classified_testBit mesh hmask real).2 ⟨f, hf, hbit⟩
  intro h0
  rw [h0] at ht
  simp at ht

/-- C20. For a scene in which every mesh has a zero mask, at least one face, at
least one index in every face and in-range face indices, whose node references
are valid and whose remap table size `mNumMeshes*5` is an `unsigned int`: after
`DeterminePTypeHelperProcess::Execute` the step `SortByPTypeProcess::Execute`
returns, without failed assertion and without division by zero.  Every mesh has
a nonzero mask when the splitter inspects it; on the split path the divisor
`num-1` is at least 1 and the mesh yields at least two output meshes; every node
with a non-empty reference list gets a non-empty new list. -/
theorem C20_classified_scene_is_split_without_fault (pScene : aiScene)
    (hzero : ∀ m ∈ pScene.mMeshes, m.mPrimitiveTypes = 0)
    (hfaces : ∀ m ∈ pScene.mMeshes, m.mFaces ≠ [])
    (hpos : ∀ m ∈ pScene.mMeshes, ∀ f ∈ m.mFaces, 1 ≤ f.mNumIndices)
    (_hrange : ∀ m ∈ pScene.mMeshes, ∀ f ∈ m.mFaces, ∀ v ∈ f.mIndices,
      ∃ l, m.mVertices = some l ∧ v < l.length)
    (hvalid : ∀ ms ∈ nodeLists pScene.mRootNode, ∀ r ∈ ms, r < pScene.mMeshes.length)
    (hsize : pScene.mMeshes.length * 5 < 2 ^ 32) :
    ∃ after,
      SortByPTypeProcess.Execute (DeterminePTypeHelperProcess.Execute pScene).1 =
        Except.ok after ∧
      (∀ m ∈ (DeterminePTypeHelperProcess.Execute pScene).1.mMeshes,
        m.mPrimitiveTypes ≠ 0 ∧
        (numKinds m.mPrimitiveTypes ≠ 1 →
          1 ≤ reserveDivisor (numKinds m.mPrimitiveTypes) ∧ 2 ≤ (outputsOf m).length)) ∧
      (∀ ms ∈ nodeLists (DeterminePTypeHelperProcess.Execute pScene).1.mRootNode, ms ≠ [] →
        ms.flatMap (positionsOf (DeterminePTypeHelperProcess.Execute pScene).1.mMeshes) ≠ []) ∧
      after.mRootNode =
        mapNode (fun refs => refs.flatMap
          (positionsOf (DeterminePTypeHelperProcess.Execute pScene).1.mMeshes))
          (DeterminePTypeHelperProcess.Execute pScene).1.mRootNode := by
  have hmeshes : (DeterminePTypeHelperProcess.Execute pScene).1.mMeshes =
      pScene.mMeshes.map fun m => (DeterminePTypeHelperProcess.ExecuteMesh m).1 := by
    simp [DeterminePTypeHelperProcess.Execute, List.map_map]
  have hroot : (DeterminePTypeHelperProcess.Execute pScene).1.mRootNode = pScene.mRootNode :=
    rfl
  have hall : ∀ m ∈ (DeterminePTypeHelperProcess.Execute pScene).1.mMeshes,
      m.mPrimitiveTypes ≠ 0 ∧ maskIsKindsOfFaces m := by
    intro m hm
    rw [hmeshes] at hm
    obtain ⟨m0, hm0, rfl⟩ := List.mem_map.1 hm
    exact ⟨classified_mask_ne_zero m0 (hzero m0 hm0) (hpos m0 hm0) (hfaces m0 hm0),
      classified_consistent m0 (hzero m0 hm0) (hpos m0 hm0)⟩
  have hcount : ∀ m ∈ (DeterminePTypeHelperProcess.Execute pScene).1.mMeshes,
      (outputsOf m).length = numKinds m.mPrimitiveTypes ∧ 1 ≤ numKinds m.mPrimitiveTypes := by
    intro m hm
    exact ⟨outputsOf_length m (hall m hm).2, numKinds_pos _ (hall m hm).1 (hall m hm).2.1⟩
  have hout : ∀ m ∈ (DeterminePTypeHelperProcess.Execute pScene).1.mMeshes,
      outputsOf m ≠ [] := by
    intro m hm hnil
    have := hcount m hm
    rw [hnil] at this
    simp at this
    omega
  have hlen : (DeterminePTypeHelperProcess.Execute pScene).1.mMeshes.length =
      pScene.mMeshes.length := by
    rw [hmeshes, List.length_map]
  have hvalid' : ∀ ms ∈ nodeLists (DeterminePTypeHelperProcess.Execute pScene).1.mRootNode,
      ∀ r ∈ ms, r < (DeterminePTypeHelperProcess.Execute pScene).1.mMeshes.length := by
    rw [hroot, hlen]
    exact hvalid
  obtain ⟨after, hexec, hnode⟩ := Execute_returns (DeterminePTypeHelperProcess.Execute pScene).1
    (fun m hm => (hall m hm).1) hout hvalid' (by rw [hlen]; exact hsize)
  refine ⟨after, hexec, ?_, ?_, hnode⟩
  · intro m hm
    refine ⟨(hall m hm).1, ?_⟩
    intro h1
    have hc := hcount m hm
    have hle := numKinds_le m.mPrimitiveTypes
    constructor
    · unfold reserveDivisor
      omega
    · omega
  · intro ms hms hne
    exact positionsOf_ne_nil _ ms hout (hvalid' ms hms) hne

/-- C20, at the scene of the end-to-end example. -/
theorem C20_classified_scene_is_split_without_fault_witness :
    ∃ after,
      SortByPTypeProcess.Execute (DeterminePTypeHelperProcess.Execute exampleScene).1 =
        Except.ok after ∧
      (∀ m ∈ (DeterminePTypeHelperProcess.Execute exampleScene).1.mMeshes,
        m.mPrimitiveTypes ≠ 0 ∧
        (numKinds m.mPrimitiveTypes ≠ 1 →
          1 ≤ reserveDivisor (numKinds m.mPrimitiveTypes) ∧ 2 ≤ (outputsOf m).length)) ∧
      (∀ ms ∈ nodeLists (DeterminePTypeHelperProcess.Execute exampleScene).1.mRootNode,
        ms ≠ [] →
        ms.flatMap (positionsOf (DeterminePTypeHelperProcess.Execute exampleScene).1.mMeshes)
          ≠ []) ∧
      after.mRootNode =
        mapNode (fun refs => refs.flatMap
          (positionsOf (DeterminePTypeHelperProcess.Execute exampleScene).1.mMeshes))
          (DeterminePTypeHelperProcess.Execute exampleScene).1.mRootNode :=
  C20_classified_scene_is_split_without_fault exampleScene (by decide) (by decide) (by decide)
    (by decide) (by decide) (by decide)

end Assimp
